import Mathlib

/-! # showconsole: the boot logging daemon `blogd` and its control client `blogctl`

A shallow embedding of `src/blogctl.c` and of the parts of `src/libconsole`
(`console.c`, `readpw.c`, `epoll.c`) that serve the control protocol, the
temporary buffer and the password prompt.

Conventions of the embedding.

* A byte is a natural number below 256; a C string is the list of its bytes
  without the terminating NUL.
* `libconsole.h` is not part of the sources at hand.  The command magics, the
  multi-answer string, `MAX_PASSLEN`, `TRANS_BUFFER_SIZE` and the control
  characters are therefore parameters (`Magic`, `Keys`, ...).
* System calls are answered by explicit scripts: every `write(2)`/`send(2)`
  takes its result from a list of `WriteRes`, so that a function that loops on
  a descriptor is defined by recursion on that list.
-/

namespace Showconsole

/-! ## Bytes, strings, machine words -/

/-- The value of `(char)-1` seen as a byte. -/
def CHAR_M1 : Nat := 255

/-- Width of `size_t`, `ssize_t` and of a pointer. -/
def WORD : Nat := 2 ^ 64

/-- The constant `SSIZE_MAX`. -/
def SSIZE_MAX : Int := 2 ^ 63 - 1

/-- The constant `UCHAR_MAX`. -/
def UCHAR_MAX : Int := 255

/-- Conversion of an `ssize_t` to `size_t`. -/
def toSizeT (r : Int) : Nat := (r % (WORD : Int)).toNat

/-- The four bytes of `htole32 v` in memory order. -/
def htole32 (v : Nat) : List Nat :=
  [v % 256, v / 256 % 256, v / 65536 % 256, v / 16777216 % 256]

/-! ## Constants of `libconsole.h` -/

/-- The command magics `MAGIC_*` of `libconsole.h`; the header is not among the
sources, so the values are parameters. -/
structure Magic where
  ASK_PWD : Nat
  CACHED_PWD : Nat
  CHROOT : Nat
  SYS_INIT : Nat
  PRG_STOP : Nat
  PRG_CONT : Nat
  UPDATE : Nat
  HIDE_SPLASH : Nat
  SHOW_SPLASH : Nat
  CHMOD : Nat
  DETAILS : Nat
  PING : Nat
  DEACTIVATE : Nat
  REACTIVATE : Nat
  QUIT : Nat
  FINAL : Nat
  CLOSE : Nat
deriving DecidableEq, Repr

/-- The case labels of the `switch` in `socket_handler`, in source order. -/
def Magic.serverLabels (M : Magic) : List Nat :=
  [M.ASK_PWD, M.CACHED_PWD, M.CHROOT, M.SYS_INIT, M.PRG_STOP, M.PRG_CONT, M.UPDATE,
   M.HIDE_SPLASH, M.SHOW_SPLASH, M.CHMOD, M.DETAILS, M.PING, M.DEACTIVATE, M.REACTIVATE,
   M.QUIT, M.FINAL, M.CLOSE]

/-- The case labels of the `switch` in `main` of `blogctl.c`, in source order
(the last one is `'?'`). -/
def Magic.clientLabels (M : Magic) : List Nat :=
  [M.CHROOT, M.PING, M.SYS_INIT, M.QUIT, M.FINAL, M.CLOSE, M.DEACTIVATE, M.REACTIVATE, 63]

/-- What the C compiler and the `char` type guarantee about the magics: the
labels of one `switch` are pairwise different, every magic is a plain `char`
(below 128, so `char` and `unsigned char` agree on it), and none is the
sentinel `(char)-1`, which follows from being below 128. -/
def Magic.WellFormed (M : Magic) : Prop :=
  M.serverLabels.Nodup ∧ M.clientLabels.Nodup ∧ ∀ b ∈ M.serverLabels, b < 128

instance (M : Magic) : Decidable M.WellFormed := by
  unfold Magic.WellFormed; infer_instance

/-- A sample assignment of the magics (printable letters), used to run the
definitions on concrete inputs. -/
def Magic.sample : Magic where
  ASK_PWD := 42
  CACHED_PWD := 99
  CHROOT := 82
  SYS_INIT := 83
  PRG_STOP := 65
  PRG_CONT := 97
  UPDATE := 85
  HIDE_SPLASH := 72
  SHOW_SPLASH := 36
  CHMOD := 67
  DETAILS := 33
  PING := 80
  DEACTIVATE := 68
  REACTIVATE := 114
  QUIT := 81
  FINAL := 70
  CLOSE := 76

/-- Modelled from the spec: `ANSWER_ACK` of the missing `libconsole.h`, the
string `"\x06"`. -/
def ANSWER_ACK : List Nat := [6]

/-- Modelled from the spec: `ANSWER_NCK` of the missing `libconsole.h`, the
string `"\x15"`. -/
def ANSWER_NCK : List Nat := [21]

/-- Modelled from the spec: `ANSWER_ENQ` of the missing `libconsole.h`, the
string `"\x05"`. -/
def ANSWER_ENQ : List Nat := [5]

/-! ## `write(2)` results and `safeout` -/

/-- The result of one `write(2)` or `send(2)` call. -/
inductive WriteRes where
  /-- The call returns `p` (never more than was asked for). -/
  | ok (p : Nat)
  | epipe
  | eintr
  /-- The call fails with `EAGAIN`/`EWOULDBLOCK`; `canWrite` is what the following
  `can_write(fd, 100)` of `safeout` answers. -/
  | eagain (canWrite : Bool)
  /-- The call fails with `EIO`; `reconnected` is the result of `(*vc_reconnect)(fd)`,
  if that hook is set. -/
  | eio (reconnected : Bool)
  /-- The call fails with any other error. -/
  | other
deriving DecidableEq, Repr

/-- How a routine that may call `error()` ends. -/
inductive Res (σ : Type) where
  /-- The routine returned. -/
  | ok (s : σ)
  /-- The routine called `error()`: the process terminates with `EXIT_FAILURE`. -/
  | fatal (s : σ)
  /-- The routine read or wrote through an invalid pointer (undefined behaviour,
  in practice a segmentation fault). -/
  | fault (s : σ)
  /-- The script of system call results ran out before the routine returned. -/
  | stuck
deriving DecidableEq, Repr

/-- Sequencing: the continuation runs only after a normal return. -/
def Res.bind {σ : Type} (r : Res σ) (f : σ → Res σ) : Res σ :=
  match r with
  | .ok s => f s
  | .fatal s => .fatal s
  | .fault s => .fault s
  | .stuck => .stuck

/-- The part of the process state `safeout` and `copyout` work on. -/
structure Out where
  /-- Results of the coming `write`/`send` calls, in call order. -/
  script : List WriteRes
  /-- Bytes accepted so far, per call: descriptor and bytes. -/
  sent : List (Int × List Nat)
  /-- The descriptor set `blocked`. -/
  blocked : List Int
  /-- Descriptors re-armed with `epoll_reenable`, in call order. -/
  reenabled : List Int
  /-- The flag `signaled`. -/
  signaled : Int
  /-- Whether the hook `vc_reconnect` is set. -/
  reconnect : Bool
deriving DecidableEq, Repr

/-- The byte count of one `write` in `safeout`/`copyout`:
`(max < 1) ? 1 : ((s < (size_t)max) ? s : (size_t)max)`. -/
def chunkLen (s : Nat) (max : Int) : Nat :=
  if max < 1 then 1 else if s < toSizeT max then s else toSizeT max

/-- The macro `lerror`: a warning and `goto out` when `signaled` is set,
otherwise `error()`. -/
def lerror (o : Out) : Res Out :=
  if o.signaled ≠ 0 then .ok o else .fatal o

/-- The function `safeout (fd, ptr, s, max)` of `console.c`; `buf` holds the `s` bytes at `ptr`.
One step per `write`, taken from the script. -/
def safeoutLoop (fd : Int) (max : Int) : List WriteRes → List Nat → Out → Res Out
  | _, [], o => .ok o
  | [], _ :: _, _ => .stuck
  | r :: rest, b :: bs, o =>
    let o1 := { o with script := rest }
    match r with
    | .ok p =>
      let n := min p (chunkLen (bs.length + 1) max)
      safeoutLoop fd max rest ((b :: bs).drop n)
        { o1 with sent := o1.sent ++ [(fd, (b :: bs).take n)] }
    | .epipe => .ok o1
    | .eintr => safeoutLoop fd max rest (b :: bs) o1
    | .eagain canWrite =>
      if canWrite then safeoutLoop fd max rest (b :: bs) o1
      else .ok { o1 with blocked := fd :: o1.blocked, reenabled := o1.reenabled ++ [fd] }
    | .eio reconnected =>
      if !o1.reconnect then lerror o1
      else if !reconnected then lerror o1
      else safeoutLoop fd max rest (b :: bs) o1
    | .other => lerror o1

/-- The function `safeout` run on the script held in the state. -/
def safeout (fd : Int) (buf : List Nat) (max : Int) (o : Out) : Res Out :=
  safeoutLoop fd max o.script buf o

/-- All bytes accepted on `fd`, in order. -/
def sentOn (fd : Int) (sent : List (Int × List Nat)) : List Nat :=
  (sent.filter (fun e => e.1 == fd)).flatMap (fun e => e.2)

/-- An `Out` with nothing sent yet and the given script of write results. -/
def Out.init (script : List WriteRes) : Out :=
  { script := script, sent := [], blocked := [], reenabled := [], signaled := 0,
    reconnect := false }

/-! ## `safein` -/

/-- Errors of `read(2)` as far as `safein` and `readpw` tell them apart. -/
inductive Errno where
  | EINTR | EAGAIN | EIO | EPIPE | EOVERFLOW | EINVAL | ENOENT | EACCES | EROFS | EPERM
  | EBADFD | ECHILD
  /-- The value 0: no error recorded. -/
  | none
  /-- Any other error number. -/
  | other (n : Nat)
deriving DecidableEq, Repr

/-- What `safein` meets on a descriptor: the bytes that can be read now
(`FIONREAD` reports their number) and, for the case that there are none but the
descriptor polls readable, the error of the `read(2)` that follows (after the
retries on `EINTR`/`EAGAIN`). -/
structure Inp where
  avail : List Nat
  err : Option Errno
deriving DecidableEq, Repr

/-- The result of `safein`: the return value `r`, the bytes stored at the start
of the caller's buffer, and what is left on the descriptor. -/
structure SafeinRet where
  r : Int
  stored : List Nat
  rest : Inp
deriving DecidableEq, Repr

/-- The function `safein (fd, ptr, s)` of `console.c`.  `noexit` is `safein_noexit || signaled`.
With `t` bytes readable the second loop reads `min t s` of them; with none,
`can_read(fd, 0)` fails and 0 is returned with the buffer untouched, unless the
descriptor polls readable and `read` fails: then the return value is -1 for
`EPIPE` or when `noexit` holds, and `lerror` ends the process otherwise.
`none` stands for that call of `error()`. -/
def safein (noexit : Bool) (inp : Inp) (s : Nat) : Option SafeinRet :=
  match inp.avail with
  | [] =>
    match inp.err with
    | Option.none => some { r := 0, stored := [], rest := inp }
    | some e =>
      if e = Errno.EPIPE ∨ noexit then
        some { r := -1, stored := [], rest := { inp with err := Option.none } }
      else Option.none
  | b :: bs =>
    let t := min (bs.length + 1) s
    some { r := t, stored := (b :: bs).take t, rest := { inp with avail := (b :: bs).drop t } }

/-- Overwrite the start of a buffer with the bytes read (`read` stores at `ptr`). -/
def store (buf : List Nat) (bytes : List Nat) : List Nat :=
  bytes ++ buf.drop bytes.length

/-! ## The client `blogctl` -/

/-- One row of the table `cmds[]` in `getcmd`. -/
structure CmdEntry where
  cmd : List Nat
  req : Nat
  arg : Bool
deriving DecidableEq, Repr

/-- The table `cmds[]` of `getcmd`, up to the empty end marker. -/
def cmds (M : Magic) : List CmdEntry :=
  [ ⟨[114, 111, 111, 116, 61], M.CHROOT, true⟩,                                   -- "root="
    ⟨[112, 105, 110, 103], M.PING, false⟩,                                        -- "ping"
    ⟨[114, 101, 97, 100, 121], M.SYS_INIT, false⟩,                                -- "ready"
    ⟨[113, 117, 105, 116], M.QUIT, false⟩,                                        -- "quit"
    ⟨[102, 105, 110, 97, 108], M.FINAL, false⟩,                                   -- "final"
    ⟨[99, 108, 111, 115, 101], M.CLOSE, false⟩,                                   -- "close"
    ⟨[100, 101, 97, 99, 116, 105, 118, 97, 116, 101], M.DEACTIVATE, false⟩,        -- "deactivate"
    ⟨[114, 101, 97, 99, 116, 105, 118, 97, 116, 101], M.REACTIVATE, false⟩ ]       -- "reactivate"

/-- The test `strncmp(a, b, n) == 0` on C strings. -/
def strncmpEq (a b : List Nat) (n : Nat) : Bool := a.take n == b.take n

/-- The test `strcmp(a, b) == 0` on C strings. -/
def strcmpEq (a b : List Nat) : Bool := a == b

/-- The call `strchr(s, '=')`: the rest of `s` from its first `'='` on (empty when
there is none). -/
def strchrEq (s : List Nat) : List Nat := s.dropWhile (fun c => c != 61)

/-- The variables `optind` and `optarg` of `getopt.h`. -/
structure Getopt where
  optind : Nat
  optarg : Option (List Nat)
deriving DecidableEq, Repr

/-- The `for` loop of `getcmd` over the table: the value of `ret` and of `optarg`
when it ends. -/
def getcmdLoop (a : List Nat) : List CmdEntry → Nat × Option (List Nat)
  | [] => (CHAR_M1, Option.none)
  | c :: cs =>
    if c.arg then
      if strncmpEq c.cmd a c.cmd.length then (c.req, some ((strchrEq a).drop 1))
      else getcmdLoop a cs
    else
      if strcmpEq c.cmd a then (c.req, Option.none)
      else getcmdLoop a cs

/-- The function `getcmd (argc, argv)` of `blogctl.c`; `argc` is the length of `argv`. -/
def getcmd (M : Magic) (argv : List (List Nat)) (g : Getopt) : Nat × Getopt :=
  if argv.length ≤ 1 then (CHAR_M1, g)
  else
    match argv.get? g.optind with
    | some (c :: cs) =>
      let r := getcmdLoop (c :: cs) (cmds M)
      (r.1, { optind := g.optind + 1, optarg := r.2 })
    | _ => (CHAR_M1, { g with optarg := Option.none })

/-- The environment of one run of the client. -/
structure ClientEnv where
  /-- Whether `getsocket` returned a descriptor. -/
  connected : Bool
  /-- Results of the `write` calls of `safeout` on the socket. -/
  script : List WriteRes
  /-- The answer of `can_read(fdsock, 1000)`. -/
  canRead : Bool
  /-- What `safein` meets on the socket after that. -/
  inp : Inp
deriving DecidableEq, Repr

/-- The outcome of one run of the client: the exit status, the bytes the socket
accepted, and the bytes `safein` stored in `answer` (`none` when the client
never came to read an answer). -/
structure ClientRun where
  status : Nat
  sent : List Nat
  received : Option (List Nat)
deriving DecidableEq, Repr

/-- The constant `EXIT_FAILURE`, the status after `error()`. -/
def EXIT_FAILURE : Nat := 1

/-- The message built by `asprintf(&message, "%c\002%c%s%n", cmd[0], (int)(strlen(root) + 1), root, &len)`
together with its terminating NUL, that is the `len+1` bytes given to `safeout`.
The second `%c` prints its argument converted to `unsigned char`. -/
def chrootMessage (cmd0 : Nat) (root : List Nat) : List Nat :=
  [cmd0, 2, (root.length + 1) % 256] ++ root ++ [0]

/-- The array `cmd[2]` as the string given to `safeout (fdsock, cmd, strlen(cmd)+1, ...)`. -/
def plainMessage (cmd0 : Nat) : List Nat :=
  if cmd0 = 0 then [0] else [cmd0, 0]

/-- The tail of `main` after the request is out: wait for the answer, then
`return answer[0] == '\\x6' ? 0 : 1`.  Before the read `answer[0]` is `'\\x15'`;
`safein` is entered with `answer[0] = '\\0'`. -/
def clientAnswer (env : ClientEnv) (sent : List Nat) : ClientRun :=
  if env.canRead then
    match safein false env.inp 2 with
    | Option.none => { status := EXIT_FAILURE, sent := sent, received := Option.none }
    | some ret =>
      let answer := store [0, 0] ret.stored
      { status := if answer.head? = some 6 then 0 else 1, sent := sent,
        received := some ret.stored }
  else
    { status := if (21 : Nat) = 6 then 0 else 1, sent := sent, received := Option.none }

/-- The run of `safeout` on the client socket followed by the wait for the
answer; `none` when the script of write results runs out inside `safeout`. -/
def clientSend (env : ClientEnv) (msg : List Nat) : Option ClientRun :=
  match safeout 3 msg SSIZE_MAX (Out.init env.script) with
  | .ok o => some (clientAnswer env (sentOn 3 o.sent))
  | .fatal o => some { status := EXIT_FAILURE, sent := sentOn 3 o.sent, received := Option.none }
  | .fault _ => Option.none
  | .stuck => Option.none

/-- The function `main (argc, argv)` of `blogctl.c`.  The socket is descriptor 3 and `optind`
starts at 1; `asprintf` is taken to succeed. -/
def main (M : Magic) (env : ClientEnv) (argv : List (List Nat)) : Option ClientRun :=
  if !env.connected then some { status := EXIT_FAILURE, sent := [], received := Option.none }
  else
    let g := getcmd M argv { optind := 1, optarg := Option.none }
    let cmd0 := g.1
    if cmd0 = CHAR_M1 then some { status := 1, sent := [], received := Option.none }
    else if cmd0 = M.CHROOT then
      let root := g.2.optarg.getD []
      let len : Int := root.length
      if len > UCHAR_MAX ∨ len < 1 then
        some { status := EXIT_FAILURE, sent := [], received := Option.none }
      else clientSend env (chrootMessage cmd0 root)
    else if cmd0 = M.PING ∨ cmd0 = M.SYS_INIT ∨ cmd0 = M.QUIT ∨ cmd0 = M.FINAL ∨ cmd0 = M.CLOSE
        ∨ cmd0 = M.DEACTIVATE ∨ cmd0 = M.REACTIVATE then
      clientSend env (plainMessage cmd0)
    else some { status := 1, sent := [], received := Option.none }

/-- Encode a text as bytes (for examples). -/
def str (t : String) : List Nat := t.toList.map Char.toNat

/-! ## `readpw` -/

/-- The control characters `readpw` switches on.  `CR`, `NL` and `BS` come from the
missing `libconsole.h`, `CERASE`, `CKILL` and `CEOF` from `<sys/ttydefaults.h>`;
all are parameters. -/
structure Keys where
  CR : Nat
  NL : Nat
  BS : Nat
  CERASE : Nat
  CKILL : Nat
  CEOF : Nat
deriving DecidableEq, Repr

/-- The case labels of the `switch` in `readpw`, in source order. -/
def Keys.labels (K : Keys) : List Nat := [0, K.CR, K.NL, K.BS, K.CERASE, K.CKILL, K.CEOF]

/-- What the C compiler guarantees about the labels of the `switch` (pairwise
different), and that each is a 7-bit character. -/
def Keys.WellFormed (K : Keys) : Prop := K.labels.Nodup ∧ ∀ c ∈ K.labels, c < 128

instance (K : Keys) : Decidable K.WellFormed := by
  unfold Keys.WellFormed; infer_instance

/-- The usual values: `CTL('M')`, `CTL('J')`, `CTL('H')`, `0177`, `CTRL('u')`, `CTRL('d')`. -/
def Keys.ascii : Keys :=
  { CR := 13, NL := 10, BS := 8, CERASE := 127, CKILL := 21, CEOF := 4 }

/-- The result of one `read(fd, &c, 1)` in `readpw`.  A return value of 0 leaves `c` as it
was and is not told apart by `readpw`, so it is covered by `byte` with the value
`c` happens to hold. -/
inductive ReadRes where
  | byte (c : Nat)
  | fail (e : Errno)
deriving DecidableEq, Repr

/-- The state of `readpw`, and its outcome once `ret` is set. -/
structure PwRun where
  /-- The return value; `none` while the function is still reading. -/
  ret : Option Int
  /-- The value of `errno`. -/
  errno : Errno
  /-- The buffer `pass`. -/
  pass : List Nat
  /-- The offset `ptr - pass`. -/
  ptr : Nat
  /-- The offsets in `pass` written so far, latest first. -/
  writes : List Nat
  /-- Number of backspaces echoed with `wput`. -/
  echoed : Nat
deriving DecidableEq, Repr

/-- The assignment `*ptr = v`. -/
def PwRun.poke (st : PwRun) (v : Nat) : PwRun :=
  { st with pass := st.pass.set st.ptr v, writes := st.ptr :: st.writes }

/-- The value of `ascval`: `c` in eight-bit mode, `c & 0177` otherwise. -/
def ascvalOf (eightbit : Bool) (c : Nat) : Nat := if eightbit then c else c % 128

/-- The body of the `switch (ascval)` of `readpw`; `maxlen` is `MAX_PASSLEN`, at least 1.
The result has `ret` set when the function returns in this round. -/
def readpwSwitch (K : Keys) (maxlen : Nat) (ascval : Nat) (st : PwRun) : PwRun :=
  if ascval = 0 then { st.poke 0 with ret := some 0 }
  else if ascval = K.CR ∨ ascval = K.NL then
    { st.poke 0 with ret := some (st.ptr : Int) }
  else if ascval = K.BS ∨ ascval = K.CERASE then
    if 0 < st.ptr then { st with ptr := st.ptr - 1, echoed := st.echoed + 1 } else st
  else if ascval = K.CKILL then
    { st with ptr := 0, echoed := st.echoed + st.ptr }
  else if ascval = K.CEOF then { st with ret := some 0 }
  else if maxlen - 1 ≤ st.ptr then { st with errno := Errno.EOVERFLOW, ret := some (-1) }
  else { st.poke ascval with ptr := st.ptr + 1 }

/-- The `while` loop of `readpw`, one round per `read`. -/
def readpwLoop (K : Keys) (maxlen : Nat) (eightbit : Bool) : List ReadRes → PwRun → PwRun
  | [], st => st
  | r :: rest, st =>
    match r with
    | .fail e =>
      if e = Errno.EINTR ∨ e = Errno.EAGAIN then
        readpwLoop K maxlen eightbit rest { st with errno := e }
      else { st with errno := e, ret := some (-1) }
    | .byte c =>
      let st1 := readpwSwitch K maxlen (ascvalOf eightbit c) { st with errno := Errno.none }
      match st1.ret with
      | some _ => st1
      | Option.none => readpwLoop K maxlen eightbit rest st1

/-- The state before the loop of `readpw`: `ptr = pass` and `cp.eol = *ptr = '\\0'`. -/
def PwRun.start (pass : List Nat) : PwRun :=
  { ret := Option.none, errno := Errno.none, pass := pass.set 0 0, ptr := 0, writes := [0],
    echoed := 0 }

/-- What the loop of `readpw` keeps between two rounds, with `line` the bytes typed
and not erased. -/
structure PwInv (maxlen : Nat) (st : PwRun) (line : List Nat) : Prop where
  running : st.ret = Option.none
  ptr_eq : st.ptr = line.length
  held : st.pass.take st.ptr = line
  room : st.ptr + 1 ≤ maxlen
  size : maxlen ≤ st.pass.length

/-- The function `readpw (fd, pass, eightbit)` of `readpw.c` on the script of `read` results. -/
def readpw (K : Keys) (maxlen : Nat) (eightbit : Bool) (script : List ReadRes)
    (pass : List Nat) : PwRun :=
  readpwLoop K maxlen eightbit script (PwRun.start pass)

/-- A byte that takes the `default` branch of the `switch`. -/
def Keys.Ordinary (K : Keys) (c : Nat) : Prop := c ∉ K.labels

instance (K : Keys) (c : Nat) : Decidable (K.Ordinary c) := by
  unfold Keys.Ordinary; infer_instance

/-- The reference line editor in the words of the specification, without a
length limit: an ordinary byte is appended; BS or CERASE removes the last byte,
if any; CKILL empties the line; CR or NL ends the input with the length of the
line and the line; CEOF or NUL ends it with 0.  `none`: the input ended first. -/
def editLine (K : Keys) : List Nat → List Nat → Option (Int × Option (List Nat))
  | [], _ => Option.none
  | c :: cs, line =>
    if c = K.CR ∨ c = K.NL then some ((line.length : Int), some line)
    else if c = K.CEOF ∨ c = 0 then some (0, Option.none)
    else if c = K.BS ∨ c = K.CERASE then editLine K cs line.dropLast
    else if c = K.CKILL then editLine K cs []
    else editLine K cs (line ++ [c])

/-- The reference line editor with the length limit of `readpw`: as `editLine`, but an
ordinary byte that arrives when the line holds `maxlen - 1` bytes ends the input
with -1. -/
def editLineMax (K : Keys) (maxlen : Nat) : List Nat → List Nat → Option (Int × Option (List Nat))
  | [], _ => Option.none
  | c :: cs, line =>
    if c = K.CR ∨ c = K.NL then some ((line.length : Int), some line)
    else if c = K.CEOF ∨ c = 0 then some (0, Option.none)
    else if c = K.BS ∨ c = K.CERASE then editLineMax K maxlen cs line.dropLast
    else if c = K.CKILL then editLineMax K maxlen cs []
    else if maxlen - 1 ≤ line.length then some (-1, Option.none)
    else editLineMax K maxlen cs (line ++ [c])

/-- The outcome `r` of `readpw` is the one the reference editor prescribes: the same
return value (none while input is missing), and after CR or NL the line sits
at the start of `pass`, followed by a NUL. -/
def PwRun.Agrees (r : PwRun) : Option (Int × Option (List Nat)) → Prop
  | Option.none => r.ret = Option.none
  | some (v, Option.none) => r.ret = some v
  | some (v, some line) =>
    r.ret = some v ∧ r.pass.take line.length = line ∧ r.pass.get? line.length = some 0

/-! ## The daemon state -/

/-- The signal numbers used by the daemon (Linux values). -/
def SIGTERM : Int := 15

/-- The signal number of `SIGIO`. -/
def SIGIO : Int := 29

/-- The signal number of `SIGSYS`. -/
def SIGSYS : Int := 31

/-- What the missing `libconsole.h` and the functions outside the sources
contribute: the magics, the string `ANSWER_MLT`, the function `frobnicate` (as a
function on the bytes it is given), `MAX_PASSLEN`, `TRANS_BUFFER_SIZE`, the factor
of `sizeof(temp)` (4, or 8 on s390) and whether `insert` of `listing.h` puts a new
entry first in the list. -/
structure Cfg where
  M : Magic
  ANSWER_MLT : List Nat
  frobnicate : List Nat → List Nat
  /-- The function `frobnicate (in, len)` works in place on `len` bytes. -/
  frobnicate_length : ∀ l, (frobnicate l).length = l.length
  MAX_PASSLEN : Nat
  TRANS_BUFFER_SIZE : Nat
  tempFactor : Nat
  insertFirst : Bool

/-- What is known of these parameters without the header: the magics are well
formed, `ANSWER_MLT` is a non-empty string, `MAX_PASSLEN` and `TRANS_BUFFER_SIZE` are
positive sizes. -/
def Cfg.WellFormed (C : Cfg) : Prop :=
  C.M.WellFormed ∧ C.ANSWER_MLT ≠ [] ∧ C.ANSWER_MLT.length < 2 ^ 63 ∧ 0 < C.MAX_PASSLEN ∧
    0 < C.TRANS_BUFFER_SIZE ∧ 0 < C.tempFactor

instance (C : Cfg) : Decidable C.WellFormed := by
  unfold Cfg.WellFormed; infer_instance

/-- A sample configuration: the sample magics, `ANSWER_MLT` a tab, `frobnicate` the
exclusive or with 42 on every byte, small buffers. -/
def Cfg.sample : Cfg :=
  { M := Magic.sample, ANSWER_MLT := [9], frobnicate := fun l => l.map (fun b => b ^^^ 42),
    frobnicate_length := fun _ => List.length_map _ _,
    MAX_PASSLEN := 16, TRANS_BUFFER_SIZE := 4, tempFactor := 4, insertFirst := true }

/-- One `struct console` as far as the handlers read it. -/
structure Console where
  fd : Int
  /-- The bit `CON_CONSDEV` of `flags`. -/
  consdev : Bool
  max_canon : Int
  pid : Int
deriving DecidableEq, Repr

/-- The handler functions that are registered with the event registry. -/
inductive Handler where
  | epoll_console_in
  | epoll_fifo_in
  | epoll_socket_accept
  | socket_handler
  | epoll_socket_answer
  | epoll_write_watchdog
deriving DecidableEq, Repr

/-- One `struct epolls` of the list `lpolls`; `id` stands for its address. -/
structure Watch where
  id : Nat
  fd : Int
  handle : Handler
deriving DecidableEq, Repr

/-- The event masks the registry uses. -/
inductive Events where
  /-- The mask `EPOLLIN|EPOLLPRI|EPOLLRDHUP`. -/
  | read
  /-- The mask `EPOLLOUT|EPOLLONESHOT|EPOLLPRI|EPOLLERR`. -/
  | write
  /-- The mask `EPOLLOUT|EPOLLONESHOT`. -/
  | once
deriving DecidableEq, Repr

/-- One descriptor in the kernel's poll set: its mask and `data.ptr`. -/
structure KEntry where
  fd : Int
  events : Events
  ptr : Nat
deriving DecidableEq, Repr

/-- The shared password area: the `MAX_PASSLEN` bytes at `password` and the value
`*pwsize` behind them. -/
structure PwArea where
  bytes : List Nat
  size : Int
deriving DecidableEq, Repr

/-- The temporary buffer: the array `temp`, the pointers `thead` and `ttail` as
addresses, and `tavail`.  `base` is the address of `temp`. -/
structure Temp where
  base : Nat
  mem : List Nat
  thead : Nat
  ttail : Nat
  tavail : Int
deriving DecidableEq, Repr

/-- What has been done to the outside world, in order (a trace). -/
inductive Act where
  | close (fd : Int)
  | rename_log
  | chdir (path : Option (List Nat))
  | chroot_here
  | chdir_root
  | set_signal_ign (sig : Int)
  | tioccons (fd : Int)
  | dup2 (a b : Int)
  | tcdrain (fd : Int)
  | flushlog
  | parselog (bytes : List Nat)
  | copylog (bytes : List Nat)
  | warn
  | ask
deriving DecidableEq, Repr

/-- The file-scope variables of `console.c` and `epoll.c`, with the outside world
reduced to the script of `write` results (in `out`), the kernel's poll set and
the trace `acts`. -/
structure Daemon where
  out : Out
  errno : Errno
  final : Int
  /-- Whether `_arg0` is set. -/
  arg0 : Bool
  nsigio : Int
  nsigsys : Int
  fdread : Int
  pwprompt : Option (List Nat)
  /-- The pointers `password` and `pwsize`: both null, or the shared area. -/
  pw : Option PwArea
  asking : Int
  cons : List Console
  lpolls : List Watch
  nextId : Nat
  evmax : Int
  kset : List KEntry
  temp : Temp
  safein_noexit : Bool
  acts : List Act

/-- The flag `signaled`. -/
def Daemon.signaled (d : Daemon) : Int := d.out.signaled

/-- The call `close(fd)`; the kernel drops a closed descriptor from the poll set. -/
def Daemon.close (d : Daemon) (fd : Int) : Daemon :=
  { d with acts := d.acts ++ [Act.close fd], kset := d.kset.filter (fun e => e.fd != fd) }

/-- The call `insert(&ep->watch, head)` on the list `lpolls`. -/
def insertWatch (C : Cfg) (w : Watch) (l : List Watch) : List Watch :=
  if C.insertFirst then w :: l else l ++ [w]

/-- The function `epoll_addition (fd, fptr, flags)`: a new entry, `evmax++`, `EPOLL_CTL_ADD`, which
fails (and ends the daemon through `error()`) when `fd` is in the poll set already. -/
def epoll_addition (C : Cfg) (fd : Int) (h : Handler) (ev : Events) (d : Daemon) : Res Daemon :=
  let w : Watch := { id := d.nextId, fd := fd, handle := h }
  let d1 := { d with lpolls := insertWatch C w d.lpolls, nextId := d.nextId + 1,
                     evmax := d.evmax + 1 }
  if d1.kset.any (fun e => e.fd == fd) then .fatal d1
  else .ok { d1 with kset := d1.kset ++ [{ fd := fd, events := ev, ptr := w.id }] }

/-- The function `epoll_addread (fd, fptr)`. -/
def epoll_addread (C : Cfg) (fd : Int) (h : Handler) (d : Daemon) : Res Daemon :=
  epoll_addition C fd h Events.read d

/-- The function `epoll_addwrite (fd, fptr)`. -/
def epoll_addwrite (C : Cfg) (fd : Int) (h : Handler) (d : Daemon) : Res Daemon :=
  epoll_addition C fd h Events.write d

/-- The effect of `epoll_ctl(epfd, EPOLL_CTL_MOD, fd, &ev)` on the poll set; `none` when `fd` is
not in it (the call fails). -/
def ctlMod (fd : Int) (ev : Events) (ptr : Nat) (k : List KEntry) : Option (List KEntry) :=
  if k.any (fun e => e.fd == fd) then
    some (k.map (fun e => if e.fd == fd then { fd := fd, events := ev, ptr := ptr } else e))
  else Option.none

/-- The function `epoll_answer_once (fd, fptr)`: a new entry, `evmax++`, `EPOLL_CTL_MOD`. -/
def epoll_answer_once (C : Cfg) (fd : Int) (h : Handler) (d : Daemon) : Res Daemon :=
  let w : Watch := { id := d.nextId, fd := fd, handle := h }
  let d1 := { d with lpolls := insertWatch C w d.lpolls, nextId := d.nextId + 1,
                     evmax := d.evmax + 1 }
  match ctlMod fd Events.once w.id d1.kset with
  | some k => .ok { d1 with kset := k }
  | Option.none => .fatal d1

/-- The function `epoll_reenable (fd)`: `EPOLL_CTL_MOD` for the first entry of `lpolls` with that descriptor. -/
def epoll_reenable (fd : Int) (d : Daemon) : Res Daemon :=
  match d.lpolls.find? (fun w => w.fd == fd) with
  | Option.none => .ok d
  | some w =>
    match ctlMod fd Events.once w.id d.kset with
    | some k => .ok { d with kset := k }
    | Option.none => .fatal d

/-- Remove the first entry with descriptor `fd` from the list (`delete` and `free`). -/
def eraseWatch (fd : Int) : List Watch → List Watch
  | [] => []
  | w :: ws => if w.fd == fd then ws else w :: eraseWatch fd ws

/-- The function `epoll_delete (fd)`: the first entry for `fd` leaves the list, `evmax--`, `EPOLL_CTL_DEL`,
which fails (and ends the daemon) when `fd` is not in the poll set. -/
def epoll_delete (fd : Int) (d : Daemon) : Res Daemon :=
  let d1 := { d with lpolls := eraseWatch fd d.lpolls, evmax := d.evmax - 1 }
  if d1.kset.any (fun e => e.fd == fd) then
    .ok { d1 with kset := d1.kset.filter (fun e => e.fd != fd) }
  else .fatal d1

/-- The function `epoll_handle (ptr, &fd)`: handler and descriptor of the entry at address `ptr`. -/
def epoll_handle (ptr : Nat) (d : Daemon) : Option (Handler × Int) :=
  (d.lpolls.find? (fun w => w.id == ptr)).map (fun w => (w.handle, w.fd))

/-! ## `safeout` on the daemon, `do_answer_password` -/

/-- The function `safeout` in the daemon: as `safeout` on `d.out`, and when it marked `fd` blocked the call
of `epoll_reenable (fd)` it makes right before it leaves its loop. -/
def safeoutD (fd : Int) (buf : List Nat) (max : Int) (d : Daemon) : Res Daemon :=
  match safeout fd buf max d.out with
  | .ok o =>
    if d.out.reenabled.length < o.reenabled.length then epoll_reenable fd { d with out := o }
    else .ok { d with out := o }
  | .fatal o => .fatal { d with out := o }
  | .fault o => .fault { d with out := o }
  | .stuck => .stuck

/-- The call `password = frobnicate(password, len)`: the first `len` bytes of the area pass
through `frobnicate`, in place. -/
def frobArea (C : Cfg) (len : Nat) (a : PwArea) : PwArea :=
  { a with bytes := C.frobnicate (a.bytes.take len) ++ a.bytes.drop len }

/-- The function `do_answer_password (fd)` of `console.c`; the second component is the return value. -/
def do_answer_password (C : Cfg) (fd : Int) (d : Daemon) : Res Daemon × Int :=
  match d.pw with
  | Option.none => (safeoutD fd (ANSWER_ENQ ++ [0]) SSIZE_MAX d, 0)
  | some a =>
    if a.size ≤ 0 then (safeoutD fd (ANSWER_ENQ ++ [0]) SSIZE_MAX d, 0)
    else
      let len : Nat := (a.size % 2 ^ 32).toNat
      let nel : Nat := (len + 1) % 2 ^ 32
      let a1 := frobArea C len a
      let d1 := { d with pw := some a1 }
      let r := (safeoutD fd C.ANSWER_MLT (C.ANSWER_MLT.length : Int) d1).bind
        fun d2 => (safeoutD fd (htole32 nel) 4 d2).bind
        fun d3 => (safeoutD fd (a1.bytes.take ((len + 1) % 2 ^ 32)) SSIZE_MAX d3).bind
        fun d4 => .ok { d4 with pw := some (frobArea C len a1), pwprompt := Option.none }
      (r, 1)

/-- The temporary buffer as it is at start: `thead = ttail = temp`, `tavail = 0`. -/
def Temp.init (base size : Nat) : Temp :=
  { base := base, mem := List.replicate size 0, thead := base, ttail := base, tavail := 0 }

/-- A daemon state right after start (no console, nothing registered), with the
given script of `write` results; used to run the definitions on examples. -/
def Daemon.idle (C : Cfg) (script : List WriteRes) : Daemon :=
  { out := Out.init script, errno := Errno.none, final := 0, arg0 := true, nsigio := -1, nsigsys := 0, fdread := 0,
    pwprompt := Option.none, pw := Option.none, asking := 0, cons := [], lpolls := [],
    nextId := 0, evmax := 0, kset := [],
    temp := Temp.init 4096 (C.tempFactor * C.TRANS_BUFFER_SIZE),
    safein_noexit := false, acts := [] }

/-! ## `new_root` (`chroot.c`) -/

/-- The result of one `chdir(root)`. -/
inductive ChdirRes where
  | ok
  | err (e : Errno)
deriving DecidableEq, Repr

/-- The state of `new_root`: the results of the coming `chdir(root)` calls, the value of
`errno`, and the number of `chdir(root)` calls made. -/
structure RootRun where
  script : List ChdirRes
  errno : Errno
  calls : Nat
deriving DecidableEq, Repr

/-- The `do ... while` loop of `new_root`; `left` is the number of rounds the test `c++ > 20`
still lets pass (21 at the start, when `c` is 0).  A successful `chdir` leaves `errno`
as it was. -/
def new_rootLoop : Nat → RootRun → Res RootRun
  | 0, r => .fatal r
  | left + 1, r =>
    match r.script with
    | [] => .stuck
    | ChdirRes.ok :: rest =>
      let r1 := { r with script := rest, calls := r.calls + 1 }
      if r1.errno = Errno.ENOENT ∨ r1.errno = Errno.EIO then new_rootLoop left r1 else .ok r1
    | ChdirRes.err e :: rest =>
      let r1 := { script := rest, errno := e, calls := r.calls + 1 }
      if e ≠ Errno.ENOENT ∧ e ≠ Errno.EIO then .fatal r1 else new_rootLoop left r1

/-- The environment of `new_root`: the results of the `chdir(root)` calls, of `chroot(".")` and
of `chdir("/")`. -/
structure RootEnv where
  chdirs : List ChdirRes
  chrootOk : Bool
  chdirRootOk : Bool
deriving DecidableEq, Repr

/-! ## The password prompt, seen from the parent -/

/-- What the prompter processes leave in the shared password area when
`ask_for_password` has reaped them; `none` when no prompter was started. -/
structure AskEnv where
  left : Option PwArea
deriving DecidableEq, Repr

/-- The trimming of the prompt at the start of `ask_for_password`: one trailing blank, then
one trailing colon.  `none` when an index leaves the string: for the empty
prompt and for a prompt that after the first step is empty, `len--` wraps and
the byte before the string is read. -/
def trimPrompt (p : List Nat) : Option (List Nat) :=
  match p with
  | [] => Option.none
  | _ :: _ =>
    let len := p.length - 1
    if p.getD len 0 = 32 then
      if len = 0 then Option.none
      else
        let p1 := p.take len
        let len1 := len - 1
        if p1.getD len1 0 = 58 then some (p1.take len1) else some p1
    else if p.getD len 0 = 58 then some (p.take len)
    else some p

/-- Whether some console can get a prompter: `c->fd >= 0`. -/
def anyUsable (cons : List Console) : Bool := cons.any (fun c => decide (0 ≤ c.fd))

/-- The function `ask_for_password ()` as the parent sees it.  The test
`!pwprompt && !*pwprompt` reads through `pwprompt` when it is null (a fault) and lets
every non-null prompt pass.  The prompt is trimmed, `asking` is 1 while the
prompters run and 0 afterwards; the prompters' work on the shared area is
given by `env`. -/
def ask_for_password (env : AskEnv) (d : Daemon) : Res Daemon :=
  match d.pwprompt with
  | Option.none => .fault d
  | some p =>
    match trimPrompt p with
    | Option.none => .fault d
    | some p1 =>
      let d1 := { d with pwprompt := some p1, acts := d.acts ++ [Act.ask] }
      if anyUsable d.cons then
        match env.left, d.pw with
        | some a, some _ => .ok { d1 with asking := 0, pw := some a }
        | _, _ => .ok { d1 with asking := 0 }
      else .ok { d1 with asking := 0 }

/-- The function `epoll_socket_answer (fd)`. -/
def epoll_socket_answer (C : Cfg) (env : AskEnv) (fd : Int) (d : Daemon) : Res Daemon :=
  if fd < 0 then .ok { d with errno := Errno.EBADFD, acts := d.acts ++ [Act.warn] }
  else
    (ask_for_password env d).bind fun d1 =>
    ((do_answer_password C fd d1).1).bind fun d2 =>
    (epoll_delete fd d2).bind fun d3 =>
    .ok (d3.close fd)

/-- The function `new_root (root)` in the daemon; `root` is `none` for a null pointer, on
which every `chdir` fails with `EFAULT`. -/
def new_root (env : RootEnv) (root : Option (List Nat)) (d : Daemon) : Res Daemon :=
  let script := match root with
    | Option.none => List.replicate 21 (ChdirRes.err (Errno.other 14))
    | some _ => env.chdirs
  let note (r : RootRun) : Daemon :=
    { d with errno := r.errno, acts := d.acts ++ List.replicate r.calls (Act.chdir root) }
  match new_rootLoop 21 { script := script, errno := d.errno, calls := 0 } with
  | .stuck => .stuck
  | .fatal r => .fatal (note r)
  | .fault r => .fault (note r)
  | .ok r =>
    let d1 := note r
    if !env.chrootOk then .fatal d1
    else
      let d2 := { d1 with acts := d1.acts ++ [Act.chroot_here] }
      if !env.chdirRootOk then .fatal d2
      else .ok { d2 with acts := d2.acts ++ [Act.chdir_root] }

/-! ## The control server: `epoll_socket_accept`, `socket_handler` -/

/-- The result of `getsockopt(fd, SOL_SOCKET, SO_PEERCRED, &cred, &clen)`. -/
inductive CredRes where
  /-- The call fails. -/
  | fails
  /-- The call returns a length other than `sizeof(struct ucred)`. -/
  | short
  /-- The credentials of the peer. -/
  | ok (uid pid : Nat)
deriving DecidableEq, Repr

/-- The results of the system calls of the REACTIVATE branch. -/
structure PtyEnv where
  /-- Whether `ioctl(c->fd, TIOCGWINSZ, &w)` succeeds. -/
  winsz : Bool
  /-- Whether `openpty` succeeds, and the descriptors it returns. -/
  openpty : Bool
  ptm : Int
  pts : Int
  /-- Whether `fstat(pts, &st)` succeeds. -/
  fstat : Bool
  /-- Whether `ioctl(pts, TIOCCONS, NULL)` succeeds. -/
  tioccons : Bool
deriving DecidableEq, Repr

/-- The environment of one call of `socket_handler`. -/
structure SockEnv where
  /-- What `safein` meets on the connection. -/
  inp : Inp
  /-- The contents of the local array `magic` before the first read. -/
  magic0 : Nat
  magic1 : Nat
  /-- The value of the local `alen` before it is read. -/
  alen : Nat
  cred : CredRes
  root : RootEnv
  pty : PtyEnv
  /-- The result of `rename(BOOT_LOGFILE, BOOT_OLDLOGFILE)`: `none` for success. -/
  rename : Option Errno
deriving DecidableEq, Repr

/-- The function `epoll_socket_accept (fd)`; `fdconn` is the result of `accept4`. -/
def epoll_socket_accept (C : Cfg) (fdconn : Int) (d : Daemon) : Res Daemon :=
  if fdconn < 0 then .ok { d with acts := d.acts ++ [Act.warn] }
  else epoll_addread C fdconn Handler.socket_handler d

/-- The string at `arg`: its bytes up to the first NUL. -/
def cstr (buf : List Nat) : List Nat := buf.takeWhile (fun b => b != 0)

/-- The request as `socket_handler` has read it: `magic[0]`, and `arg` (`none` for the null
pointer). -/
structure Request where
  magic : Nat
  arg : Option (List Nat)
deriving DecidableEq, Repr

/-- The reply `safeout (fd, enqry, strlen(enqry)+1, SSIZE_MAX)` with `enqry = ANSWER_ACK`. -/
def sendAck (fd : Int) (d : Daemon) : Res Daemon := safeoutD fd (ANSWER_ACK ++ [0]) SSIZE_MAX d

/-- The first console with `CON_CONSDEV`, if its descriptor is positive. -/
def consdevFd (cons : List Console) : Option Int :=
  match cons.find? (fun c => c.consdev) with
  | some c => if 0 < c.fd then some c.fd else Option.none
  | Option.none => Option.none

/-- The case `MAGIC_DEACTIVATE` up to its reply. -/
def deactivate (d : Daemon) : Res Daemon :=
  if 0 ≤ d.fdread then
    match consdevFd d.cons with
    | some cfd =>
      (epoll_delete d.fdread d).bind fun d1 =>
      let d2 := { d1 with acts := d1.acts ++ [Act.tioccons cfd] }
      let d3 := d2.close d.fdread
      .ok { d3 with acts := d3.acts ++ [Act.dup2 cfd 0, Act.dup2 0 1, Act.dup2 0 2],
                    fdread := -1 }
    | Option.none => .ok d
  else .ok d

/-- The case `MAGIC_REACTIVATE` up to its reply. -/
def reactivate (C : Cfg) (pty : PtyEnv) (d : Daemon) : Res Daemon :=
  if d.fdread < 0 then
    match consdevFd d.cons with
    | some _ =>
      if !pty.winsz then .fatal d
      else if !pty.openpty then .fatal d
      else if !pty.fstat then .fatal d
      else if !pty.tioccons then .fatal d
      else
        let d1 := { d with acts := d.acts ++ [Act.tioccons pty.pts, Act.dup2 pty.ptm 0] }
        let d2 := if 0 < pty.ptm then d1.close pty.ptm else d1
        let d3 := { d2 with acts := d2.acts ++ [Act.dup2 pty.pts 1, Act.dup2 pty.pts 2] }
        let d4 := if 2 < pty.pts then d3.close pty.pts else d3
        (epoll_addread C 0 Handler.epoll_console_in d4).bind fun d5 =>
        .ok { d5 with fdread := 0 }
    | Option.none => .ok d
  else .ok d

/-- The case `MAGIC_FINAL` after its reply. -/
def finalCase (rename : Option Errno) (d : Daemon) : Res Daemon :=
  if d.final = 0 ∧ d.arg0 then
    let d1 := { d with final := 1, acts := d.acts ++ [Act.rename_log] }
    match rename with
    | Option.none => .ok d1
    | some e =>
      let d2 := { d1 with errno := e }
      if e = Errno.EACCES ∨ e = Errno.EROFS ∨ e = Errno.EPERM then .ok d2
      else if e ≠ Errno.ENOENT then .fatal d2
      else .ok d2
  else .ok d

/-- The `switch (magic[0])` of `socket_handler`.  The flag in the result is true when the
branch ends in `goto job` (the connection stays open) and false when it ends in
`break`. -/
def dispatch (C : Cfg) (env : SockEnv) (fd : Int) (rq : Request) (d : Daemon) :
    Res Daemon × Bool :=
  if rq.magic = C.M.ASK_PWD then
    let a : PwArea := match d.pw with
      | some a => a
      | Option.none => { bytes := List.replicate C.MAX_PASSLEN 0, size := 0 }
    let d1 := { d with pw := some { a with bytes := a.bytes.set 0 0 } }
    match rq.arg with
    | Option.none => (.fault d1, true)
    | some buf =>
      (epoll_answer_once C fd Handler.epoll_socket_answer
        { d1 with pwprompt := some (cstr buf) }, true)
  else if rq.magic = C.M.CACHED_PWD then
    let r := do_answer_password C fd d
    (r.1, decide (r.2 = 0))
  else if rq.magic = C.M.CHROOT then
    ((new_root env.root (rq.arg.map cstr) d).bind (sendAck fd), false)
  else if rq.magic = C.M.SYS_INIT then
    ((sendAck fd d).bind fun d1 =>
      let d2 := if d1.nsigio = 0 then { d1 with acts := d1.acts ++ [Act.set_signal_ign SIGIO] }
                else d1
      .ok { d2 with nsigio := SIGIO }, false)
  else if rq.magic = C.M.PRG_STOP ∨ rq.magic = C.M.PRG_CONT ∨ rq.magic = C.M.UPDATE
      ∨ rq.magic = C.M.HIDE_SPLASH ∨ rq.magic = C.M.SHOW_SPLASH ∨ rq.magic = C.M.CHMOD
      ∨ rq.magic = C.M.DETAILS ∨ rq.magic = C.M.PING then
    (sendAck fd d, false)
  else if rq.magic = C.M.DEACTIVATE then
    ((deactivate d).bind (sendAck fd), false)
  else if rq.magic = C.M.REACTIVATE then
    ((reactivate C env.pty d).bind (sendAck fd), false)
  else if rq.magic = C.M.QUIT then
    ((sendAck fd d).bind fun d1 =>
      if d1.nsigsys ≠ 0 ∧ d1.out.signaled = SIGTERM then .ok d1
      else .ok { d1 with out := { d1.out with signaled := SIGTERM } }, false)
  else if rq.magic = C.M.FINAL then
    ((sendAck fd d).bind (finalCase env.rename), false)
  else if rq.magic = C.M.CLOSE then
    ((sendAck fd d).bind fun d1 =>
      let d2 := if d1.nsigsys = 0 then { d1 with acts := d1.acts ++ [Act.set_signal_ign SIGSYS] }
                else d1
      .ok { d2 with nsigsys := SIGSYS }, false)
  else (safeoutD fd (ANSWER_NCK ++ [0]) SSIZE_MAX d, false)

/-- The label `out:` of `socket_handler`: `if (fd > 0) { epoll_delete(fd); close(fd); }`. -/
def sockOut (fd : Int) (d : Daemon) : Res Daemon :=
  if 0 < fd then (epoll_delete fd d).bind fun d1 => .ok (d1.close fd)
  else .ok d

/-- The reading part of `socket_handler`: the two magic bytes and, when `magic[1]` is 2, the
length byte and the argument.  `none`: `safein` ended the daemon through `error()`;
`some (none, _)`: a read returned a negative value (`goto out`). -/
def readRequest (env : SockEnv) (d : Daemon) : Option (Option Request) :=
  let noexit := d.safein_noexit || decide (d.out.signaled ≠ 0)
  match safein noexit env.inp 2 with
  | Option.none => Option.none
  | some r1 =>
    if r1.r < 0 then some Option.none
    else
      let magic := store [env.magic0, env.magic1] r1.stored
      if magic.getD 1 0 = 2 then
        match safein noexit r1.rest 1 with
        | Option.none => Option.none
        | some r2 =>
          if r2.r < 0 then some Option.none
          else
            let alen := (store [env.alen] r2.stored).getD 0 0
            match safein noexit r2.rest alen with
            | Option.none => Option.none
            | some r3 =>
              if r3.r < 0 then some Option.none
              else some (some { magic := magic.getD 0 0,
                                arg := some (store (List.replicate alen 0) r3.stored) })
      else some (some { magic := magic.getD 0 0, arg := Option.none })

/-- The function `socket_handler (fd)` of `console.c`. -/
def socket_handler (C : Cfg) (env : SockEnv) (fd : Int) (d : Daemon) : Res Daemon :=
  if fd < 0 then .ok { d with errno := Errno.EBADFD, acts := d.acts ++ [Act.warn] }
  else
    match readRequest env d with
    | Option.none => .fatal d
    | some Option.none => sockOut fd { d with acts := d.acts ++ [Act.warn] }
    | some (some rq) =>
      match env.cred with
      | CredRes.fails => sockOut fd { d with acts := d.acts ++ [Act.warn] }
      | CredRes.short => sockOut fd { d with acts := d.acts ++ [Act.warn] }
      | CredRes.ok uid _ =>
        if uid ≠ 0 then
          (safeoutD fd (ANSWER_NCK ++ [0]) SSIZE_MAX d).bind fun d1 =>
          sockOut fd { d1 with errno := Errno.EACCES, acts := d1.acts ++ [Act.warn] }
        else
          let r := dispatch C env fd rq d
          if r.2 then r.1 else r.1.bind (sockOut fd)

/-! ## `copyout` and the capture handler `epoll_console_in` -/

/-- The function `copyout (fd, ptr, s, max)` of `console.c`; `buf` holds the bytes at `ptr` (what lies
behind the end of the object `ptr` points into is not modelled), `r` is the
count so far.  One round per `write`; the result is the state and the return
value, or `none` when the script runs out. -/
def copyoutLoop (fd : Int) (max : Int) :
    List WriteRes → List Nat → Nat → Int → Out → Option (Out × Int)
  | [], _, _, _, _ => Option.none
  | w :: rest, buf, s, r, o =>
    let o1 := { o with script := rest }
    match w with
    | .ok p =>
      let n := min p (chunkLen s max)
      let o2 := { o1 with sent := o1.sent ++ [(fd, buf.take n)] }
      if 0 < s - n then copyoutLoop fd max rest (buf.drop n) (s - n) (r + n) o2
      else some (o2, r + n)
    | .eintr => if 0 < s then copyoutLoop fd max rest buf s r o1 else some (o1, r)
    | .eagain _ =>
      some ({ o1 with blocked := fd :: o1.blocked, reenabled := o1.reenabled ++ [fd] },
        if r = 0 then -1 else r)
    | .eio reconnected =>
      if !o1.reconnect then some (o1, r)
      else if !reconnected then some (o1, r)
      else if 0 < s then copyoutLoop fd max rest buf s r o1 else some (o1, r)
    | .epipe => some (o1, r)
    | .other => some (o1, r)

/-- The function `copyout` in the daemon, with the call of `epoll_reenable (fd)` it makes when the
`write` fails with `EAGAIN`.  The second component is the return value. -/
def copyout (fd : Int) (buf : List Nat) (s : Nat) (max : Int) (d : Daemon) :
    Res (Daemon × Int) :=
  match copyoutLoop fd max d.out.script buf s 0 d.out with
  | Option.none => .stuck
  | some (o, r) =>
    if d.out.reenabled.length < o.reenabled.length then
      match epoll_reenable fd { d with out := o } with
      | .ok d1 => .ok (d1, r)
      | .fatal d1 => .fatal (d1, r)
      | .fault d1 => .fault (d1, r)
      | .stuck => .stuck
    else .ok ({ d with out := o }, r)

/-- The address `tend`, one past the array `temp`. -/
def Temp.tend (t : Temp) : Nat := t.base + t.mem.length

/-- The difference of two pointers as a `ptrdiff_t`. -/
def ptrdiff (a b : Nat) : Int :=
  let v := ((a : Int) - (b : Int)) % (WORD : Int)
  if v < 2 ^ 63 then v else v - (WORD : Int)

/-- The bytes that can be read at address `addr` inside `temp`, up to its end. -/
def Temp.bytesAt (t : Temp) (addr : Nat) : List Nat :=
  if t.base ≤ addr then t.mem.drop (addr - t.base) else []

/-- The statements `memcpy(ttail, trans, cnt); tavail = (ttail += cnt) - thead;`. -/
def Temp.append (t : Temp) (chunk : List Nat) : Temp :=
  let off := t.ttail - t.base
  let ttail := (t.ttail + chunk.length) % WORD
  { t with mem := t.mem.take off ++ chunk ++ t.mem.drop (off + chunk.length),
           ttail := ttail, tavail := ptrdiff ttail t.thead }

/-- The test `cnt <= (size_t)(tend - ttail)` followed by the append when it holds. -/
def Temp.appendIfRoom (t : Temp) (chunk : List Nat) : Temp :=
  if chunk.length ≤ toSizeT (ptrdiff t.tend t.ttail) then t.append chunk else t

/-- The environment of one call of `epoll_console_in`: what `safein` meets on the capture
descriptor and the answers of `can_write(c->fd, 50)` per console descriptor. -/
structure ConsEnv where
  inp : Inp
  canWrite : Int → Bool

/-- The first loop of `epoll_console_in` over the consoles: the writability probes. -/
def probeLoop (env : ConsEnv) : List Console → Daemon → Res Daemon
  | [], d => .ok d
  | c :: cs, d =>
    if c.fd < 0 then probeLoop env cs d
    else if d.out.blocked.contains c.fd then .ok d
    else if env.canWrite c.fd then probeLoop env cs d
    else
      match epoll_reenable c.fd
          { d with out := { d.out with blocked := c.fd :: d.out.blocked,
                                       reenabled := d.out.reenabled ++ [c.fd] } } with
      | .ok d1 => probeLoop env cs { d1 with acts := d1.acts ++ [Act.copylog []] }
      | r => r

/-- The loop over the consoles inside the drain of the temporary buffer.  The
result is `none` after `goto flush` and the final value of `len` otherwise.
`ret` is a `size_t`: the return value of `copyout` is converted. -/
def drainSinks : List Console → Nat → Daemon → Res (Daemon × Option Nat)
  | [], len, d => .ok (d, some len)
  | c :: cs, len, d =>
    if c.fd < 0 then drainSinks cs len d
    else
      match copyout c.fd (d.temp.bytesAt d.temp.thead) len c.max_canon d with
      | .ok (d1, r) =>
        let ret := toSizeT r
        if ret < 1 then .ok (d1, Option.none)
        else drainSinks cs ret { d1 with acts := d1.acts ++ [Act.tcdrain c.fd] }
      | .fatal (d1, _) => .fatal (d1, Option.none)
      | .fault (d1, _) => .fault (d1, Option.none)
      | .stuck => .stuck

/-- The statements of the drain loop after the consoles were served with `len`
bytes: `thead += len`, the reset when the buffer is empty, the move to the front
otherwise.  The flag tells whether the loop ends here (`break`). -/
def Temp.advance (t : Temp) (len : Nat) : Temp × Bool :=
  let thead := (t.thead + len) % WORD
  if t.ttail ≤ thead then
    ({ t with thead := t.base, ttail := t.base, tavail := 0 }, true)
  else if t.base < thead then
    let tavail := ptrdiff t.ttail thead
    let n := tavail.toNat
    let off := thead - t.base
    ({ t with mem := (t.mem.drop off).take n ++ t.mem.drop n,
              thead := t.base, ttail := (t.base + n) % WORD, tavail := tavail }, false)
  else ({ t with thead := thead }, false)

/-- The loop `while (tavail > 0)` of `epoll_console_in`, at most `fuel` rounds.  The flag in
the result is true after `goto flush`. -/
def drainLoop (C : Cfg) : Nat → Daemon → Res (Daemon × Bool)
  | 0, _ => .stuck
  | fuel + 1, d =>
    if 0 < d.temp.tavail then
      let len : Nat :=
        if (C.TRANS_BUFFER_SIZE : Int) < d.temp.tavail then C.TRANS_BUFFER_SIZE
        else toSizeT d.temp.tavail
      match drainSinks d.cons len d with
      | .ok (d1, Option.none) => .ok (d1, true)
      | .ok (d1, some len1) =>
        let step := d1.temp.advance len1
        if step.2 then .ok ({ d1 with temp := step.1 }, false)
        else drainLoop C fuel { d1 with temp := step.1 }
      | .fatal (d1, _) => .fatal (d1, false)
      | .fault (d1, _) => .fault (d1, false)
      | .stuck => .stuck
    else .ok (d, false)

/-- The last loop of `epoll_console_in`: the fresh chunk goes to every console; after the
first `copyout` with `ret < 1` the chunk is appended to the temporary buffer, if
it fits, and the loop ends. -/
def fanOut (chunk : List Nat) : List Console → Daemon → Res Daemon
  | [], d => .ok d
  | c :: cs, d =>
    if c.fd < 0 then fanOut chunk cs d
    else
      match copyout c.fd chunk chunk.length c.max_canon d with
      | .ok (d1, r) =>
        if toSizeT r < 1 then .ok { d1 with temp := d1.temp.appendIfRoom chunk }
        else fanOut chunk cs { d1 with acts := d1.acts ++ [Act.tcdrain c.fd] }
      | .fatal (d1, _) => .fatal d1
      | .fault (d1, _) => .fault d1
      | .stuck => .stuck

/-- The label `flush:` of `epoll_console_in`. -/
def flush (d : Daemon) : Daemon := { d with acts := d.acts ++ [Act.flushlog] }

/-- The function `epoll_console_in (fd)` of `console.c`, with at most `fuel` rounds of the drain
loop.  The synchronisation of the window size touches no variable of the
model and is left out. -/
def epoll_console_in (C : Cfg) (env : ConsEnv) (fuel : Nat) (d : Daemon) : Res Daemon :=
  let noexit := d.safein_noexit || decide (d.out.signaled ≠ 0)
  match safein noexit env.inp C.TRANS_BUFFER_SIZE with
  | Option.none => .fatal d
  | some rd =>
    if rd.r ≤ 0 then .ok d
    else
      let chunk := rd.stored
      let d0 := { d with acts := d.acts ++ [Act.parselog chunk] }
      (probeLoop env d0.cons d0).bind fun d1 =>
      if d1.asking ≠ 0 ∨ d1.out.blocked ≠ [] then
        .ok (flush { d1 with temp := d1.temp.appendIfRoom chunk })
      else
        match drainLoop C fuel d1 with
        | .ok (d2, true) => .ok (flush d2)
        | .ok (d2, false) => (fanOut chunk d2.cons d2).bind fun d3 => .ok (flush d3)
        | .fatal (d2, _) => .fatal d2
        | .fault (d2, _) => .fault d2
        | .stuck => .stuck

/-- The function `epoll_write_watchdog (fd)`: `FD_CLR(fd, &blocked)`. -/
def epoll_write_watchdog (fd : Int) (d : Daemon) : Daemon :=
  { d with out := { d.out with blocked := d.out.blocked.filter (fun b => b != fd) } }

/-- The invariant of the temporary buffer: `temp <= thead <= ttail <= tend` and
`tavail == ttail - thead`. -/
def Temp.Inv (t : Temp) : Prop :=
  t.base ≤ t.thead ∧ t.thead ≤ t.ttail ∧ t.ttail ≤ t.tend ∧ t.tavail = (t.ttail : Int) - t.thead

instance (t : Temp) : Decidable t.Inv := by
  unfold Temp.Inv; infer_instance

/-- The state of a returned routine, if it returned. -/
def Res.toOption {σ : Type} : Res σ → Option σ
  | .ok s => some s
  | _ => Option.none

/-- An example state: the sample configuration, one console on descriptor 5 that
is registered for writing, and two bytes waiting in the temporary buffer. -/
def Daemon.twoBuffered (script : List WriteRes) : Daemon :=
  { Daemon.idle Cfg.sample script with
    cons := [{ fd := 5, consdev := true, max_canon := 255, pid := -1 }],
    lpolls := [{ id := 0, fd := 5, handle := Handler.epoll_write_watchdog }],
    nextId := 1, evmax := 1,
    kset := [{ fd := 5, events := Events.write, ptr := 0 }],
    temp := { base := 4096, mem := [104, 105] ++ List.replicate 14 0, thead := 4096,
              ttail := 4098, tavail := 2 } }

/-- An example environment of the capture handler: one byte to read, every
console answers the writability probe with yes. -/
def ConsEnv.oneByte : ConsEnv :=
  { inp := { avail := [65], err := Option.none }, canWrite := fun _ => true }

/-- An example environment of `socket_handler`: the bytes `avail` wait on the connection,
the peer has the given uid, every other system call succeeds. -/
def SockEnv.sample (avail : List Nat) (uid : Nat) : SockEnv :=
  { inp := { avail := avail, err := Option.none }, magic0 := 0, magic1 := 0, alen := 0,
    cred := CredRes.ok uid 4242,
    root := { chdirs := [ChdirRes.ok], chrootOk := true, chdirRootOk := true },
    pty := { winsz := true, openpty := true, ptm := 8, pts := 9, fstat := true,
             tioccons := true },
    rename := Option.none }

/-- An example state: the sample configuration with one control connection on
descriptor 7, registered for reading as `epoll_socket_accept` does. -/
def Daemon.oneConn (script : List WriteRes) : Daemon :=
  { Daemon.idle Cfg.sample script with
    lpolls := [{ id := 0, fd := 7, handle := Handler.socket_handler }],
    nextId := 1, evmax := 1,
    kset := [{ fd := 7, events := Events.read, ptr := 0 }] }

/-- The longest root path the client accepts: 255 letters `a`. -/
def longRoot : List Nat := List.replicate 255 97

/-- The password area after a prompter read `secret`: the six bytes after
`frobnicate`, the NUL `readpw` stored behind them, and `*pwsize = 6`. -/
def PwArea.secret : PwArea :=
  { bytes := Cfg.sample.frobnicate (str "secret") ++ List.replicate 10 0, size := 6 }

/-- An example state with the password `secret` cached. -/
def Daemon.secretCached (script : List WriteRes) : Daemon :=
  { Daemon.oneConn script with pw := some PwArea.secret }

/-- An example state in which an ASK_PWD request with the prompt `luks:` waits for
its deferred reply on descriptor 7, with one console on descriptor 5. -/
def Daemon.prompting (script : List WriteRes) : Daemon :=
  { Daemon.oneConn script with
    pwprompt := some (str "luks:"),
    pw := some { bytes := List.replicate 16 0, size := 0 },
    cons := [{ fd := 5, consdev := true, max_canon := 255, pid := -1 }] }

/-- The state `Daemon.twoBuffered` while a password is asked for. -/
def Daemon.askingTwo : Daemon := { Daemon.twoBuffered [] with asking := 1 }

/-- No `write` of the script fails with `EAGAIN`. -/
def NoEagain (script : List WriteRes) : Prop := ∀ w ∈ script, ∀ b, w ≠ WriteRes.eagain b

/-- The invariant of the temporary buffer between two calls of the capture
handler: `Temp.Inv`, and `thead` is at `temp`. -/
def Temp.AtRest (t : Temp) : Prop := t.Inv ∧ t.thead = t.base

/-! ## The prompter process of `ask_for_password` -/

/-- The value an `ssize_t` has after it was stored in the `int32_t` at `pwsize`. -/
def toInt32 (r : Int) : Int := (r + 2 ^ 31) % 2 ^ 32 - 2 ^ 31

/-- What one pass of a prompter from the label `again:` meets: whether `asprintf` returns
the message, and the results of the `read` calls of `readpw`. -/
structure Attempt where
  asprintfOk : Bool
  reads : List ReadRes
deriving DecidableEq, Repr

/-- The state of a prompter (the child of `ask_for_password`): its writes, the shared
password area, the number of prompts written, the number of warnings logged
and the length argument of its call of `frobnicate`, if it made one. -/
structure Prompter where
  out : Out
  area : PwArea
  prompts : Nat
  warned : Nat
  frob : Option Nat
deriving DecidableEq, Repr

/-- How a prompter ends. -/
inductive ChildEnd where
  /-- The call `_exit(status)`. -/
  | exited (status : Nat) (st : Prompter)
  /-- The call of `error()` inside `safeout`. -/
  | failed (st : Prompter)
  /-- The call of `frobnicate` with a length that leaves the password area. -/
  | fault (st : Prompter)
  /-- The input ran out: the prompter has not terminated. -/
  | waiting (st : Prompter)
deriving DecidableEq, Repr

/-- The text `asprintf` builds for the prompt: the prompt and `": "` between the escape
sequences `pre` and `post` of the console kind (`BOLD RED "\r"` and `NORM` on a virtual console;
these macros of the missing header are parameters). -/
def promptMessage (pre post prompt : List Nat) : List Nat := pre ++ prompt ++ [58, 32] ++ post

/-- The prompter from the label `again:` of `ask_for_password` to its `_exit`, one round per pass.
`msg` is the text of the prompt, `c` the console of the prompter.  The calls of
`clear_input` and `tcsetattr` are left out. -/
def prompterLoop (C : Cfg) (K : Keys) (c : Console) (eightbit : Bool) (msg : List Nat) :
    List Attempt → Prompter → ChildEnd
  | [], st => .waiting st
  | a :: rest, st =>
    if !a.asprintfOk then .exited 1 { st with warned := st.warned + 1 }
    else
      match safeout 1 msg c.max_canon st.out with
      | .ok o1 =>
        let run := readpw K C.MAX_PASSLEN eightbit a.reads st.area.bytes
        match run.ret with
        | Option.none =>
          .waiting { st with out := o1, prompts := st.prompts + 1,
                             area := { st.area with bytes := run.pass } }
        | some r =>
          let st1 := { st with out := o1, prompts := st.prompts + 1,
                               area := { bytes := run.pass, size := toInt32 r } }
          match safeout 1 [10] c.max_canon st1.out with
          | .ok o2 =>
            let st2 := { st1 with out := o2 }
            if st2.area.size = 0 then prompterLoop C K c eightbit msg rest st2
            else
              let st3 := if st2.area.size < 0 then { st2 with warned := st2.warned + 1 } else st2
              let len := toSizeT st3.area.size
              if len ≤ st3.area.bytes.length then
                .exited 0 { st3 with area := frobArea C len st3.area, frob := some len }
              else .fault { st3 with frob := some len }
          | .fatal o2 => .failed { st1 with out := o2 }
          | .fault o2 => .failed { st1 with out := o2 }
          | .stuck => .waiting st1
      | .fatal o1 => .failed { st with out := o1 }
      | .fault o1 => .failed { st with out := o1 }
      | .stuck => .waiting st

/-- A prompter at the label `again:` for the first time: the area as `socket_handler` left
it (`password[0] = '\\0'`), nothing written yet. -/
def Prompter.start (C : Cfg) (script : List WriteRes) : Prompter :=
  { out := Out.init script, area := { bytes := List.replicate C.MAX_PASSLEN 0, size := 0 },
    prompts := 0, warned := 0, frob := Option.none }

/-- An example console: descriptor 5, the system console, `max_canon` 255. -/
def Console.sample : Console := { fd := 5, consdev := true, max_canon := 255, pid := -1 }

/-- An example state: the sample configuration with two control connections, on
the descriptors 7 and 8, and one console on descriptor 5 that is the system
console; the capture descriptor 0 is registered for reading. -/
def Daemon.twoConn (script : List WriteRes) : Daemon :=
  { Daemon.idle Cfg.sample script with
    cons := [{ fd := 5, consdev := true, max_canon := 255, pid := -1 }],
    lpolls := [{ id := 0, fd := 0, handle := Handler.epoll_console_in },
               { id := 1, fd := 7, handle := Handler.socket_handler },
               { id := 2, fd := 8, handle := Handler.socket_handler }],
    nextId := 3, evmax := 3,
    kset := [{ fd := 0, events := Events.read, ptr := 0 },
             { fd := 7, events := Events.read, ptr := 1 },
             { fd := 8, events := Events.read, ptr := 2 }] }

/-- The state `Daemon.twoConn` after a FINAL request of root was handled on descriptor 7. -/
def Daemon.finalOnce : Daemon :=
  (socket_handler Cfg.sample (SockEnv.sample [70, 0] 0) 7
    (Daemon.twoConn [.ok 2, .ok 2])).toOption.getD (Daemon.idle Cfg.sample [])

/-- The state `Daemon.finalOnce` after a second FINAL request of root, on descriptor 8. -/
def Daemon.finalTwice : Daemon :=
  (socket_handler Cfg.sample (SockEnv.sample [70, 0] 0) 8 Daemon.finalOnce).toOption.getD
    (Daemon.idle Cfg.sample [])

/-- An example state with capture active: the capture descriptor 0 is registered
with the capture handler, one control connection is open on descriptor 7, and
the console on descriptor 5 is the system console. -/
def Daemon.capturing (script : List WriteRes) : Daemon :=
  { Daemon.idle Cfg.sample script with
    cons := [{ fd := 5, consdev := true, max_canon := 255, pid := -1 }],
    lpolls := [{ id := 0, fd := 0, handle := Handler.epoll_console_in },
               { id := 1, fd := 7, handle := Handler.socket_handler }],
    nextId := 2, evmax := 2,
    kset := [{ fd := 0, events := Events.read, ptr := 0 },
             { fd := 7, events := Events.read, ptr := 1 }] }

/-- The state `Daemon.capturing` after a DEACTIVATE request of root on descriptor 7. -/
def Daemon.deactivated : Daemon :=
  (socket_handler Cfg.sample (SockEnv.sample [68, 0] 0) 7
    (Daemon.capturing [.ok 2, .ok 2])).toOption.getD (Daemon.idle Cfg.sample [])

/-- The state `Daemon.deactivated` after a connection was accepted on descriptor 10. -/
def Daemon.accepted : Daemon :=
  (epoll_socket_accept Cfg.sample 10 Daemon.deactivated).toOption.getD (Daemon.idle Cfg.sample [])

/-- The state `Daemon.accepted` after a REACTIVATE request of root on descriptor 10. -/
def Daemon.reactivated : Daemon :=
  (socket_handler Cfg.sample (SockEnv.sample [114, 0] 0) 10 Daemon.accepted).toOption.getD
    (Daemon.idle Cfg.sample [])


/-! ## Sequences of registry operations -/

/-- One call of a registry operation of `epoll.c`. -/
inductive RegOp where
  | addread (fd : Int) (h : Handler)
  | addwrite (fd : Int) (h : Handler)
  | answer_once (fd : Int) (h : Handler)
  | reenable (fd : Int)
  | delete (fd : Int)
deriving DecidableEq, Repr

/-- The call the operation stands for. -/
def RegOp.run (C : Cfg) : RegOp → Daemon → Res Daemon
  | .addread fd h, d => epoll_addread C fd h d
  | .addwrite fd h, d => epoll_addwrite C fd h d
  | .answer_once fd h, d => epoll_answer_once C fd h d
  | .reenable fd, d => epoll_reenable fd d
  | .delete fd, d => epoll_delete fd d

/-- A sequence of calls, one after the other. -/
def runOps (C : Cfg) : List RegOp → Daemon → Res Daemon
  | [], d => .ok d
  | op :: ops, d => (op.run C d).bind (runOps C ops)

/-- Whether the operation is a call of `epoll_answer_once`. -/
def RegOp.isAnswerOnce : RegOp → Bool
  | .answer_once _ _ => true
  | _ => false

/-- The number of entries of the registry that refer to `fd`. -/
def Daemon.entriesFor (d : Daemon) (fd : Int) : Nat :=
  (d.lpolls.filter (fun w => w.fd == fd)).length

/-- The registry invariant: no descriptor has two entries in the list, and the
descriptors of the list are those of the kernel's poll set. -/
def Daemon.RegInv (d : Daemon) : Prop :=
  (d.lpolls.map (fun w => w.fd)).Nodup ∧
    ∀ fd, fd ∈ d.lpolls.map (fun w => w.fd) ↔ fd ∈ d.kset.map (fun e => e.fd)


/-! ## The main routine `safeIO` and `more_input` -/

/-- The function `epoll_fifo_in (fd)`; `inp` is what `safein` meets on the fifo. -/
def epoll_fifo_in (C : Cfg) (inp : Inp) (d : Daemon) : Res Daemon :=
  let noexit := d.safein_noexit || decide (d.out.signaled ≠ 0)
  match safein noexit inp C.TRANS_BUFFER_SIZE with
  | Option.none => .fatal d
  | some rd =>
    if 0 < rd.r then .ok { d with acts := d.acts ++ [Act.copylog rd.stored, Act.flushlog] }
    else .ok d

/-- The signal handler `sigio (sig)`. -/
def sigio (sig : Int) (d : Daemon) : Daemon :=
  let d1 := if d.nsigio = 0 then { d with acts := d.acts ++ [Act.set_signal_ign sig] } else d
  { d1 with nsigio := sig }

/-- What the handler that `more_input` calls for a ready descriptor meets. -/
inductive HandlerEnv where
  | console (env : ConsEnv) (fuel : Nat)
  | fifo (inp : Inp)
  /-- The result of `accept4`. -/
  | accept (fdconn : Int)
  | socket (env : SockEnv)
  | answer (env : AskEnv)
  | watchdog

/-- One entry of `evlist` after `epoll_pwait`: `data.ptr`, the bits of `events` that `more_input` tests,
and the environment of the handler. -/
structure Ready where
  ptr : Nat
  /-- The test `events & (EPOLLIN|EPOLLOUT)`. -/
  inout : Bool
  /-- The test `events & (EPOLLRDHUP|EPOLLHUP)`. -/
  hup : Bool
  /-- The test `events & EPOLLERR`. -/
  err : Bool
  env : HandlerEnv

/-- The result of `epoll_pwait` in `more_input`. -/
inductive PollRes where
  /-- The call was interrupted by `SIGIO` and the handler `sigio` has run. -/
  | sigio
  /-- The call was interrupted by another signal (`EINTR`). -/
  | eintr
  /-- The call failed with another error. -/
  | fails (e : Errno)
  /-- The call returned these entries. -/
  | ready (evs : List Ready)

/-- The call `efunc(fd)` of `more_input`.  An environment of the wrong kind ends the run of
the model. -/
def callHandler (C : Cfg) (h : Handler) (fd : Int) (env : HandlerEnv) (d : Daemon) :
    Res Daemon :=
  match h, env with
  | Handler.epoll_console_in, HandlerEnv.console e fuel => epoll_console_in C e fuel d
  | Handler.epoll_fifo_in, HandlerEnv.fifo inp => epoll_fifo_in C inp d
  | Handler.epoll_socket_accept, HandlerEnv.accept fdconn => epoll_socket_accept C fdconn d
  | Handler.socket_handler, HandlerEnv.socket e => socket_handler C e fd d
  | Handler.epoll_socket_answer, HandlerEnv.answer e => epoll_socket_answer C e fd d
  | Handler.epoll_write_watchdog, HandlerEnv.watchdog => .ok (epoll_write_watchdog fd d)
  | _, _ => .stuck

/-- The loop of `more_input` over `evlist`; the second component is `ret`. -/
def more_inputLoop (C : Cfg) : List Ready → Daemon × Int → Res (Daemon × Int)
  | [], s => .ok s
  | r :: rest, (d, ret) =>
    match epoll_handle r.ptr d with
    | Option.none => more_inputLoop C rest (d, ret)
    | some (h, fd) =>
      if r.inout then
        match callHandler C h fd r.env d with
        | .ok d1 => more_inputLoop C rest (d1, 1)
        | .fatal d1 => .fatal (d1, 1)
        | .fault d1 => .fault (d1, 1)
        | .stuck => .stuck
      else if r.hup then more_inputLoop C rest ({ d with acts := d.acts ++ [Act.warn] }, 1)
      else if r.err then more_inputLoop C rest ({ d with acts := d.acts ++ [Act.warn] }, 1)
      else more_inputLoop C rest (d, 1)

/-- The function `more_input (timeout, noerr)`; the second component is its return value. -/
def more_input (C : Cfg) (p : PollRes) (noerr : Bool) (d : Daemon) : Res (Daemon × Int) :=
  match p with
  | PollRes.sigio => .ok (sigio SIGIO d, 1)
  | PollRes.eintr => .ok (d, 1)
  | PollRes.fails e => .fatal ({ d with errno := e }, 0)
  | PollRes.ready evs =>
    match more_inputLoop C evs ({ d with errno := Errno.none, safein_noexit := noerr }, 0) with
    | .ok (d1, ret) => .ok ({ d1 with safein_noexit := false, errno := d.errno }, ret)
    | r => r

/-- What `safeIO` does to the log file, in order (a trace). -/
inductive LogAct where
  | warn
  /-- The call `unlink(BOOT_OLDLOGFILE)`. -/
  | unlink_old
  /-- The call `rename(logfile, BOOT_OLDLOGFILE)`. -/
  | rename_log
  /-- The call `open(logfile, ...)`: whether `logfile` is `BOOT_OLDLOGFILE`, and whether the call succeeded. -/
  | open_log (old : Bool) (ok : Bool)
  | open_logging
  /-- The call `set_signal(SIGIO, NULL, SIG_IGN)`. -/
  | sigio_ign
  /-- The call `set_signal(SIGIO, NULL, sigio)`. -/
  | sigio_handler
  | dump_kmsg
  | start_logging
  | stop_logging
  | close_logging
deriving DecidableEq, Repr

/-- The state `safeIO` works on: the daemon, the statics `log` and `atboot`, whether `flog` is a
stream (not `NULL`), and the trace of what was done to the log file. -/
structure IOState where
  d : Daemon
  log : Int
  atboot : Bool
  flog : Bool
  trace : List LogAct

/-- The results of the system calls of one cycle of `safeIO`; `none` stands for success,
`some e` for a failure with `errno == e`. -/
structure LogEnv where
  /-- The call `lstat("/var/log", &st)`. -/
  lstat : Option Errno
  /-- The test `(st.st_mode & S_IFMT) == S_IFLNK`. -/
  symlink : Bool
  /-- The call `statfs("/var/log", &fst)`. -/
  statfs : Option Errno
  /-- Whether `fst.f_type` is one of `TMPFS_MAGIC`, `RAMFS_MAGIC`, `SQUASHFS_MAGIC`, `CRAMFS_MAGIC`,
  `CRAMFS_MAGIC_WEND`. -/
  ramlike : Bool
  unlink : Option Errno
  rename : Option Errno
  access : Option Errno
  /-- The call `open(logfile, ...)`, and the descriptor it returns on success. -/
  openLog : Option Errno
  logfd : Nat
  /-- Whether `open_logging(log)` (not under `src/`) returns a stream. -/
  stream : Bool
  /-- The result of `epoll_pwait` in `more_input`. -/
  poll : PollRes

/-- The readiness check of `/var/log`: it exists, is no symbolic link, and its file
system is none of tmpfs, ramfs, squashfs, cramfs. -/
def LogEnv.varLogReady (env : LogEnv) : Bool :=
  env.lstat.isNone && !env.symlink && env.statfs.isNone && !env.ramlike

/-- Record an action in the trace. -/
def IOState.act (s : IOState) (a : LogAct) : IOState := { s with trace := s.trace ++ [a] }

/-- A system call failed with `errno == e`. -/
def IOState.failed (s : IOState) (e : Errno) : IOState := { s with d := { s.d with errno := e } }

/-- The block `if (nsigio < 0) { ... }` of `safeIO`: the checks of `/var/log`.  The flag is false after
`goto skip`. -/
def safeIO_check (env : LogEnv) (s : IOState) : IOState × Bool :=
  match env.lstat with
  | some e =>
    if e ≠ Errno.ENOENT then (( s.failed e).act LogAct.warn, false)
    else ({ s.failed e with atboot := true }, false)
  | Option.none =>
    if env.symlink then ({ s with atboot := true }, false)
    else
      match env.statfs with
      | some e => (( s.failed e).act LogAct.warn, false)
      | Option.none =>
        if env.ramlike then ({ s with atboot := true }, false)
        else (s, true)

/-- The block `if (final) { ... }` of `safeIO`: `unlink` and `rename`.  The flag is false after `goto skip`. -/
def safeIO_rotate (env : LogEnv) (s : IOState) : Res (IOState × Bool) :=
  let s1 := s.act LogAct.unlink_old
  let u : IOState × Bool :=
    match env.unlink with
    | Option.none => (s1, true)
    | some e =>
      if e = Errno.EACCES ∨ e = Errno.EROFS ∨ e = Errno.EPERM then (s1.failed e, false)
      else if e ≠ Errno.ENOENT then (( s1.failed e).act LogAct.warn, true)
      else (s1.failed e, true)
  if !u.2 then .ok (u.1, false)
  else
    let s2 := u.1.act LogAct.rename_log
    match env.rename with
    | Option.none => .ok (s2, true)
    | some e =>
      if e = Errno.EACCES ∨ e = Errno.EROFS ∨ e = Errno.EPERM then .ok (s2.failed e, false)
      else if e ≠ Errno.ENOENT then .fatal (s2.failed e, false)
      else .ok (s2.failed e, true)

/-- The call `access(logfile, W_OK)` of `safeIO` and the tests of `errno` after it.  The flag is false
after `goto skip`. -/
def safeIO_access (env : LogEnv) (s : IOState) : Res (IOState × Bool) :=
  match env.access with
  | Option.none => .ok (s, true)
  | some e =>
    if e ≠ Errno.ENOENT ∧ e ≠ Errno.EROFS then .fatal (s.failed e, false)
    else if e = Errno.EROFS then .ok (s.failed e, false)
    else if s.d.final = 0 then .ok ({ s.failed e with atboot := true }, true)
    else .ok (s.failed e, true)

/-- The call `open(logfile, ...)` of `safeIO` and what follows when it succeeds:
`flog = open_logging(log); nsigio = SIGIO; set_signal(SIGIO, NULL, SIG_IGN);`. -/
def safeIO_openlog (env : LogEnv) (s : IOState) : Res IOState :=
  let old := decide (s.d.final ≠ 0)
  match env.openLog with
  | some e =>
    let s2 := { ( s.failed e).act (LogAct.open_log old false) with log := -1 }
    if e ≠ Errno.ENOENT ∧ e ≠ Errno.EROFS then .fatal s2 else .ok s2
  | Option.none =>
    let s2 := { s.act (LogAct.open_log old true) with log := (env.logfd : Int) }
    let s3 := { s2.act LogAct.open_logging with flog := env.stream }
    .ok ({ s3 with d := { s3.d with nsigio := SIGIO } }.act LogAct.sigio_ign)

/-- The calls `access` and `open` of `safeIO`, one after the other. -/
def safeIO_tail (env : LogEnv) (s : IOState) : Res IOState :=
  match safeIO_access env s with
  | .ok (s1, true) => safeIO_openlog env s1
  | .ok (s1, false) => .ok s1
  | .fatal (s1, _) => .fatal s1
  | .fault (s1, _) => .fault s1
  | .stuck => .stuck

/-- The function `safeIO` from its start to the label `skip:`. -/
def safeIO_open (env : LogEnv) (s : IOState) : Res IOState :=
  if s.d.nsigio = 0 then .ok s
  else if 0 ≤ s.log then .ok s
  else
    let c := if s.d.nsigio < 0 then safeIO_check env s else (s, true)
    if !c.2 then .ok c.1
    else if c.1.d.final ≠ 0 then
      match safeIO_rotate env c.1 with
      | .ok (s1, true) => safeIO_tail env s1
      | .ok (s1, false) => .ok s1
      | .fatal (s1, _) => .fatal s1
      | .fault (s1, _) => .fault s1
      | .stuck => .stuck
    else safeIO_tail env c.1

/-- The function `safeIO` from the label `skip:` to the call of `more_input`. -/
def safeIO_skip (s : IOState) : IOState :=
  let s1 :=
    if s.d.nsigio < 0 then
      { s with d := { s.d with nsigio := 0 }, atboot := true }.act LogAct.sigio_handler
    else s
  if s1.flog then
    let s2 := if s1.atboot then { s1.act LogAct.dump_kmsg with atboot := false } else s1
    s2.act LogAct.start_logging
  else s1

/-- The end of `safeIO`, after `more_input`: the block `if (nsigsys) { ... }`.
Modelled from the spec: `close_logging` (not under `src/`) closes the stream and returns
the null pointer that is stored in `flog`. -/
def safeIO_pause (s : IOState) : IOState :=
  if s.d.nsigsys ≠ 0 then
    let s1 := if s.flog then { ( s.act LogAct.stop_logging).act LogAct.close_logging with
                               flog := false }
              else s
    if s1.d.nsigio < 0 then
      { s1 with d := { s1.d with nsigio := SIGIO } }.act LogAct.sigio_ign
    else s1
  else s

/-- The function `safeIO ()` of `console.c`: one cycle of the main loop. -/
def safeIO (C : Cfg) (env : LogEnv) (s : IOState) : Res IOState :=
  ( safeIO_open env s).bind fun s1 =>
    let s2 := safeIO_skip s1
    match more_input C env.poll false s2.d with
    | .ok (d1, _) => .ok ( safeIO_pause { s2 with d := d1 })
    | .fatal (d1, _) => .fatal { s2 with d := d1 }
    | .fault (d1, _) => .fault { s2 with d := d1 }
    | .stuck => .stuck

/-- The state before the first cycle: `log = -1`, `atboot = 0`, `flog = NULL`. -/
def IOState.start (d : Daemon) : IOState :=
  { d := d, log := -1, atboot := false, flog := false, trace := [] }

/-- An example environment of a cycle: `/var/log` is a directory on a disk, every
system call succeeds, `open` returns descriptor 11, and `epoll_pwait` ends as given. -/
def LogEnv.sample (poll : PollRes) : LogEnv :=
  { lstat := Option.none, symlink := false, statfs := Option.none, ramlike := false,
    unlink := Option.none, rename := Option.none, access := Option.none,
    openLog := Option.none, logfd := 11, stream := true, poll := poll }

/-- An example environment of a cycle early at boot: `/var/log` does not exist yet. -/
def LogEnv.early (poll : PollRes) : LogEnv :=
  { LogEnv.sample poll with lstat := some Errno.ENOENT }

/-- A run of cycles of `safeIO`, one environment per cycle. -/
def cycles (C : Cfg) : List LogEnv → IOState → Res IOState
  | [], s => .ok s
  | env :: envs, s => ( safeIO C env s).bind (cycles C envs)

/-- An example run: the daemon starts before `/var/log` exists and handles a CLOSE request of
root on descriptor 7 in its first cycle; `SIGIO` arrives in the second cycle. -/
def IOState.pausedEarly : Res IOState :=
  cycles Cfg.sample
    [LogEnv.early (PollRes.ready [{ ptr := 0, inout := true, hup := false, err := false,
                                    env := HandlerEnv.socket (SockEnv.sample [76, 0] 0) }]),
     LogEnv.early PollRes.sigio]
    (IOState.start (Daemon.oneConn [.ok 2]))


/-- The state of a routine that ended in `error()`, if it did. -/
def Res.toFatal {σ : Type} : Res σ → Option σ
  | .fatal s => some s
  | _ => Option.none

/-- The number of `chdir(root)` calls a run of the loop of `new_root` has made when it ends. -/
def Res.calls : Res RootRun → Nat
  | .ok r => r.calls
  | .fatal r => r.calls
  | .fault r => r.calls
  | .stuck => 0


/-- An example state: one console on descriptor 5 and an empty temporary buffer. -/
def Daemon.oneConsole (script : List WriteRes) : Daemon :=
  { Daemon.twoBuffered script with temp := Temp.init 4096 16 }

/-- An example state: two consoles, on the descriptors 5 and 6, and an empty
temporary buffer. -/
def Daemon.twoConsoles (script : List WriteRes) : Daemon :=
  { Daemon.oneConsole script with
    cons := [{ fd := 5, consdev := true, max_canon := 255, pid := -1 },
             { fd := 6, consdev := false, max_canon := 255, pid := -1 }] }

/-- An example environment of the capture handler: the two bytes `AB` to read, every
console answers the writability probe with yes. -/
def ConsEnv.twoBytes : ConsEnv :=
  { inp := { avail := [65, 66], err := Option.none }, canWrite := fun _ => true }

/-- The state of a routine that ended in a fault, if it did. -/
def Res.toFault {σ : Type} : Res σ → Option σ
  | .fault s => some s
  | _ => Option.none


/-- An example entry of `evlist`: the entry with address 0 reports `EPOLLHUP` and nothing else. -/
def Ready.hupOnly : Ready :=
  { ptr := 0, inout := false, hup := true, err := false, env := HandlerEnv.watchdog }

/-- An example entry of `evlist`: the entry with address 0 reports `EPOLLOUT`. -/
def Ready.writable : Ready :=
  { ptr := 0, inout := true, hup := false, err := false, env := HandlerEnv.watchdog }

/-- An example state: the console on descriptor 5 is registered with the watchdog (entry
address 0) and is in the set `blocked`. -/
def Daemon.blockedConsole : Daemon :=
  { Daemon.twoBuffered [] with out := { (Daemon.twoBuffered []).out with blocked := [5] } }

/-- An example environment of `socket_handler`: a root peer, the bytes `avail` wait on the
connection, and the locals `magic[0]`, `magic[1]` and `alen` hold the given bytes before
anything is read into them. -/
def SockEnv.stale (avail : List Nat) (m0 m1 alen : Nat) : SockEnv :=
  { SockEnv.sample avail 0 with magic0 := m0, magic1 := m1, alen := alen }

/-- An example run without any `SIGIO`: the daemon starts before `/var/log` exists and handles
a SYS_INIT request of root on descriptor 7 in its first cycle. -/
def IOState.afterSysInit : Res IOState :=
  safeIO Cfg.sample
    (LogEnv.early (PollRes.ready [{ ptr := 0, inout := true, hup := false, err := false,
                                    env := HandlerEnv.socket (SockEnv.sample [83, 0] 0) }]))
    (IOState.start (Daemon.oneConn [.ok 2]))

/-! # Theorems -/

/-- The loop of `getcmd` over the table, written out as one chain of tests. -/
theorem getcmdLoop_cmds (M : Magic) (a : List Nat) :
    getcmdLoop a (cmds M) =
      if a.take 5 = [114, 111, 111, 116, 61] then (M.CHROOT, some ((strchrEq a).drop 1))
      else if a = [112, 105, 110, 103] then (M.PING, Option.none)
      else if a = [114, 101, 97, 100, 121] then (M.SYS_INIT, Option.none)
      else if a = [113, 117, 105, 116] then (M.QUIT, Option.none)
      else if a = [102, 105, 110, 97, 108] then (M.FINAL, Option.none)
      else if a = [99, 108, 111, 115, 101] then (M.CLOSE, Option.none)
      else if a = [100, 101, 97, 99, 116, 105, 118, 97, 116, 101] then (M.DEACTIVATE, Option.none)
      else if a = [114, 101, 97, 99, 116, 105, 118, 97, 116, 101] then (M.REACTIVATE, Option.none)
      else (CHAR_M1, Option.none) := by
  simp only [getcmdLoop, cmds, strncmpEq, strcmpEq, List.length_cons, List.length_nil,
    beq_iff_eq, List.take_succ_cons, List.take_zero, Bool.false_eq_true, if_true, if_false]
  simp only [eq_comm]

/-- The result of `getcmd` on a command line with a non-empty first argument. -/
theorem getcmd_arg (M : Magic) (argv : List (List Nat)) (c : Nat) (cs : List Nat)
    (h : argv.get? 1 = some (c :: cs)) :
    getcmd M argv ⟨1, Option.none⟩ =
      ((getcmdLoop (c :: cs) (cmds M)).1, ⟨2, (getcmdLoop (c :: cs) (cmds M)).2⟩) := by
  have hlen : ¬ argv.length ≤ 1 := by
    intro hle
    have : argv.get? 1 = Option.none := List.get?_eq_none.mpr (by omega)
    rw [this] at h; cases h
  simp only [getcmd, hlen, if_false, h]

/-- The result of `getcmd` when there is no first argument or it is empty. -/
theorem getcmd_noarg (M : Magic) (argv : List (List Nat))
    (h : argv.get? 1 = Option.none ∨ argv.get? 1 = some []) :
    (getcmd M argv ⟨1, Option.none⟩).1 = CHAR_M1 := by
  unfold getcmd
  split_ifs with hlen
  · rfl
  · rcases h with h | h <;> simp only [h]

/-- A string starts with `root=` exactly when its first five bytes are those of `root=`. -/
theorem take5_root (a : List Nat) :
    a.take 5 = [114, 111, 111, 116, 61] ↔ ∃ t, a = [114, 111, 111, 116, 61] ++ t := by
  constructor
  · intro h
    exact ⟨a.drop 5, by rw [← h, List.take_append_drop]⟩
  · rintro ⟨t, rfl⟩
    rfl

/-- The facts about the client magics that `getcmd` relies on. -/
theorem Magic.WellFormed.client (M : Magic) (hM : M.WellFormed) :
    [M.CHROOT, M.PING, M.SYS_INIT, M.QUIT, M.FINAL, M.CLOSE, M.DEACTIVATE, M.REACTIVATE].Nodup ∧
    M.CHROOT < 128 ∧ M.PING < 128 ∧ M.SYS_INIT < 128 ∧ M.QUIT < 128 ∧ M.FINAL < 128 ∧
    M.CLOSE < 128 ∧ M.DEACTIVATE < 128 ∧ M.REACTIVATE < 128 := by
  obtain ⟨_, h2, h3⟩ := hM
  refine ⟨?_, ?_, ?_, ?_, ?_, ?_, ?_, ?_, ?_⟩
  · have := h2
    simp only [Magic.clientLabels] at this
    have hsub : List.Sublist [M.CHROOT, M.PING, M.SYS_INIT, M.QUIT, M.FINAL, M.CLOSE,
      M.DEACTIVATE, M.REACTIVATE] [M.CHROOT, M.PING, M.SYS_INIT, M.QUIT, M.FINAL, M.CLOSE,
      M.DEACTIVATE, M.REACTIVATE, 63] := by simp
    exact List.Nodup.sublist hsub this
  all_goals exact h3 _ (by simp [Magic.serverLabels])

/-- The nine ways `getcmd` can end on a non-empty first argument `a`. -/
theorem getcmd_cases (M : Magic) (argv : List (List Nat)) (a : List Nat) (ha : a ≠ [])
    (h : argv.get? 1 = some a) :
    (∃ t, a = [114, 111, 111, 116, 61] ++ t ∧
      getcmd M argv ⟨1, Option.none⟩ = (M.CHROOT, ⟨2, some t⟩)) ∨
    (a = [112, 105, 110, 103] ∧ (getcmd M argv ⟨1, Option.none⟩).1 = M.PING) ∨
    (a = [114, 101, 97, 100, 121] ∧ (getcmd M argv ⟨1, Option.none⟩).1 = M.SYS_INIT) ∨
    (a = [113, 117, 105, 116] ∧ (getcmd M argv ⟨1, Option.none⟩).1 = M.QUIT) ∨
    (a = [102, 105, 110, 97, 108] ∧ (getcmd M argv ⟨1, Option.none⟩).1 = M.FINAL) ∨
    (a = [99, 108, 111, 115, 101] ∧ (getcmd M argv ⟨1, Option.none⟩).1 = M.CLOSE) ∨
    (a = [100, 101, 97, 99, 116, 105, 118, 97, 116, 101] ∧
      (getcmd M argv ⟨1, Option.none⟩).1 = M.DEACTIVATE) ∨
    (a = [114, 101, 97, 99, 116, 105, 118, 97, 116, 101] ∧
      (getcmd M argv ⟨1, Option.none⟩).1 = M.REACTIVATE) ∨
    ((¬ ∃ t, a = [114, 111, 111, 116, 61] ++ t) ∧ a ≠ [112, 105, 110, 103] ∧
      a ≠ [114, 101, 97, 100, 121] ∧ a ≠ [113, 117, 105, 116] ∧ a ≠ [102, 105, 110, 97, 108] ∧
      a ≠ [99, 108, 111, 115, 101] ∧ a ≠ [100, 101, 97, 99, 116, 105, 118, 97, 116, 101] ∧
      a ≠ [114, 101, 97, 99, 116, 105, 118, 97, 116, 101] ∧
      (getcmd M argv ⟨1, Option.none⟩).1 = CHAR_M1) := by
  obtain ⟨c, cs, rfl⟩ := List.exists_cons_of_ne_nil ha
  rw [getcmd_arg M argv c cs h, getcmdLoop_cmds]
  by_cases h0 : (c :: cs).take 5 = [114, 111, 111, 116, 61]
  · left
    obtain ⟨t, ht⟩ := (take5_root _).mp h0
    refine ⟨t, ht, ?_⟩
    rw [if_pos h0, ht]
    simp [strchrEq, List.dropWhile]
  right
  rw [if_neg h0]
  have h0' : ¬ ∃ t, c :: cs = [114, 111, 111, 116, 61] ++ t := fun hx => h0 ((take5_root _).mpr hx)
  by_cases h1 : c :: cs = [112, 105, 110, 103]
  · left; exact ⟨h1, by rw [if_pos h1]⟩
  right; rw [if_neg h1]
  by_cases h2 : c :: cs = [114, 101, 97, 100, 121]
  · left; exact ⟨h2, by rw [if_pos h2]⟩
  right; rw [if_neg h2]
  by_cases h3 : c :: cs = [113, 117, 105, 116]
  · left; exact ⟨h3, by rw [if_pos h3]⟩
  right; rw [if_neg h3]
  by_cases h4 : c :: cs = [102, 105, 110, 97, 108]
  · left; exact ⟨h4, by rw [if_pos h4]⟩
  right; rw [if_neg h4]
  by_cases h5 : c :: cs = [99, 108, 111, 115, 101]
  · left; exact ⟨h5, by rw [if_pos h5]⟩
  right; rw [if_neg h5]
  by_cases h6 : c :: cs = [100, 101, 97, 99, 116, 105, 118, 97, 116, 101]
  · left; exact ⟨h6, by rw [if_pos h6]⟩
  right; rw [if_neg h6]
  by_cases h7 : c :: cs = [114, 101, 97, 99, 116, 105, 118, 97, 116, 101]
  · left; exact ⟨h7, by rw [if_pos h7]⟩
  right; rw [if_neg h7]
  exact ⟨h0', h1, h2, h3, h4, h5, h6, h7, rfl⟩

/-- The case analysis behind the statement about `getcmd`, on the value `v`
returned, the value `o` of `optarg` and the first argument `arg`. -/
theorem getcmd_table (M : Magic) (hM : M.WellFormed) (arg : Option (List Nat)) (v : Nat)
    (o : Option (List Nat))
    (hcase : ((arg = Option.none ∨ arg = some []) ∧ v = CHAR_M1) ∨
      (∃ t, arg = some ([114, 111, 111, 116, 61] ++ t) ∧ v = M.CHROOT ∧ o = some t) ∨
      (arg = some [112, 105, 110, 103] ∧ v = M.PING) ∨
      (arg = some [114, 101, 97, 100, 121] ∧ v = M.SYS_INIT) ∨
      (arg = some [113, 117, 105, 116] ∧ v = M.QUIT) ∨
      (arg = some [102, 105, 110, 97, 108] ∧ v = M.FINAL) ∨
      (arg = some [99, 108, 111, 115, 101] ∧ v = M.CLOSE) ∨
      (arg = some [100, 101, 97, 99, 116, 105, 118, 97, 116, 101] ∧ v = M.DEACTIVATE) ∨
      (arg = some [114, 101, 97, 99, 116, 105, 118, 97, 116, 101] ∧ v = M.REACTIVATE) ∨
      ((¬ ∃ t, arg = some ([114, 111, 111, 116, 61] ++ t)) ∧
        arg ≠ some [112, 105, 110, 103] ∧ arg ≠ some [114, 101, 97, 100, 121] ∧
        arg ≠ some [113, 117, 105, 116] ∧ arg ≠ some [102, 105, 110, 97, 108] ∧
        arg ≠ some [99, 108, 111, 115, 101] ∧
        arg ≠ some [100, 101, 97, 99, 116, 105, 118, 97, 116, 101] ∧
        arg ≠ some [114, 101, 97, 99, 116, 105, 118, 97, 116, 101] ∧ v = CHAR_M1)) :
    (v = M.PING ↔ arg = some [112, 105, 110, 103]) ∧
    (v = M.SYS_INIT ↔ arg = some [114, 101, 97, 100, 121]) ∧
    (v = M.QUIT ↔ arg = some [113, 117, 105, 116]) ∧
    (v = M.FINAL ↔ arg = some [102, 105, 110, 97, 108]) ∧
    (v = M.CLOSE ↔ arg = some [99, 108, 111, 115, 101]) ∧
    (v = M.DEACTIVATE ↔ arg = some [100, 101, 97, 99, 116, 105, 118, 97, 116, 101]) ∧
    (v = M.REACTIVATE ↔ arg = some [114, 101, 97, 99, 116, 105, 118, 97, 116, 101]) ∧
    (v = M.CHROOT ↔ ∃ t, arg = some ([114, 111, 111, 116, 61] ++ t)) ∧
    (∀ t, arg = some ([114, 111, 111, 116, 61] ++ t) → v = M.CHROOT → o = some t) ∧
    (v = CHAR_M1 ↔
      (¬ ∃ t, arg = some ([114, 111, 111, 116, 61] ++ t)) ∧
      arg ∉ [some [112, 105, 110, 103], some [114, 101, 97, 100, 121], some [113, 117, 105, 116],
        some [102, 105, 110, 97, 108], some [99, 108, 111, 115, 101],
        some [100, 101, 97, 99, 116, 105, 118, 97, 116, 101],
        some [114, 101, 97, 99, 116, 105, 118, 97, 116, 101]]) ∧
    (arg = Option.none → v = CHAR_M1) ∧
    (arg = some [] → v = CHAR_M1) := by
  obtain ⟨hnd, hb⟩ := Magic.WellFormed.client M hM
  simp only [List.nodup_cons, List.mem_cons, List.mem_singleton, not_or,
    List.not_mem_nil, List.nodup_nil, not_false_eq_true, and_true] at hnd
  unfold CHAR_M1 at *
  rcases hcase with ⟨h | h, rfl⟩ | ⟨t, rfl, rfl, rfl⟩ | ⟨a1, v1⟩ | ⟨a2, v2⟩ | ⟨a3, v3⟩ |
    ⟨a4, v4⟩ | ⟨a5, v5⟩ | ⟨a6, v6⟩ | ⟨a7, v7⟩ | ⟨h0, h1, h2, h3, h4, h5, h6, h7, rfl⟩
  all_goals subst_vars
  case inl.intro.inl =>
    refine ⟨?_, ?_, ?_, ?_, ?_, ?_, ?_, ?_, ?_, ?_, ?_, ?_⟩ <;> simp <;> clear hnd <;> omega
  case inl.intro.inr =>
    refine ⟨?_, ?_, ?_, ?_, ?_, ?_, ?_, ?_, ?_, ?_, ?_, ?_⟩ <;> simp <;> clear hnd <;> omega
  case inr.inr.inr.inr.inr.inr.inr.inr.inr.intro.intro.intro.intro.intro.intro.intro.intro =>
    refine ⟨?_, ?_, ?_, ?_, ?_, ?_, ?_, ?_, ?_, ?_, ?_, ?_⟩
    all_goals first
      | (simp [*]; done)
      | (simp only [h0, h1, h2, h3, h4, h5, h6, h7, iff_false]; clear hnd; omega)
      | (intro t ht; exact absurd ⟨t, ht⟩ h0)
      | (refine ⟨fun _ => ⟨h0, ?_⟩, fun _ => rfl⟩
         simp only [List.mem_cons, List.mem_singleton, List.not_mem_nil, or_false, not_or]
         exact ⟨h1, h2, h3, h4, h5, h6, h7⟩)
  all_goals refine ⟨?_, ?_, ?_, ?_, ?_, ?_, ?_, ?_, ?_, ?_, ?_, ?_⟩
  all_goals first
    | (simp; done)
    | (exact ⟨fun _ => ⟨_, rfl⟩, fun _ => rfl⟩)
    | (simp; intro h; simp [h] at hnd; done)
    | (simp; clear hnd; omega)

/-- C6. `getcmd` maps the first command-line argument to one magic byte: the magic
of `ping`, `ready`, `quit`, `final`, `close`, `deactivate`, `reactivate` exactly when
the argument is that word, the CHROOT magic exactly when the argument begins with
`root=` (and then `optarg` is the text after the first `=`), and `(char)-1` for
every other argument, for an empty argument and when there is no argument; on
`(char)-1` the client sends nothing. -/
theorem getcmd_maps_first_argument (M : Magic) (hM : M.WellFormed)
    (argv : List (List Nat)) :
    ((getcmd M argv ⟨1, Option.none⟩).1 = M.PING ↔ argv.get? 1 = some (str "ping")) ∧
    ((getcmd M argv ⟨1, Option.none⟩).1 = M.SYS_INIT ↔ argv.get? 1 = some (str "ready")) ∧
    ((getcmd M argv ⟨1, Option.none⟩).1 = M.QUIT ↔ argv.get? 1 = some (str "quit")) ∧
    ((getcmd M argv ⟨1, Option.none⟩).1 = M.FINAL ↔ argv.get? 1 = some (str "final")) ∧
    ((getcmd M argv ⟨1, Option.none⟩).1 = M.CLOSE ↔ argv.get? 1 = some (str "close")) ∧
    ((getcmd M argv ⟨1, Option.none⟩).1 = M.DEACTIVATE ↔
      argv.get? 1 = some (str "deactivate")) ∧
    ((getcmd M argv ⟨1, Option.none⟩).1 = M.REACTIVATE ↔
      argv.get? 1 = some (str "reactivate")) ∧
    ((getcmd M argv ⟨1, Option.none⟩).1 = M.CHROOT ↔
      ∃ t, argv.get? 1 = some (str "root=" ++ t)) ∧
    (∀ t, argv.get? 1 = some (str "root=" ++ t) →
      (getcmd M argv ⟨1, Option.none⟩).2.optarg = some t) ∧
    ((getcmd M argv ⟨1, Option.none⟩).1 = CHAR_M1 ↔
      (¬ ∃ t, argv.get? 1 = some (str "root=" ++ t)) ∧
      argv.get? 1 ∉ [some (str "ping"), some (str "ready"), some (str "quit"),
        some (str "final"), some (str "close"), some (str "deactivate"),
        some (str "reactivate")]) ∧
    (argv.get? 1 = Option.none → (getcmd M argv ⟨1, Option.none⟩).1 = CHAR_M1) ∧
    (argv.get? 1 = some [] → (getcmd M argv ⟨1, Option.none⟩).1 = CHAR_M1) ∧
    (∀ env : ClientEnv, (getcmd M argv ⟨1, Option.none⟩).1 = CHAR_M1 →
      ∃ run, main M env argv = some run ∧ run.sent = []) := by
  have e1 : str "ping" = [112, 105, 110, 103] := by decide
  have e2 : str "ready" = [114, 101, 97, 100, 121] := by decide
  have e3 : str "quit" = [113, 117, 105, 116] := by decide
  have e4 : str "final" = [102, 105, 110, 97, 108] := by decide
  have e5 : str "close" = [99, 108, 111, 115, 101] := by decide
  have e6 : str "deactivate" = [100, 101, 97, 99, 116, 105, 118, 97, 116, 101] := by decide
  have e7 : str "reactivate" = [114, 101, 97, 99, 116, 105, 118, 97, 116, 101] := by decide
  have e8 : str "root=" = [114, 111, 111, 116, 61] := by decide
  rw [e1, e2, e3, e4, e5, e6, e7, e8]
  have hmain : ∀ env : ClientEnv, (getcmd M argv ⟨1, Option.none⟩).1 = CHAR_M1 →
      ∃ run, main M env argv = some run ∧ run.sent = [] := by
    intro env h
    unfold main
    by_cases hc : env.connected = true
    · simp [hc, h]
    · simp [hc]
  have hcase : ((argv.get? 1 = Option.none ∨ argv.get? 1 = some []) ∧
        (getcmd M argv ⟨1, Option.none⟩).1 = CHAR_M1) ∨
      (∃ t, argv.get? 1 = some ([114, 111, 111, 116, 61] ++ t) ∧
        (getcmd M argv ⟨1, Option.none⟩).1 = M.CHROOT ∧
        (getcmd M argv ⟨1, Option.none⟩).2.optarg = some t) ∨
      (argv.get? 1 = some [112, 105, 110, 103] ∧
        (getcmd M argv ⟨1, Option.none⟩).1 = M.PING) ∨
      (argv.get? 1 = some [114, 101, 97, 100, 121] ∧
        (getcmd M argv ⟨1, Option.none⟩).1 = M.SYS_INIT) ∨
      (argv.get? 1 = some [113, 117, 105, 116] ∧
        (getcmd M argv ⟨1, Option.none⟩).1 = M.QUIT) ∨
      (argv.get? 1 = some [102, 105, 110, 97, 108] ∧
        (getcmd M argv ⟨1, Option.none⟩).1 = M.FINAL) ∨
      (argv.get? 1 = some [99, 108, 111, 115, 101] ∧
        (getcmd M argv ⟨1, Option.none⟩).1 = M.CLOSE) ∨
      (argv.get? 1 = some [100, 101, 97, 99, 116, 105, 118, 97, 116, 101] ∧
        (getcmd M argv ⟨1, Option.none⟩).1 = M.DEACTIVATE) ∨
      (argv.get? 1 = some [114, 101, 97, 99, 116, 105, 118, 97, 116, 101] ∧
        (getcmd M argv ⟨1, Option.none⟩).1 = M.REACTIVATE) ∨
      ((¬ ∃ t, argv.get? 1 = some ([114, 111, 111, 116, 61] ++ t)) ∧
        argv.get? 1 ≠ some [112, 105, 110, 103] ∧ argv.get? 1 ≠ some [114, 101, 97, 100, 121] ∧
        argv.get? 1 ≠ some [113, 117, 105, 116] ∧ argv.get? 1 ≠ some [102, 105, 110, 97, 108] ∧
        argv.get? 1 ≠ some [99, 108, 111, 115, 101] ∧
        argv.get? 1 ≠ some [100, 101, 97, 99, 116, 105, 118, 97, 116, 101] ∧
        argv.get? 1 ≠ some [114, 101, 97, 99, 116, 105, 118, 97, 116, 101] ∧
        (getcmd M argv ⟨1, Option.none⟩).1 = CHAR_M1) := by
    rcases hget : argv.get? 1 with _ | a
    · exact Or.inl ⟨Or.inl rfl, getcmd_noarg M argv (Or.inl hget)⟩
    by_cases ha : a = []
    · subst ha
      exact Or.inl ⟨Or.inr rfl, getcmd_noarg M argv (Or.inr hget)⟩
    right
    rcases getcmd_cases M argv a ha hget with ⟨t, rfl, h⟩ | ⟨a1, h⟩ | ⟨a2, h⟩ | ⟨a3, h⟩ |
      ⟨a4, h⟩ | ⟨a5, h⟩ | ⟨a6, h⟩ | ⟨a7, h⟩ | ⟨h0, h1, h2, h3, h4, h5, h6, h7, h⟩
    all_goals subst_vars
    · exact Or.inl ⟨t, rfl, by rw [h], by rw [h]⟩
    · exact Or.inr (Or.inl ⟨rfl, h⟩)
    · exact Or.inr (Or.inr (Or.inl ⟨rfl, h⟩))
    · exact Or.inr (Or.inr (Or.inr (Or.inl ⟨rfl, h⟩)))
    · exact Or.inr (Or.inr (Or.inr (Or.inr (Or.inl ⟨rfl, h⟩))))
    · exact Or.inr (Or.inr (Or.inr (Or.inr (Or.inr (Or.inl ⟨rfl, h⟩)))))
    · exact Or.inr (Or.inr (Or.inr (Or.inr (Or.inr (Or.inr (Or.inl ⟨rfl, h⟩))))))
    · exact Or.inr (Or.inr (Or.inr (Or.inr (Or.inr (Or.inr (Or.inr (Or.inl ⟨rfl, h⟩)))))))
    · refine Or.inr (Or.inr (Or.inr (Or.inr (Or.inr (Or.inr (Or.inr (Or.inr
        ⟨?_, ?_, ?_, ?_, ?_, ?_, ?_, ?_, h⟩)))))))
      · rintro ⟨t, ht⟩
        exact h0 ⟨t, Option.some.inj ht⟩
      all_goals intro hx
      all_goals first
        | exact h1 (Option.some.inj hx) | exact h2 (Option.some.inj hx)
        | exact h3 (Option.some.inj hx) | exact h4 (Option.some.inj hx)
        | exact h5 (Option.some.inj hx) | exact h6 (Option.some.inj hx)
        | exact h7 (Option.some.inj hx)
  obtain ⟨t1, t2, t3, t4, t5, t6, t7, t8, t9, t10, t11, t12⟩ :=
    getcmd_table M hM (argv.get? 1) (getcmd M argv ⟨1, Option.none⟩).1
      (getcmd M argv ⟨1, Option.none⟩).2.optarg hcase
  exact ⟨t1, t2, t3, t4, t5, t6, t7, t8, fun t ht => t9 t ht (t8.mpr ⟨t, ht⟩), t10, t11, t12,
    hmain⟩

/-- The byte count of a `write` whose limit `max` covers the whole rest. -/
theorem chunkLen_all (s : Nat) (max : Int) (h1 : 1 ≤ max) (h2 : (s : Int) ≤ max)
    (h3 : max ≤ SSIZE_MAX) : chunkLen s max = s := by
  have hmod : max % (WORD : Int) = max := by
    apply Int.emod_eq_of_lt (by omega)
    simp only [SSIZE_MAX, WORD] at *
    norm_num at *
    omega
  have ht : toSizeT max = max.toNat := by simp only [toSizeT, hmod]
  unfold chunkLen
  rw [ht]
  split_ifs with h4 h5
  · omega
  · rfl
  · omega

/-- One `write` that takes everything ends `safeout`: the bytes are recorded as
sent on `fd` and one script entry is used up. -/
theorem safeout_one_write (fd : Int) (max : Int) (p : Nat) (rest : List WriteRes)
    (buf : List Nat) (o : Out) (hs : o.script = .ok p :: rest) (hne : buf ≠ [])
    (hp : buf.length ≤ p) (h1 : 1 ≤ max) (h2 : (buf.length : Int) ≤ max)
    (h3 : max ≤ SSIZE_MAX) :
    safeout fd buf max o =
      .ok { o with script := rest, sent := o.sent ++ [(fd, buf)] } := by
  obtain ⟨b, bs, rfl⟩ := List.exists_cons_of_ne_nil hne
  have hc : chunkLen (bs.length + 1) max = bs.length + 1 :=
    chunkLen_all _ _ h1 (by simpa using h2) h3
  have hn : min p (bs.length + 1) = bs.length + 1 := by
    simp only [List.length_cons] at hp
    omega
  unfold safeout
  rw [hs]
  simp only [safeoutLoop, hc, hn]
  rw [List.drop_of_length_le (by simp), List.take_of_length_le (by simp)]
  simp only [safeoutLoop]

/-- The answer part of the client: status 0 exactly when a first byte ACK was stored. -/
theorem clientAnswer_status (env : ClientEnv) (sent : List Nat) :
    ((clientAnswer env sent).status = 0 ↔ ∃ bs, (clientAnswer env sent).received = some (6 :: bs)) ∧
    (∀ bs, (clientAnswer env sent).received = some bs →
      env.canRead = true ∧ bs = env.inp.avail.take 2) := by
  unfold clientAnswer
  by_cases hc : env.canRead = true
  · simp only [hc, if_true]
    rcases hav : env.inp.avail with _ | ⟨b, bs⟩
    · rcases he : env.inp.err with _ | e
      · simp [safein, hav, he, store]
      · by_cases hp : e = Errno.EPIPE
        · simp [safein, hav, he, hp, store]
        · simp [safein, hav, he, hp, EXIT_FAILURE]
    · rcases bs with _ | ⟨b2, bs2⟩
      · simp [safein, hav, store]
      · simp [safein, hav, store]
  · simp [hc]

/-- The send part of the client: whenever it returns, status 0 means that a first
byte ACK was read, and what was read is what the socket held. -/
theorem clientSend_status (env : ClientEnv) (msg : List Nat) (run : ClientRun)
    (h : clientSend env msg = some run) :
    (run.status = 0 ↔ ∃ bs, run.received = some (6 :: bs)) ∧
    (∀ bs, run.received = some bs → env.canRead = true ∧ bs = env.inp.avail.take 2) := by
  unfold clientSend at h
  split at h
  · cases h
    exact clientAnswer_status env _
  · cases h
    simp [EXIT_FAILURE]
  · cases h
  · cases h

/-- The send part of the client returns when the first `write` takes the whole message. -/
theorem clientSend_returns (env : ClientEnv) (msg : List Nat) (hne : msg ≠ [])
    (hlen : msg.length ≤ 259) (p : Nat) (rest : List WriteRes)
    (hs : env.script = .ok p :: rest) (hp : 259 ≤ p) :
    ∃ run, clientSend env msg = some run := by
  unfold clientSend
  rw [safeout_one_write 3 SSIZE_MAX p rest msg (Out.init env.script) hs hne (by omega)
    (by simp [SSIZE_MAX]) (by simp only [SSIZE_MAX]; omega) le_rfl]
  exact ⟨_, rfl⟩

/-- C5. The exit status of the client is 0 if and only if the first answer byte
read from the daemon is ACK (0x06).  Whenever `main` returns: the status is 0
exactly when `safein` stored a first byte 6; what is stored are the first bytes
the socket held, read only after `can_read` answered yes; without a subcommand
or with an unknown one, without an answer in time, and after an empty read the
status is not 0.  And `main` does return when the first `write` on the socket
takes the whole request. -/
theorem client_exit_status (M : Magic) (env : ClientEnv) (argv : List (List Nat)) :
    (∀ run, main M env argv = some run →
      (run.status = 0 ↔ ∃ bs, run.received = some (6 :: bs)) ∧
      (∀ bs, run.received = some bs → env.canRead = true ∧ bs = env.inp.avail.take 2) ∧
      ((getcmd M argv ⟨1, Option.none⟩).1 = CHAR_M1 → run.status ≠ 0) ∧
      (env.canRead = false → run.status ≠ 0) ∧
      (run.received = some [] → run.status ≠ 0)) ∧
    ((∃ p rest, env.script = .ok p :: rest ∧ 259 ≤ p) → ∃ run, main M env argv = some run) := by
  have key : ∀ run, main M env argv = some run →
      (run.status = 0 ↔ ∃ bs, run.received = some (6 :: bs)) ∧
      (∀ bs, run.received = some bs → env.canRead = true ∧ bs = env.inp.avail.take 2) := by
    intro run h
    unfold main at h
    simp only at h
    split_ifs at h
    all_goals first
      | exact clientSend_status env _ run h
      | (cases h; simp [EXIT_FAILURE])
  refine ⟨fun run h => ?_, ?_⟩
  · obtain ⟨k1, k2⟩ := key run h
    refine ⟨k1, k2, ?_, ?_, ?_⟩
    · intro hc
      unfold main at h
      by_cases hcon : env.connected = true
      · simp [hcon, hc] at h
        subst h; simp
      · simp [hcon] at h
        subst h; simp [EXIT_FAILURE]
    · intro hc h0
      obtain ⟨bs, hbs⟩ := k1.mp h0
      have := (k2 _ hbs).1
      rw [hc] at this; cases this
    · intro he h0
      obtain ⟨bs, hbs⟩ := k1.mp h0
      rw [he] at hbs; cases hbs
  · rintro ⟨p, rest, hs, hp⟩
    unfold main
    simp only
    split_ifs with h1 h2 h3 h4 h5
    · exact ⟨_, rfl⟩
    · exact ⟨_, rfl⟩
    · exact ⟨_, rfl⟩
    · refine clientSend_returns env _ (by simp [chrootMessage]) ?_ p rest hs hp
      simp only [chrootMessage, List.length_append, List.length_cons, List.length_nil]
      simp only [UCHAR_MAX] at h4
      omega
    · refine clientSend_returns env _ ?_ ?_ p rest hs hp
      · unfold plainMessage; split_ifs <;> simp
      · unfold plainMessage; split_ifs <;> simp
    · exact ⟨_, rfl⟩

/-- Witness for C5: `blogctl ping` against a daemon that answers ACK ends with status 0. -/
theorem client_exit_status_witness :
    main Magic.sample ⟨true, [.ok 300], true, ⟨[6, 0], Option.none⟩⟩ [str "blogctl", str "ping"]
        = some ⟨0, [80, 0], some [6, 0]⟩ ∧
      ((0 : Nat) = 0 ↔ ∃ bs, some [6, 0] = some (6 :: bs)) :=
  ⟨by decide,
   ((client_exit_status Magic.sample ⟨true, [.ok 300], true, ⟨[6, 0], Option.none⟩⟩
      [str "blogctl", str "ping"]).1 ⟨0, [80, 0], some [6, 0]⟩ (by decide)).1⟩

/-- Witness for C6: with the sample magics, `ping` is mapped to the PING magic. -/
theorem getcmd_maps_first_argument_witness :
    Magic.sample.WellFormed ∧
      (getcmd Magic.sample [str "blogctl", str "ping"] ⟨1, Option.none⟩).1 = Magic.sample.PING :=
  ⟨by decide,
   (getcmd_maps_first_argument Magic.sample (by decide) [str "blogctl", str "ping"]).1.mpr
     (by decide)⟩

/-! ## `readpw` -/

/-- Storing at `ptr` does not change the bytes before `ptr`. -/
theorem take_set_self (l : List Nat) (n v : Nat) : (l.set n v).take n = l.take n := by
  induction l generalizing n with
  | nil => simp
  | cons x xs ih =>
    cases n with
    | zero => simp
    | succ k => simp [ih]

/-- Storing at `ptr` and moving on appends the byte to the line held. -/
theorem take_set_succ (l : List Nat) (n v : Nat) (h : n < l.length) :
    (l.set n v).take (n + 1) = l.take n ++ [v] := by
  induction l generalizing n with
  | nil => simp at h
  | cons x xs ih =>
    cases n with
    | zero => simp
    | succ k =>
      simp only [List.length_cons, Nat.add_lt_add_iff_right] at h
      simp [ih k h]

/-- Stepping `ptr` back drops the last byte of the line held. -/
theorem take_pred (l : List Nat) (n : Nat) (h : n ≤ l.length) :
    l.take (n - 1) = (l.take n).dropLast := by
  rw [List.dropLast_eq_take, List.take_take, List.length_take]
  congr 1
  omega

/-- The byte stored at `ptr` can be read back. -/
theorem get_set_self (l : List Nat) (n v : Nat) (h : n < l.length) :
    (l.set n v).get? n = some v := by
  simp [List.getElem?_set, h]

/-- The loop of `readpw` in eight-bit mode follows the reference editor with the
length limit, from every state the loop can be in. -/
theorem readpwLoop_editLineMax (K : Keys) (hK : K.WellFormed) (maxlen : Nat)
    (input : List Nat) :
    ∀ (st : PwRun) (line : List Nat), PwInv maxlen st line →
      (readpwLoop K maxlen true (input.map ReadRes.byte) st).Agrees
        (editLineMax K maxlen input line) := by
  obtain ⟨hnd, -⟩ := hK
  simp only [Keys.labels, List.nodup_cons, List.mem_cons, List.mem_singleton, not_or,
    List.not_mem_nil, List.nodup_nil, not_false_eq_true, and_true] at hnd
  induction input with
  | nil =>
    intro st line inv
    simp only [List.map_nil, readpwLoop, editLineMax, PwRun.Agrees]
    exact inv.running
  | cons c cs ih =>
    intro st line inv
    have hlt : st.ptr < st.pass.length := by
      have := inv.room; have := inv.size; omega
    simp only [List.map_cons, readpwLoop, ascvalOf, if_true]
    unfold readpwSwitch editLineMax
    by_cases h0 : c = 0
    · subst h0
      have e1 : ¬ (0 = K.CR ∨ 0 = K.NL) := by tauto
      simp [e1, PwRun.Agrees, PwRun.poke]
    by_cases h1 : c = K.CR ∨ c = K.NL
    · simp only [h0, h1, if_true, if_false, PwRun.Agrees, PwRun.poke]
      refine ⟨by rw [inv.ptr_eq], ?_, ?_⟩
      · rw [← inv.ptr_eq, take_set_self]; exact inv.held
      · rw [← inv.ptr_eq]; exact get_set_self _ _ _ hlt
    by_cases h2 : c = K.BS ∨ c = K.CERASE
    · have e2 : ¬ c = K.CEOF := by
        intro h
        rcases h2 with h2 | h2 <;> rw [h] at h2 <;> tauto
      simp only [h0, h1, h2, e2, if_true, if_false, or_self]
      by_cases hp : 0 < st.ptr
      · simp only [hp, if_true]
        have hret : st.ret = Option.none := inv.running
        simp only [hret]
        apply ih
        refine ⟨rfl, ?_, ?_, ?_, inv.size⟩
        · simp only [List.length_dropLast]; rw [inv.ptr_eq]
        · show st.pass.take (st.ptr - 1) = line.dropLast
          rw [take_pred _ _ (le_of_lt hlt), inv.held]
        · show st.ptr - 1 + 1 ≤ maxlen
          have := inv.room; omega
      · simp only [hp, if_false]
        have hret : st.ret = Option.none := inv.running
        simp only [hret]
        have hl : line = [] := by
          have := inv.ptr_eq
          exact List.length_eq_zero.mp (by omega)
        subst hl
        exact ih _ _ ⟨rfl, inv.ptr_eq, inv.held, inv.room, inv.size⟩
    by_cases h3 : c = K.CKILL
    · have e3 : ¬ c = K.CEOF := by
        intro h
        rw [h] at h3; tauto
      simp only [h0, h1, h2, h3, e3, if_true, if_false, or_self]
      rw [← h3]
      simp only [h0, h1, h2, e3, if_false, or_self]
      have hret : st.ret = Option.none := inv.running
      simp only [hret]
      apply ih
      exact ⟨rfl, rfl, by simp, by have := inv.room; show 0 + 1 ≤ maxlen; omega, inv.size⟩
    by_cases h4 : c = K.CEOF
    · simp only [h0, h1, h2, h3, h4, if_true, if_false, or_false, PwRun.Agrees]
      rw [← h4]
      simp only [h0, h1, h2, h3, if_false, if_true, true_or, PwRun.Agrees]
    simp only [h0, h1, h2, h3, h4, if_false, or_self]
    by_cases h5 : maxlen - 1 ≤ st.ptr
    · have h5' : maxlen - 1 ≤ line.length := by rw [← inv.ptr_eq]; exact h5
      simp only [h5, h5', if_true, PwRun.Agrees]
    · have h5' : ¬ maxlen - 1 ≤ line.length := by rw [← inv.ptr_eq]; exact h5
      simp only [h5, h5', if_false, PwRun.poke]
      have hret : st.ret = Option.none := inv.running
      simp only [hret]
      apply ih
      refine ⟨rfl, ?_, ?_, ?_, ?_⟩
      · simp only [List.length_append, List.length_cons, List.length_nil]; rw [inv.ptr_eq]
      · show (st.pass.set st.ptr c).take (st.ptr + 1) = line ++ [c]
        rw [take_set_succ _ _ _ hlt, inv.held]
      · show st.ptr + 1 + 1 ≤ maxlen
        omega
      · show maxlen ≤ (st.pass.set st.ptr c).length
        rw [List.length_set]; exact inv.size

/-- The loop of `readpw` sees a byte only through `ascval`: it is the eight-bit loop
on the values of `ascval`. -/
theorem readpwLoop_ascval (K : Keys) (maxlen : Nat) (eightbit : Bool) (input : List Nat) :
    ∀ st : PwRun, readpwLoop K maxlen eightbit (input.map ReadRes.byte) st =
      readpwLoop K maxlen true ((input.map (ascvalOf eightbit)).map ReadRes.byte) st := by
  induction input with
  | nil => intro st; rfl
  | cons c cs ih =>
    intro st
    simp only [List.map_cons, readpwLoop]
    have e : ascvalOf true (ascvalOf eightbit c) = ascvalOf eightbit c := by simp [ascvalOf]
    rw [e]
    split
    · rfl
    · exact ih _

/-- The reference editor appends a run of ordinary bytes that fits below the limit. -/
theorem editLineMax_ordinary (K : Keys) (maxlen : Nat) (bs rest : List Nat)
    (hord : ∀ b ∈ bs, K.Ordinary b) :
    ∀ line : List Nat, line.length + bs.length + 1 ≤ maxlen →
      editLineMax K maxlen (bs ++ rest) line = editLineMax K maxlen rest (line ++ bs) := by
  induction bs with
  | nil => intro line _; simp
  | cons b bs ih =>
    intro line hlen
    have hb := hord b (List.mem_cons_self _ _)
    simp only [Keys.Ordinary, Keys.labels, List.mem_cons, List.mem_singleton, not_or,
      List.not_mem_nil, not_false_eq_true, and_true] at hb
    obtain ⟨b0, b1, b2, b3, b4, b5, b6⟩ := hb
    simp only [List.length_cons] at hlen
    have hroom : ¬ maxlen - 1 ≤ line.length := by omega
    simp only [List.cons_append, editLineMax, b0, b1, b2, b3, b4, b5, b6, hroom, or_self,
      if_false]
    have hrec := ih (fun x hx => hord x (List.mem_cons_of_mem _ hx)) (line ++ [b])
      (by simp only [List.length_append, List.length_cons, List.length_nil]; omega)
    simpa [List.append_assoc] using hrec

/-- The reference editor without a limit appends every run of ordinary bytes. -/
theorem editLine_ordinary (K : Keys) (bs rest : List Nat) (hord : ∀ b ∈ bs, K.Ordinary b) :
    ∀ line : List Nat, editLine K (bs ++ rest) line = editLine K rest (line ++ bs) := by
  induction bs with
  | nil => intro line; simp
  | cons b bs ih =>
    intro line
    have hb := hord b (List.mem_cons_self _ _)
    simp only [Keys.Ordinary, Keys.labels, List.mem_cons, List.mem_singleton, not_or,
      List.not_mem_nil, not_false_eq_true, and_true] at hb
    obtain ⟨b0, b1, b2, b3, b4, b5, b6⟩ := hb
    simp only [List.cons_append, editLine, b0, b1, b2, b3, b4, b5, b6, or_self, if_false]
    have hrec := ih (fun x hx => hord x (List.mem_cons_of_mem _ hx)) (line ++ [b])
    simpa [List.append_assoc] using hrec

/-- The state in which `readpw` enters its loop satisfies the loop invariant. -/
theorem readpw_init_inv (maxlen : Nat) (hm : 0 < maxlen) (pass : List Nat)
    (hp : maxlen ≤ pass.length) :
    PwInv maxlen (PwRun.start pass) [] :=
  ⟨rfl, rfl, by simp [PwRun.start], by show 0 + 1 ≤ maxlen; omega,
    by simp only [PwRun.start, List.length_set]; exact hp⟩

/-- C10 (amended). `readpw` in eight-bit mode without read errors gives, for every
input, the result of the reference line editor with the length limit: an
ordinary byte is appended while the line holds fewer than `MAX_PASSLEN-1` bytes
and ends the input with -1 otherwise; BS or CERASE removes the last byte, if
any; CKILL empties the line; CR or NL ends the input with the length of the
line, the line being stored NUL-terminated in `pass`; CEOF or NUL ends it with 0. -/
theorem readpw_line_editing (K : Keys) (hK : K.WellFormed) (maxlen : Nat) (hm : 0 < maxlen)
    (input pass : List Nat) (hp : maxlen ≤ pass.length) :
    (readpw K maxlen true (input.map ReadRes.byte) pass).Agrees
      (editLineMax K maxlen input []) :=
  readpwLoop_editLineMax K hK maxlen input _ _ (readpw_init_inv maxlen hm pass hp)

/-- Witness for C10: typing `ab`, erasing once, typing `c` and a newline leaves `ac`. -/
theorem readpw_line_editing_witness :
    Keys.ascii.WellFormed ∧ 0 < 8 ∧ 8 ≤ (List.replicate 8 7).length ∧
      (readpw Keys.ascii 8 true ([97, 98, 127, 99, 10].map ReadRes.byte)
        (List.replicate 8 7)).Agrees (some (2, some [97, 99])) :=
  ⟨by decide, by decide, by decide,
   readpw_line_editing Keys.ascii (by decide) 8 (by decide) [97, 98, 127, 99, 10]
     (List.replicate 8 7) (by decide)⟩

/-- C10 (counterexample). For no value of `MAX_PASSLEN` does `readpw` agree on every
input with the reference editor as the claim words it (without a length
limit): on `MAX_PASSLEN` letters `a` followed by a newline `readpw` returns -1, the
reference editor the length `MAX_PASSLEN`. -/
theorem readpw_unlimited_editor_counterexample :
    ¬ ∃ maxlen : Nat, 0 < maxlen ∧ ∀ input pass : List Nat, maxlen ≤ pass.length →
      (readpw Keys.ascii maxlen true (input.map ReadRes.byte) pass).Agrees
        (editLine Keys.ascii input []) := by
  rintro ⟨maxlen, hm, h⟩
  have hord : ∀ b ∈ List.replicate (maxlen - 1) 97, Keys.ascii.Ordinary b := by
    intro b hb
    rw [List.eq_of_mem_replicate hb]
    decide
  have hcode : (readpw Keys.ascii maxlen true
      ((List.replicate (maxlen - 1) 97 ++ [97, 10]).map ReadRes.byte)
      (List.replicate maxlen 0)).Agrees
      (editLineMax Keys.ascii maxlen (List.replicate (maxlen - 1) 97 ++ [97, 10]) []) :=
    readpwLoop_editLineMax Keys.ascii (by decide) maxlen
      (List.replicate (maxlen - 1) 97 ++ [97, 10]) _ _
      (readpw_init_inv maxlen hm (List.replicate maxlen 0) (by simp))
  have hclaim := h (List.replicate (maxlen - 1) 97 ++ [97, 10]) (List.replicate maxlen 0)
    (by simp)
  rw [editLineMax_ordinary _ _ _ _ hord [] (by simp; omega)] at hcode
  rw [editLine_ordinary _ _ _ hord []] at hclaim
  have e1 : editLineMax Keys.ascii maxlen [97, 10] ([] ++ List.replicate (maxlen - 1) 97)
      = some (-1, Option.none) := by
    simp [editLineMax, Keys.ascii]
  have e2 : editLine Keys.ascii [97, 10] ([] ++ List.replicate (maxlen - 1) 97)
      = some ((maxlen : Int), some (List.replicate (maxlen - 1) 97 ++ [97])) := by
    simp [editLine, Keys.ascii]
    omega
  rw [e1] at hcode
  rw [e2] at hclaim
  simp only [PwRun.Agrees] at hcode hclaim
  rw [hcode] at hclaim
  have := hclaim.1
  simp at this

/-- A run of ordinary bytes that fits below the limit keeps `readpw` in its loop and
moves `ptr` forward by the length of the run. -/
theorem readpwLoop_ordinary (K : Keys) (maxlen : Nat) (eightbit : Bool) (cs : List Nat)
    (rest : List ReadRes) (hord : ∀ c ∈ cs, K.Ordinary (ascvalOf eightbit c)) :
    ∀ st : PwRun, st.ret = Option.none → st.ptr + cs.length + 1 ≤ maxlen →
      ∃ st' : PwRun, st'.ret = Option.none ∧ st'.ptr = st.ptr + cs.length ∧
        readpwLoop K maxlen eightbit (cs.map ReadRes.byte ++ rest) st =
          readpwLoop K maxlen eightbit rest st' := by
  induction cs with
  | nil => intro st hr _; exact ⟨st, hr, rfl, rfl⟩
  | cons c cs ih =>
    intro st hr hlen
    have hc := hord c (List.mem_cons_self _ _)
    simp only [Keys.Ordinary, Keys.labels, List.mem_cons, List.mem_singleton, not_or,
      List.not_mem_nil, not_false_eq_true, and_true] at hc
    obtain ⟨c0, c1, c2, c3, c4, c5, c6⟩ := hc
    simp only [List.length_cons] at hlen
    have hroom : ¬ maxlen - 1 ≤ st.ptr := by omega
    obtain ⟨st', h1, h2, h3⟩ := ih (fun x hx => hord x (List.mem_cons_of_mem _ hx))
      { (PwRun.poke { st with errno := Errno.none } (ascvalOf eightbit c)) with
        ptr := st.ptr + 1 } hr
      (by show st.ptr + 1 + cs.length + 1 ≤ maxlen; omega)
    refine ⟨st', h1, ?_, ?_⟩
    · rw [h2]; show st.ptr + 1 + cs.length = st.ptr + (cs.length + 1); omega
    · rw [← h3]
      simp only [List.map_cons, List.cons_append, readpwLoop, readpwSwitch, c0, c1, c2, c3, c4,
        c5, c6, hroom, or_self, if_false, PwRun.poke, hr]
      rfl

/-- An ordinary byte that arrives when the line holds `MAX_PASSLEN-1` bytes ends
`readpw` with -1 and `EOVERFLOW`, the buffer untouched. -/
theorem readpwLoop_overflow (K : Keys) (maxlen : Nat) (eightbit : Bool) (c : Nat)
    (rest : List ReadRes) (hc : K.Ordinary (ascvalOf eightbit c)) (st : PwRun)
    (hfull : maxlen - 1 ≤ st.ptr) :
    (readpwLoop K maxlen eightbit (ReadRes.byte c :: rest) st).ret = some (-1) ∧
    (readpwLoop K maxlen eightbit (ReadRes.byte c :: rest) st).errno = Errno.EOVERFLOW ∧
    (readpwLoop K maxlen eightbit (ReadRes.byte c :: rest) st).pass = st.pass ∧
    (readpwLoop K maxlen eightbit (ReadRes.byte c :: rest) st).writes = st.writes := by
  simp only [Keys.Ordinary, Keys.labels, List.mem_cons, List.mem_singleton, not_or,
    List.not_mem_nil, not_false_eq_true, and_true] at hc
  obtain ⟨c0, c1, c2, c3, c4, c5, c6⟩ := hc
  simp only [readpwLoop, readpwSwitch, c0, c1, c2, c3, c4, c5, c6, hfull, or_self, if_false,
    if_true, and_self]

/-- Every offset `readpw` writes at lies below `MAX_PASSLEN`, in every state of the loop. -/
theorem readpwLoop_writes (K : Keys) (maxlen : Nat) (eightbit : Bool) (script : List ReadRes) :
    ∀ st : PwRun, st.ptr + 1 ≤ maxlen → (∀ i ∈ st.writes, i < maxlen) →
      ∀ i ∈ (readpwLoop K maxlen eightbit script st).writes, i < maxlen := by
  induction script with
  | nil => intro st _ hw; exact hw
  | cons r rest ih =>
    intro st hp hw
    cases r with
    | fail e =>
      simp only [readpwLoop]
      split_ifs
      · exact ih _ hp hw
      · exact hw
    | byte c =>
      simp only [readpwLoop]
      have key : (readpwSwitch K maxlen (ascvalOf eightbit c)
            { st with errno := Errno.none }).ptr + 1 ≤ maxlen ∧
          ∀ i ∈ (readpwSwitch K maxlen (ascvalOf eightbit c)
            { st with errno := Errno.none }).writes, i < maxlen := by
        unfold readpwSwitch
        split_ifs with h0 h1 h2 h3 h4 h5 h6
        all_goals dsimp only [PwRun.poke] at *
        all_goals refine ⟨by first | exact hp | omega, ?_⟩
        all_goals first
          | exact hw
          | (intro i hi
             rcases List.mem_cons.mp hi with hi | hi
             · rw [hi]; omega
             · exact hw i hi)
      split
      · exact key.2
      · exact ih _ key.1 key.2

/-- C9. The length limit of `readpw`, in both modes.  `MAX_PASSLEN-1` ordinary bytes
followed by CR or NL are accepted: the return value is `MAX_PASSLEN-1`, the bytes
are stored at the start of `pass` and a NUL follows at offset `MAX_PASSLEN-1`.  An
ordinary byte that arrives when the line holds `MAX_PASSLEN-1` bytes makes
`readpw` return -1 with `errno` `EOVERFLOW` (from any state of the loop, and
in particular after `MAX_PASSLEN-1` ordinary bytes).  For every script of `read`
results, no offset written in `pass` is `MAX_PASSLEN` or more. -/
theorem readpw_length_limit (K : Keys) (hK : K.WellFormed) (maxlen : Nat) (hm : 0 < maxlen)
    (eightbit : Bool) :
    (∀ (cs : List Nat) (term : Nat) (rest pass : List Nat),
      cs.length = maxlen - 1 → (∀ c ∈ cs, K.Ordinary (ascvalOf eightbit c)) →
      (ascvalOf eightbit term = K.CR ∨ ascvalOf eightbit term = K.NL) →
      maxlen ≤ pass.length →
      (readpw K maxlen eightbit ((cs ++ term :: rest).map ReadRes.byte) pass).ret
          = some ((maxlen : Int) - 1) ∧
        (readpw K maxlen eightbit ((cs ++ term :: rest).map ReadRes.byte) pass).pass.take
          (maxlen - 1) = cs.map (ascvalOf eightbit) ∧
        (readpw K maxlen eightbit ((cs ++ term :: rest).map ReadRes.byte) pass).pass.get?
          (maxlen - 1) = some 0) ∧
    (∀ (st : PwRun) (c : Nat) (rest : List ReadRes),
      st.ptr = maxlen - 1 → K.Ordinary (ascvalOf eightbit c) →
      (readpwLoop K maxlen eightbit (ReadRes.byte c :: rest) st).ret = some (-1) ∧
        (readpwLoop K maxlen eightbit (ReadRes.byte c :: rest) st).errno = Errno.EOVERFLOW) ∧
    (∀ (cs : List Nat) (c : Nat) (rest : List ReadRes) (pass : List Nat),
      cs.length = maxlen - 1 → (∀ x ∈ cs, K.Ordinary (ascvalOf eightbit x)) →
      K.Ordinary (ascvalOf eightbit c) →
      (readpw K maxlen eightbit (cs.map ReadRes.byte ++ ReadRes.byte c :: rest) pass).ret
          = some (-1) ∧
        (readpw K maxlen eightbit (cs.map ReadRes.byte ++ ReadRes.byte c :: rest) pass).errno
          = Errno.EOVERFLOW) ∧
    (∀ (script : List ReadRes) (pass : List Nat),
      ∀ i ∈ (readpw K maxlen eightbit script pass).writes, i < maxlen) := by
  refine ⟨?_, ?_, ?_, ?_⟩
  · intro cs term rest pass hlen hord hterm hp
    have hrun := readpwLoop_editLineMax K hK maxlen
      ((cs ++ term :: rest).map (ascvalOf eightbit)) _ _ (readpw_init_inv maxlen hm pass hp)
    rw [← readpwLoop_ascval] at hrun
    have hord' : ∀ b ∈ cs.map (ascvalOf eightbit), K.Ordinary b := by
      intro b hb
      obtain ⟨c, hc, rfl⟩ := List.mem_map.mp hb
      exact hord c hc
    have e1 : (cs ++ term :: rest).map (ascvalOf eightbit) = cs.map (ascvalOf eightbit) ++
        (ascvalOf eightbit term :: rest.map (ascvalOf eightbit)) := by simp
    rw [e1, editLineMax_ordinary K maxlen _ _ hord' []
      (by simp only [List.length_nil, List.length_map]; omega)] at hrun
    simp only [editLineMax, hterm, if_true, List.nil_append, List.length_map,
      PwRun.Agrees] at hrun
    rw [hlen] at hrun
    unfold readpw
    refine ⟨?_, hrun.2.1, hrun.2.2⟩
    rw [hrun.1]
    congr 1
    omega
  · intro st c rest hptr hc
    have h := readpwLoop_overflow K maxlen eightbit c rest hc st (by omega)
    exact ⟨h.1, h.2.1⟩
  · intro cs c rest pass hlen hord hc
    obtain ⟨st', -, h2, h3⟩ := readpwLoop_ordinary K maxlen eightbit cs
      (ReadRes.byte c :: rest) hord (PwRun.start pass) rfl
      (by show 0 + cs.length + 1 ≤ maxlen; omega)
    unfold readpw
    rw [h3]
    have h := readpwLoop_overflow K maxlen eightbit c rest hc st'
      (by rw [h2]; show maxlen - 1 ≤ 0 + cs.length; omega)
    exact ⟨h.1, h.2.1⟩
  · intro script pass
    exact readpwLoop_writes K maxlen eightbit script (PwRun.start pass)
      (by show 0 + 1 ≤ maxlen; omega)
      (by intro i hi; simp only [PwRun.start, List.mem_singleton] at hi; omega)

/-- Witness for C9: with `MAX_PASSLEN` 4, `abc` and a newline are accepted with length 3,
and `abcd` overflows. -/
theorem readpw_length_limit_witness :
    Keys.ascii.WellFormed ∧ 0 < 4 ∧
      (readpw Keys.ascii 4 true (([97, 98, 99] ++ 10 :: []).map ReadRes.byte) [7, 7, 7, 7]).ret
        = some ((4 : Int) - 1) ∧
      (readpw Keys.ascii 4 true ([97, 98, 99].map ReadRes.byte ++ ReadRes.byte 100 :: [])
        [7, 7, 7, 7]).ret = some (-1) :=
  ⟨by decide, by decide,
   ((readpw_length_limit Keys.ascii (by decide) 4 (by decide) true).1 [97, 98, 99] 10 []
      [7, 7, 7, 7] (by decide) (by decide) (by decide) (by decide)).1,
   ((readpw_length_limit Keys.ascii (by decide) 4 (by decide) true).2.2.1 [97, 98, 99] 100 []
      [7, 7, 7, 7] (by decide) (by decide) (by decide)).1⟩

/-! ## `do_answer_password` -/

/-- The bytes sent on `fd` after one more accepted `write` on `fd`. -/
theorem sentOn_append_same (fd : Int) (sent : List (Int × List Nat)) (b : List Nat) :
    sentOn fd (sent ++ [(fd, b)]) = sentOn fd sent ++ b := by
  simp [sentOn, List.filter_append]

/-- In the daemon, one `write` that takes everything ends `safeout`: the bytes are
sent on `fd`, one script entry is used up, nothing else changes. -/
theorem safeoutD_one_write (fd : Int) (max : Int) (p : Nat) (rest : List WriteRes)
    (buf : List Nat) (d : Daemon) (hs : d.out.script = .ok p :: rest) (hne : buf ≠ [])
    (hp : buf.length ≤ p) (h1 : 1 ≤ max) (h2 : (buf.length : Int) ≤ max)
    (h3 : max ≤ SSIZE_MAX) :
    safeoutD fd buf max d =
      .ok { d with out := { d.out with script := rest, sent := d.out.sent ++ [(fd, buf)] } } := by
  unfold safeoutD
  rw [safeout_one_write fd max p rest buf d.out hs hne hp h1 h2 h3]
  simp

/-- Without a cached password `do_answer_password` sends ENQ and a NUL and returns 0. -/
theorem do_answer_password_enq (C : Cfg) (fd : Int) (d : Daemon)
    (hpw : d.pw = Option.none ∨ ∃ a, d.pw = some a ∧ a.size ≤ 0)
    (p : Nat) (rest : List WriteRes) (hs : d.out.script = .ok p :: rest) (hp : 2 ≤ p) :
    do_answer_password C fd d =
      (.ok { d with out := { d.out with script := rest,
                                        sent := d.out.sent ++ [(fd, [5, 0])] } }, 0) := by
  have hw := safeoutD_one_write fd SSIZE_MAX p rest [5, 0] d hs (by simp) (by simpa using hp)
    (by simp [SSIZE_MAX]) (by simp [SSIZE_MAX]) le_rfl
  unfold do_answer_password
  rcases hpw with h | ⟨a, h, ha⟩
  · simp only [h, ANSWER_ENQ, List.singleton_append, hw]
  · simp only [h, ha, if_true, ANSWER_ENQ, List.singleton_append, hw]

/-- The value of `len` in `do_answer_password` for a size in the positive range of `int32_t`. -/
theorem pwsize_len (size : Int) (h0 : 0 < size) (h1 : size < 2 ^ 31) :
    (size % 2 ^ 32).toNat = size.toNat ∧ (size.toNat + 1) % 2 ^ 32 = size.toNat + 1 := by
  have e : size % 2 ^ 32 = size := Int.emod_eq_of_lt (by omega) (by omega)
  rw [e]
  refine ⟨rfl, ?_⟩
  apply Nat.mod_eq_of_lt
  omega

/-- With a cached password of `n` bytes and three `write` calls that take what they
are offered, `do_answer_password` sends `ANSWER_MLT`, the four bytes of `n+1`, and
`n+1` bytes of the area after `frobnicate`; it returns 1, clears `pwprompt` and
leaves the area after a second `frobnicate`. -/
theorem do_answer_password_mlt (C : Cfg) (hC : C.WellFormed) (fd : Int) (d : Daemon)
    (a : PwArea) (hpw : d.pw = some a) (h0 : 0 < a.size) (h1 : a.size < 2 ^ 31)
    (hn : a.size.toNat < a.bytes.length)
    (p1 p2 p3 : Nat) (rest : List WriteRes)
    (hs : d.out.script = .ok p1 :: .ok p2 :: .ok p3 :: rest)
    (hp1 : C.ANSWER_MLT.length ≤ p1) (hp2 : 4 ≤ p2) (hp3 : a.size.toNat + 1 ≤ p3) :
    do_answer_password C fd d =
      (.ok { d with
             out := { d.out with
                      script := rest,
                      sent := d.out.sent ++ [(fd, C.ANSWER_MLT)] ++
                        [(fd, htole32 (a.size.toNat + 1))] ++
                        [(fd, (frobArea C a.size.toNat a).bytes.take (a.size.toNat + 1))] },
             pw := some (frobArea C a.size.toNat (frobArea C a.size.toNat a)),
             pwprompt := Option.none }, 1) := by
  obtain ⟨-, hm1, hm2, -⟩ := hC
  obtain ⟨e1, e2⟩ := pwsize_len a.size h0 h1
  have hpos : ¬ a.size ≤ 0 := by omega
  unfold do_answer_password
  simp only [hpw, hpos, if_false, e1, e2]
  have hlen1 : 0 < C.ANSWER_MLT.length := List.length_pos.mpr hm1
  rw [safeoutD_one_write fd _ p1 (.ok p2 :: .ok p3 :: rest) C.ANSWER_MLT
    { d with pw := some (frobArea C a.size.toNat a) } hs hm1 hp1
    (by omega) le_rfl (by simp only [SSIZE_MAX]; omega)]
  simp only [Res.bind]
  rw [safeoutD_one_write fd 4 p2 (.ok p3 :: rest) (htole32 (a.size.toNat + 1)) _ rfl
    (by simp [htole32]) (by simpa [htole32] using hp2) (by norm_num) (by simp [htole32])
    (by simp [SSIZE_MAX])]
  simp only [Res.bind]
  have hlen3 : ((frobArea C a.size.toNat a).bytes.take (a.size.toNat + 1)).length
      = a.size.toNat + 1 := by
    simp only [frobArea, List.length_take, List.length_append, C.frobnicate_length,
      List.length_drop]
    omega
  rw [safeoutD_one_write fd SSIZE_MAX p3 rest _ _ rfl
    (by intro h; rw [h] at hlen3; simp at hlen3) (by rw [hlen3]; exact hp3)
    (by simp [SSIZE_MAX]) (by rw [hlen3]; simp only [SSIZE_MAX]; omega) le_rfl]

/-- C3. The reply of `do_answer_password`.  With a cached password of `n > 0` bytes (the
area holds `frobnicate` of the plain bytes, then a NUL, and `*pwsize` is `n`; a
second `frobnicate` gives the plain bytes back) and `write` calls that take what
they are offered, the bytes sent on the connection are exactly `ANSWER_MLT`, the
four bytes of `n+1` in little-endian order, the `n` plain bytes and one NUL, and
the return value is 1.  Without a cached password (`pwsize` null or
`*pwsize <= 0`) the reply is the string ENQ, the byte 0x05 with its NUL, and
the return value is 0. -/
theorem do_answer_password_reply (C : Cfg) (hC : C.WellFormed) (fd : Int) (d : Daemon) :
    (∀ (a : PwArea) (plain : List Nat) (p1 p2 p3 : Nat) (rest : List WriteRes),
      d.pw = some a → plain ≠ [] → a.size = plain.length → plain.length < 2 ^ 31 →
      a.bytes.take plain.length = C.frobnicate plain →
      C.frobnicate (C.frobnicate plain) = plain →
      a.bytes.get? plain.length = some 0 →
      d.out.script = .ok p1 :: .ok p2 :: .ok p3 :: rest →
      C.ANSWER_MLT.length ≤ p1 → 4 ≤ p2 → plain.length + 1 ≤ p3 →
      ∃ d', do_answer_password C fd d = (.ok d', 1) ∧
        sentOn fd d'.out.sent = sentOn fd d.out.sent ++
          (C.ANSWER_MLT ++ htole32 (plain.length + 1) ++ plain ++ [0])) ∧
    ((d.pw = Option.none ∨ ∃ a, d.pw = some a ∧ a.size ≤ 0) →
      ∀ (p : Nat) (rest : List WriteRes), d.out.script = .ok p :: rest → 2 ≤ p →
      ∃ d', do_answer_password C fd d = (.ok d', 0) ∧
        sentOn fd d'.out.sent = sentOn fd d.out.sent ++ (ANSWER_ENQ ++ [0])) := by
  constructor
  · intro a plain p1 p2 p3 rest hpw hne hsize hlt harea hinv hnul hs hp1 hp2 hp3
    have hpos : 0 < plain.length := List.length_pos.mpr hne
    have hn : a.size.toNat = plain.length := by rw [hsize]; simp
    have hlen : plain.length < a.bytes.length := by
      by_contra hcon
      have : a.bytes.get? plain.length = Option.none := List.get?_eq_none.mpr (by omega)
      rw [this] at hnul; cases hnul
    have hrun := do_answer_password_mlt C hC fd d a hpw (by rw [hsize]; exact_mod_cast hpos)
      (by rw [hsize]; exact_mod_cast hlt) (by rw [hn]; exact hlen) p1 p2 p3 rest hs hp1 hp2
      (by rw [hn]; exact hp3)
    refine ⟨_, hrun, ?_⟩
    have hget : a.bytes.drop plain.length = 0 :: a.bytes.drop (plain.length + 1) := by
      rw [List.get?_eq_getElem?] at hnul
      obtain ⟨hlt', hv⟩ := List.getElem?_eq_some_iff.mp hnul
      rw [← hv]
      exact List.drop_eq_getElem_cons hlt'
    have hbytes : (frobArea C a.size.toNat a).bytes.take (a.size.toNat + 1) = plain ++ [0] := by
      simp only [frobArea, hn, harea, hinv, hget]
      rw [List.take_append_eq_append_take]
      simp [List.take_of_length_le]
    rw [hn] at hbytes
    simp only [hn, hbytes]
    simp [sentOn, List.filter_append]
  · intro hpw p rest hs hp
    refine ⟨_, do_answer_password_enq C fd d hpw p rest hs hp, ?_⟩
    simp only [sentOn_append_same, ANSWER_ENQ, List.singleton_append]

/-! ## The temporary buffer -/

/-- C7 (the code at the failing input). Two bytes wait in the temporary buffer,
nothing is blocked, `asking` is 0, and the first `write` of the drain fails with
`EAGAIN`: `copyout` returns -1, which `size_t ret` turns into `SIZE_MAX`, so the test
`ret < 1` passes and `thead += len` leaves `thead` one byte before `temp`.  The next
`write` fails with `EIO` (no reconnect hook), `copyout` returns 0 and the handler
leaves through `flush` with `thead < temp` and `tavail = 2` while `ttail - thead = 3`:
the invariant, which held before, is broken. -/
theorem epoll_console_in_breaks_invariant :
    (Daemon.twoBuffered [.eagain false, .eio false]).temp.Inv ∧
    ((epoll_console_in Cfg.sample ConsEnv.oneByte 10
        (Daemon.twoBuffered [.eagain false, .eio false])).toOption.map
      fun d => (d.temp.base, d.temp.thead, d.temp.ttail, d.temp.tavail))
      = some (4096, 4095, 4098, 2) ∧
    ((epoll_console_in Cfg.sample ConsEnv.oneByte 10
        (Daemon.twoBuffered [.eagain false, .eio false])).toOption.map
      fun d => decide d.temp.Inv) = some false := by
  refine ⟨by decide, by decide, by decide⟩

/-- The difference of two addresses below `2^63`, the first not below the second. -/
theorem ptrdiff_of_le (a b : Nat) (hab : b ≤ a) (ha : a < 2 ^ 63) :
    ptrdiff a b = (a : Int) - b := by
  have h1 : ((a : Int) - (b : Int)) % (WORD : Int) = (a : Int) - b := by
    apply Int.emod_eq_of_lt
    · omega
    · simp only [WORD]; push_cast; omega
  simp only [ptrdiff, h1]
  rw [if_pos (by omega)]

/-- The room behind `ttail`, as the handler computes it. -/
theorem room_eq (t : Temp) (hinv : t.Inv) (hend : t.tend < 2 ^ 63) :
    toSizeT (ptrdiff t.tend t.ttail) = t.tend - t.ttail := by
  obtain ⟨-, -, h3, -⟩ := hinv
  rw [ptrdiff_of_le _ _ h3 hend]
  have h1 : ((t.tend : Int) - (t.ttail : Int)) % (WORD : Int) = (t.tend : Int) - t.ttail := by
    apply Int.emod_eq_of_lt
    · omega
    · simp only [WORD]; push_cast; omega
  simp only [toSizeT, h1]
  omega

/-- The call of `epoll_reenable` changes nothing but the kernel's poll set. -/
theorem epoll_reenable_frame (fd : Int) (d d1 : Daemon) (h : epoll_reenable fd d = .ok d1) :
    ∃ k, d1 = { d with kset := k } := by
  unfold epoll_reenable at h
  split at h
  · cases h; exact ⟨d.kset, rfl⟩
  · split at h
    · cases h; exact ⟨_, rfl⟩
    · cases h

/-- The writability probes leave `asking` and the temporary buffer alone. -/
theorem probeLoop_frame (env : ConsEnv) (cs : List Console) :
    ∀ d d1 : Daemon, probeLoop env cs d = .ok d1 →
      d1.asking = d.asking ∧ d1.temp = d.temp := by
  induction cs with
  | nil => intro d d1 h; simp only [probeLoop] at h; cases h; exact ⟨rfl, rfl⟩
  | cons c cs ih =>
    intro d d1 h
    simp only [probeLoop] at h
    split_ifs at h with h1 h2 h3
    · exact ih _ _ h
    · cases h; exact ⟨rfl, rfl⟩
    · exact ih _ _ h
    · split at h
      · rename_i d2 hre
        obtain ⟨k, rfl⟩ := epoll_reenable_frame _ _ _ hre
        have hh := ih _ _ h
        exact hh
      · rename_i r hne
        rw [h] at hne
        exact absurd rfl (hne d1)

/-- What the append does to the buffer when the chunk fits. -/
theorem Temp.append_spec (t : Temp) (chunk : List Nat) (hinv : t.Inv) (hend : t.tend < 2 ^ 63)
    (hfit : chunk.length ≤ t.tend - t.ttail) :
    (t.append chunk).ttail = t.ttail + chunk.length ∧
    (t.append chunk).thead = t.thead ∧
    (t.append chunk).base = t.base ∧
    (t.append chunk).tavail = ((t.ttail + chunk.length : Nat) : Int) - t.thead ∧
    (t.append chunk).mem.length = t.mem.length ∧
    ((t.append chunk).mem.drop (t.ttail - t.base)).take chunk.length = chunk ∧
    (t.append chunk).mem.take (t.ttail - t.base) = t.mem.take (t.ttail - t.base) ∧
    (t.append chunk).mem.drop (t.ttail - t.base + chunk.length) =
      t.mem.drop (t.ttail - t.base + chunk.length) := by
  obtain ⟨h1, h2, h3, h4⟩ := hinv
  simp only [Temp.tend] at h3 hend hfit
  have hmod : (t.ttail + chunk.length) % WORD = t.ttail + chunk.length := by
    apply Nat.mod_eq_of_lt
    simp only [WORD]; omega
  have hoff : t.ttail - t.base ≤ t.mem.length := by omega
  have hlen_take : (t.mem.take (t.ttail - t.base)).length = t.ttail - t.base := by
    rw [List.length_take]; omega
  refine ⟨?_, rfl, rfl, ?_, ?_, ?_, ?_, ?_⟩
  · simp only [Temp.append, hmod]
  · simp only [Temp.append, hmod]
    rw [ptrdiff_of_le _ _ (by omega) (by omega)]
  · simp only [Temp.append, List.length_append, List.length_take, List.length_drop]
    omega
  · simp only [Temp.append, List.append_assoc]
    rw [List.drop_append_of_le_length (by omega), List.drop_of_length_le (by omega)]
    simp
  · simp only [Temp.append, List.append_assoc]
    rw [List.take_append_of_le_length (by omega), List.take_of_length_le (by omega)]
  · simp only [Temp.append]
    rw [List.drop_append_eq_append_drop, List.drop_of_length_le (by
      simp only [List.length_append]; omega)]
    simp only [List.length_append, hlen_take, List.nil_append]
    rw [List.drop_drop]
    congr 1
    omega

/-- While `asking` is set the capture handler does nothing to the temporary buffer
but the guarded append of the chunk it read. -/
theorem epoll_console_in_asking (C : Cfg) (hT : 0 < C.TRANS_BUFFER_SIZE) (env : ConsEnv)
    (fuel : Nat) (d d' : Daemon)
    (hask : d.asking ≠ 0) (hrun : epoll_console_in C env fuel d = .ok d') :
    d'.asking = d.asking ∧
    (env.inp.avail = [] → d'.temp = d.temp) ∧
    (env.inp.avail ≠ [] →
      d'.temp = d.temp.appendIfRoom (env.inp.avail.take C.TRANS_BUFFER_SIZE)) := by
  unfold epoll_console_in at hrun
  simp only at hrun
  rcases hav : env.inp.avail with _ | ⟨b, bs⟩
  · simp only [safein, hav] at hrun
    rcases he : env.inp.err with _ | e
    · simp only [he, le_refl, if_true] at hrun
      cases hrun
      exact ⟨rfl, fun _ => rfl, fun h => absurd rfl h⟩
    · simp only [he] at hrun
      split_ifs at hrun
      · simp at hrun
        cases hrun
        exact ⟨rfl, fun _ => rfl, fun h => absurd rfl h⟩
  · simp only [safein, hav] at hrun
    have hpos : ¬ ((min (bs.length + 1) C.TRANS_BUFFER_SIZE : Nat) : Int) ≤ 0 := by omega
    have htake : (b :: bs).take (min (bs.length + 1) C.TRANS_BUFFER_SIZE) =
        (b :: bs).take C.TRANS_BUFFER_SIZE := by
      rcases Nat.le_total (bs.length + 1) C.TRANS_BUFFER_SIZE with h | h
      · rw [Nat.min_eq_left h, List.take_of_length_le (by simp),
          List.take_of_length_le (by simpa using h)]
      · rw [Nat.min_eq_right h]
    simp only [hpos, if_false, htake] at hrun
    rcases hp : probeLoop env d.cons
        { d with acts := d.acts ++ [Act.parselog ((b :: bs).take C.TRANS_BUFFER_SIZE)] }
      with d1 | d1 | d1 | _
    all_goals rw [hp] at hrun
    all_goals simp only [Res.bind] at hrun
    · obtain ⟨ha, ht⟩ := probeLoop_frame env _ _ _ hp
      have hask1 : d1.asking ≠ 0 := by rw [ha]; exact hask
      simp only [hask1, ne_eq, not_false_eq_true, true_or, if_true] at hrun
      cases hrun
      refine ⟨ha, fun h => (by cases h), fun _ => ?_⟩
      simp only [flush, ht]
    all_goals cases hrun

/-- The guarded append is the append when the chunk fits and nothing otherwise. -/
theorem Temp.appendIfRoom_eq (t : Temp) (chunk : List Nat) (hinv : t.Inv)
    (hend : t.tend < 2 ^ 63) :
    (chunk.length ≤ t.tend - t.ttail → t.appendIfRoom chunk = t.append chunk) ∧
    (t.tend - t.ttail < chunk.length → t.appendIfRoom chunk = t) := by
  unfold Temp.appendIfRoom
  rw [room_eq t hinv hend]
  constructor
  · intro h; rw [if_pos h]
  · intro h; rw [if_neg (by omega)]

/-- The append of a chunk that fits keeps the invariant and the place of the buffer. -/
theorem Temp.append_inv (t : Temp) (chunk : List Nat) (hinv : t.Inv) (hend : t.tend < 2 ^ 63)
    (hfit : chunk.length ≤ t.tend - t.ttail) :
    (t.append chunk).Inv ∧ (t.append chunk).tend = t.tend := by
  obtain ⟨a1, a2, a3, a4, a5, -, -, -⟩ := Temp.append_spec t chunk hinv hend hfit
  obtain ⟨h1, h2, h3, h4⟩ := hinv
  have htend : (t.append chunk).tend = t.tend := by
    simp only [Temp.tend, a3, a5]
  refine ⟨⟨?_, ?_, ?_, ?_⟩, htend⟩
  · rw [a3, a2]; exact h1
  · rw [a2, a1]; omega
  · rw [htend, a1]; omega
  · rw [a4, a1, a2]

/-- C8. The capacity of the temporary buffer while `asking` is set.  A chunk of
`cnt` bytes with `cnt <= tend - ttail` is appended: `ttail` advances by `cnt`, `thead` stays,
`tavail` is `ttail - thead`, the bytes at the old `[ttail, ttail+cnt)` are the chunk and
the bytes before and behind are unchanged.  A chunk with `cnt > tend - ttail`
leaves the buffer as it is.  A chunk of exactly `tend - ttail` bytes makes
`ttail == tend`, and a following chunk of one byte is dropped: the buffer, the
array `temp` included, is unchanged. -/
theorem asking_chunk_capacity (C : Cfg) (hT : 0 < C.TRANS_BUFFER_SIZE) (env : ConsEnv)
    (fuel : Nat) (d d' : Daemon) (hask : d.asking ≠ 0) (hinv : d.temp.Inv)
    (hend : d.temp.tend < 2 ^ 63) (hrun : epoll_console_in C env fuel d = .ok d') :
    ((env.inp.avail.take C.TRANS_BUFFER_SIZE).length ≤ d.temp.tend - d.temp.ttail →
      d'.temp.ttail = d.temp.ttail + (env.inp.avail.take C.TRANS_BUFFER_SIZE).length ∧
      d'.temp.thead = d.temp.thead ∧
      d'.temp.tavail = (d'.temp.ttail : Int) - d'.temp.thead ∧
      (d'.temp.mem.drop (d.temp.ttail - d.temp.base)).take
          (env.inp.avail.take C.TRANS_BUFFER_SIZE).length
        = env.inp.avail.take C.TRANS_BUFFER_SIZE ∧
      d'.temp.mem.take (d.temp.ttail - d.temp.base)
        = d.temp.mem.take (d.temp.ttail - d.temp.base) ∧
      d'.temp.mem.drop
          (d.temp.ttail - d.temp.base + (env.inp.avail.take C.TRANS_BUFFER_SIZE).length)
        = d.temp.mem.drop
          (d.temp.ttail - d.temp.base + (env.inp.avail.take C.TRANS_BUFFER_SIZE).length) ∧
      d'.temp.mem.length = d.temp.mem.length) ∧
    (d.temp.tend - d.temp.ttail < (env.inp.avail.take C.TRANS_BUFFER_SIZE).length →
      d'.temp = d.temp) ∧
    ((env.inp.avail.take C.TRANS_BUFFER_SIZE).length = d.temp.tend - d.temp.ttail →
      d'.temp.ttail = d'.temp.tend ∧
      ∀ (env2 : ConsEnv) (fuel2 : Nat) (d2 : Daemon),
        (env2.inp.avail.take C.TRANS_BUFFER_SIZE).length = 1 →
        epoll_console_in C env2 fuel2 d' = .ok d2 → d2.temp = d'.temp) := by
  obtain ⟨hask', hnil, hcons⟩ := epoll_console_in_asking C hT env fuel d d' hask hrun
  obtain ⟨hfit, hnofit⟩ := Temp.appendIfRoom_eq d.temp (env.inp.avail.take C.TRANS_BUFFER_SIZE)
    hinv hend
  -- the buffer after the call, in both cases of the read
  have hd' : ((env.inp.avail.take C.TRANS_BUFFER_SIZE).length ≤ d.temp.tend - d.temp.ttail →
        d'.temp = d.temp.append (env.inp.avail.take C.TRANS_BUFFER_SIZE) ∨
          (env.inp.avail = [] ∧ d'.temp = d.temp)) ∧
      (d.temp.tend - d.temp.ttail < (env.inp.avail.take C.TRANS_BUFFER_SIZE).length →
        d'.temp = d.temp) := by
    by_cases hav : env.inp.avail = []
    · refine ⟨fun _ => Or.inr ⟨hav, hnil hav⟩, fun _ => hnil hav⟩
    · refine ⟨fun h => Or.inl ?_, fun h => ?_⟩
      · rw [hcons hav, hfit h]
      · rw [hcons hav, hnofit h]
  have hkeep : d'.temp.Inv ∧ d'.temp.tend = d.temp.tend := by
    rcases Nat.lt_or_ge (d.temp.tend - d.temp.ttail)
        (env.inp.avail.take C.TRANS_BUFFER_SIZE).length with h | h
    · rw [hd'.2 h]; exact ⟨hinv, rfl⟩
    · rcases hd'.1 h with h1 | ⟨-, h1⟩
      · rw [h1]; exact Temp.append_inv _ _ hinv hend h
      · rw [h1]; exact ⟨hinv, rfl⟩
  refine ⟨fun h => ?_, hd'.2, fun h => ?_⟩
  · rcases hd'.1 h with h1 | ⟨hav, h1⟩
    · obtain ⟨a1, a2, a3, a4, a5, a6, a7, a8⟩ :=
        Temp.append_spec d.temp _ hinv hend h
      rw [h1]
      refine ⟨a1, a2, ?_, a6, a7, a8, a5⟩
      rw [a4, a1, a2]
    · rw [h1, hav]
      obtain ⟨-, -, -, h4⟩ := hinv
      simp [h4]
  · have hfull : d'.temp.ttail = d'.temp.tend := by
      rcases hd'.1 (le_of_eq h) with h1 | ⟨hav, h1⟩
      · obtain ⟨a1, -⟩ := Temp.append_spec d.temp _ hinv hend (le_of_eq h)
        rw [hkeep.2, h1, a1, h]
        obtain ⟨-, -, h3, -⟩ := hinv
        omega
      · rw [hkeep.2, h1]
        rw [hav] at h
        simp only [List.take_nil, List.length_nil] at h
        obtain ⟨-, -, h3, -⟩ := hinv
        omega
    refine ⟨hfull, fun env2 fuel2 d2 hone hrun2 => ?_⟩
    have hask2 : d'.asking ≠ 0 := by rw [hask']; exact hask
    obtain ⟨-, hnil2, hcons2⟩ := epoll_console_in_asking C hT env2 fuel2 d' d2 hask2 hrun2
    by_cases hav2 : env2.inp.avail = []
    · exact hnil2 hav2
    · rw [hcons2 hav2]
      exact (Temp.appendIfRoom_eq d'.temp _ hkeep.1 (by rw [hkeep.2]; exact hend)).2
        (by rw [hone, hfull]; omega)

/-! ## The control server -/

set_option maxRecDepth 100000 in
/-- C2 (the code at the failing input). For the root path of 255 letters, which
the client accepts, the length byte of the frame is `(255 + 1) mod 256 = 0`
although 256 argument bytes follow; the server, reading 0 argument bytes,
gets the empty string as its argument and not the path. -/
theorem chroot_frame_length_wraps :
    (main Magic.sample ⟨true, [.ok 300], false, ⟨[], Option.none⟩⟩
        [str "blogctl", str "root=" ++ longRoot]).map (fun r => r.sent)
      = some ([82, 2, 0] ++ longRoot ++ [0]) ∧
    readRequest (SockEnv.sample ([82, 2, 0] ++ longRoot ++ [0]) 0) (Daemon.oneConn [])
      = some (some { magic := 82, arg := some [] }) := by
  constructor
  · decide
  · decide

/-! ## The cached password is not changed by answering -/

/-- The function `safeout` changes nothing of the daemon but what belongs to the descriptors:
the part `out` and the kernel's poll set. -/
theorem safeoutD_frame (fd : Int) (buf : List Nat) (max : Int) (d d' : Daemon)
    (h : safeoutD fd buf max d = .ok d') : ∃ o k, d' = { d with out := o, kset := k } := by
  unfold safeoutD at h
  split at h
  · rename_i o ho
    split_ifs at h
    · obtain ⟨k, hk⟩ := epoll_reenable_frame _ _ _ h
      exact ⟨o, k, hk⟩
    · cases h; exact ⟨o, d.kset, rfl⟩
  all_goals cases h

/-- Two runs of `frobnicate` over the first `n` bytes give the area back, when
`frobnicate` is an involution. -/
theorem frobArea_twice (C : Cfg) (hinv : ∀ l, C.frobnicate (C.frobnicate l) = l) (n : Nat)
    (a : PwArea) : frobArea C n (frobArea C n a) = a := by
  have hlen : (C.frobnicate (a.bytes.take n)).length = min n a.bytes.length := by
    rw [C.frobnicate_length, List.length_take]
  have htake : (C.frobnicate (a.bytes.take n) ++ a.bytes.drop n).take n
      = C.frobnicate (a.bytes.take n) := by
    rw [List.take_append_eq_append_take, hlen]
    rcases Nat.le_total n a.bytes.length with h | h
    · rw [Nat.min_eq_left h, Nat.sub_self, List.take_zero, List.append_nil,
        List.take_of_length_le (by rw [hlen]; omega)]
    · rw [List.drop_of_length_le h, List.take_nil, List.append_nil,
        List.take_of_length_le (by rw [hlen]; omega)]
  have hdrop : (C.frobnicate (a.bytes.take n) ++ a.bytes.drop n).drop n = a.bytes.drop n := by
    rw [List.drop_append_eq_append_drop, hlen]
    rcases Nat.le_total n a.bytes.length with h | h
    · rw [Nat.min_eq_left h, Nat.sub_self, List.drop_zero,
        List.drop_of_length_le (by rw [hlen]; omega), List.nil_append]
    · rw [List.drop_of_length_le h, List.drop_nil, List.append_nil,
        List.drop_of_length_le (by rw [hlen]; omega)]
  cases a with
  | mk bytes size =>
    simp only [frobArea] at htake hdrop ⊢
    rw [htake, hdrop, hinv, List.take_append_drop]

/-- Whatever the `write` calls do, `do_answer_password` returns with the password area and
`*pwsize` as it found them, when `frobnicate` is an involution. -/
theorem do_answer_password_pw (C : Cfg) (hinv : ∀ l, C.frobnicate (C.frobnicate l) = l)
    (fd : Int) (d d' : Daemon) (r : Int) (h : do_answer_password C fd d = (.ok d', r)) :
    d'.pw = d.pw := by
  unfold do_answer_password at h
  split at h
  · rename_i hpw
    simp only [Prod.mk.injEq] at h
    obtain ⟨o, k, rfl⟩ := safeoutD_frame _ _ _ _ _ h.1
    rfl
  · rename_i a hpw
    split_ifs at h with hs
    · simp only [Prod.mk.injEq] at h
      obtain ⟨o, k, rfl⟩ := safeoutD_frame _ _ _ _ _ h.1
      rfl
    · simp only [Prod.mk.injEq] at h
      obtain ⟨h1, -⟩ := h
      rcases e2 : safeoutD fd C.ANSWER_MLT (C.ANSWER_MLT.length : Int)
          { d with pw := some (frobArea C (a.size % 2 ^ 32).toNat a) } with d2 | d2 | d2 | _
      all_goals rw [e2] at h1
      all_goals simp only [Res.bind] at h1
      · rcases e3 : safeoutD fd (htole32 (((a.size % 2 ^ 32).toNat + 1) % 2 ^ 32)) 4 d2
          with d3 | d3 | d3 | _
        all_goals rw [e3] at h1
        all_goals simp only [Res.bind] at h1
        · rcases e4 : safeoutD fd
              ((frobArea C (a.size % 2 ^ 32).toNat a).bytes.take
                (((a.size % 2 ^ 32).toNat + 1) % 2 ^ 32)) SSIZE_MAX d3 with d4 | d4 | d4 | _
          all_goals rw [e4] at h1
          all_goals simp only [Res.bind] at h1
          · cases h1
            rw [hpw, frobArea_twice C hinv]
          all_goals cases h1
        all_goals cases h1
      all_goals cases h1

/-- The two magics of the password requests are different case labels. -/
theorem Magic.WellFormed.ask_ne_cached (M : Magic) (hM : M.WellFormed) :
    M.CACHED_PWD ≠ M.ASK_PWD := by
  obtain ⟨h1, -, -⟩ := hM
  simp only [Magic.serverLabels, List.nodup_cons, List.mem_cons, not_or] at h1
  exact fun h => h1.1.1 h.symm

/-- The bytes sent on `fd` after three more accepted `write` calls on `fd`. -/
theorem sentOn_append_three (fd : Int) (sent : List (Int × List Nat)) (a b c : List Nat) :
    sentOn fd (sent ++ [(fd, a)] ++ [(fd, b)] ++ [(fd, c)]) = sentOn fd sent ++ (a ++ b ++ c) := by
  simp [sentOn, List.filter_append]

/-- C4. Answering a password request does not change the cached password.  With
`frobnicate` an involution, `do_answer_password` returns with the password area and
`*pwsize` as it found them, whatever the `write` calls do.  Hence, once the
prompters have left a password of `*pwsize > 0` bytes, the deferred reply to
ASK_PWD (sent by `epoll_socket_answer`) is an MLT frame, and every later CACHED_PWD
request of a root peer, handled in any state whose password area is still
the same, is answered with exactly the same bytes and again leaves the area
unchanged (the `write` calls are taken to accept the replies). -/
theorem cached_password_replies_identical (C : Cfg) (hC : C.WellFormed)
    (hinv : ∀ l, C.frobnicate (C.frobnicate l) = l) (askenv : AskEnv) (fd1 : Int)
    (d d1 : Daemon) (a : PwArea) (p1 p2 p3 : Nat) (rest : List WriteRes)
    (hfd1 : 0 ≤ fd1) (hask : ask_for_password askenv d = .ok d1)
    (hpw : d1.pw = some a) (h0 : 0 < a.size) (h1 : a.size < 2 ^ 31)
    (hn : a.size.toNat < a.bytes.length)
    (hreg1 : d1.kset.any (fun e => e.fd == fd1) = true)
    (hs : d1.out.script = .ok p1 :: .ok p2 :: .ok p3 :: rest)
    (hp1 : C.ANSWER_MLT.length ≤ p1) (hp2 : 4 ≤ p2) (hp3 : a.size.toNat + 1 ≤ p3) :
    (∀ (fd : Int) (d0 d' : Daemon) (r : Int),
      do_answer_password C fd d0 = (.ok d', r) → d'.pw = d0.pw) ∧
    ∃ (d2 : Daemon) (frame : List Nat),
      epoll_socket_answer C askenv fd1 d = .ok d2 ∧
      sentOn fd1 d2.out.sent = sentOn fd1 d1.out.sent ++ frame ∧
      d2.pw = some a ∧
      (∃ tail, frame = C.ANSWER_MLT ++ tail) ∧
      ∀ (env : SockEnv) (fd3 : Int) (d3 : Daemon) (rq : Request) (pid q1 q2 q3 : Nat)
        (rest3 : List WriteRes),
        d3.pw = d2.pw → 0 < fd3 → readRequest env d3 = some (some rq) →
        rq.magic = C.M.CACHED_PWD → env.cred = CredRes.ok 0 pid →
        d3.kset.any (fun e => e.fd == fd3) = true →
        d3.out.script = .ok q1 :: .ok q2 :: .ok q3 :: rest3 →
        C.ANSWER_MLT.length ≤ q1 → 4 ≤ q2 → a.size.toNat + 1 ≤ q3 →
        ∃ d4, socket_handler C env fd3 d3 = .ok d4 ∧
          sentOn fd3 d4.out.sent = sentOn fd3 d3.out.sent ++ frame ∧ d4.pw = d3.pw := by
  refine ⟨fun fd d0 d' r h => do_answer_password_pw C hinv fd d0 d' r h, ?_⟩
  have hrun1 := do_answer_password_mlt C hC fd1 d1 a hpw h0 h1 hn p1 p2 p3 rest hs hp1 hp2 hp3
  obtain ⟨d2, hd2, hsent2, hpw2⟩ : ∃ d2, epoll_socket_answer C askenv fd1 d = .ok d2 ∧
      d2.out.sent = d1.out.sent ++ [(fd1, C.ANSWER_MLT)] ++
        [(fd1, htole32 (a.size.toNat + 1))] ++
        [(fd1, (frobArea C a.size.toNat a).bytes.take (a.size.toNat + 1))] ∧
      d2.pw = some (frobArea C a.size.toNat (frobArea C a.size.toNat a)) := by
    unfold epoll_socket_answer
    rw [if_neg (not_lt.mpr hfd1), hask]
    simp only [Res.bind, hrun1, epoll_delete, hreg1, if_true]
    exact ⟨_, rfl, rfl, rfl⟩
  rw [frobArea_twice C hinv] at hpw2
  refine ⟨d2, C.ANSWER_MLT ++ htole32 (a.size.toNat + 1) ++
    (frobArea C a.size.toNat a).bytes.take (a.size.toNat + 1), hd2, ?_, hpw2, ?_, ?_⟩
  · rw [hsent2]
    exact sentOn_append_three fd1 d1.out.sent _ _ _
  · exact ⟨_, List.append_assoc _ _ _⟩
  · intro env fd3 d3 rq pid q1 q2 q3 rest3 hpw3 hfd3 hrq hmag hcred hreg3 hs3 hq1 hq2 hq3
    have hpw3' : d3.pw = some a := by rw [hpw3, hpw2]
    have hrun3 := do_answer_password_mlt C hC fd3 d3 a hpw3' h0 h1 hn q1 q2 q3 rest3 hs3 hq1
      hq2 hq3
    have hne : ¬ C.M.CACHED_PWD = C.M.ASK_PWD := Magic.WellFormed.ask_ne_cached C.M hC.1
    obtain ⟨d4, hd4, hsent4, hpw4⟩ : ∃ d4, socket_handler C env fd3 d3 = .ok d4 ∧
        d4.out.sent = d3.out.sent ++ [(fd3, C.ANSWER_MLT)] ++
          [(fd3, htole32 (a.size.toNat + 1))] ++
          [(fd3, (frobArea C a.size.toNat a).bytes.take (a.size.toNat + 1))] ∧
        d4.pw = some (frobArea C a.size.toNat (frobArea C a.size.toNat a)) := by
      unfold socket_handler
      rw [if_neg (not_lt.mpr (le_of_lt hfd3)), hrq]
      simp only [hcred, ne_eq, not_true_eq_false, if_false, dispatch, hne, hmag, if_true, hrun3,
        one_ne_zero, decide_False, Bool.false_eq_true, Res.bind, sockOut, hfd3, epoll_delete,
        hreg3]
      exact ⟨_, rfl, rfl, rfl⟩
    rw [frobArea_twice C hinv] at hpw4
    refine ⟨d4, hd4, ?_, by rw [hpw4, hpw3']⟩
    rw [hsent4]
    exact sentOn_append_three fd3 d3.out.sent _ _ _

/-- The sample `frobnicate` is an involution. -/
theorem Cfg.sample_involution (l : List Nat) :
    Cfg.sample.frobnicate (Cfg.sample.frobnicate l) = l := by
  simp only [Cfg.sample, List.map_map]
  have h : ((fun b : Nat => b ^^^ 42) ∘ fun b : Nat => b ^^^ 42) = id := by
    funext b
    simp [Nat.xor_assoc]
  rw [h, List.map_id]

/-- Witness for C3: with the password `secret` cached the reply is
`MLT 07 00 00 00 s e c r e t 00`. -/
theorem do_answer_password_reply_witness :
    Cfg.sample.WellFormed ∧
    (∃ d', do_answer_password Cfg.sample 7 (Daemon.secretCached [.ok 1, .ok 4, .ok 7])
        = (.ok d', 1) ∧
      sentOn 7 d'.out.sent = sentOn 7 (Daemon.secretCached [.ok 1, .ok 4, .ok 7]).out.sent ++
        (Cfg.sample.ANSWER_MLT ++ htole32 ((str "secret").length + 1) ++ str "secret" ++ [0])) ∧
    Cfg.sample.ANSWER_MLT ++ htole32 ((str "secret").length + 1) ++ str "secret" ++ [0]
      = [9, 7, 0, 0, 0, 115, 101, 99, 114, 101, 116, 0] :=
  ⟨by decide,
   (do_answer_password_reply Cfg.sample (by decide) 7
      (Daemon.secretCached [.ok 1, .ok 4, .ok 7])).1 PwArea.secret (str "secret") 1 4 7 []
      rfl (by decide) (by decide) (by decide) (by decide) (by decide) (by decide) rfl
      (by decide) (by decide) (by decide),
   by decide⟩

/-- Witness for C4: the prompters leave `secret`; the deferred reply on descriptor 7
is sent and the area is as the prompters left it. -/
theorem cached_password_replies_identical_witness :
    ∃ (d2 : Daemon) (frame : List Nat),
      epoll_socket_answer Cfg.sample ⟨some PwArea.secret⟩ 7
          (Daemon.prompting [.ok 1, .ok 4, .ok 7]) = .ok d2 ∧
      sentOn 7 d2.out.sent = frame ∧ d2.pw = some PwArea.secret ∧
      ∃ tail, frame = Cfg.sample.ANSWER_MLT ++ tail := by
  obtain ⟨-, d2, frame, h1, h2, h3, h4, -⟩ :=
    cached_password_replies_identical Cfg.sample (by decide)
      Cfg.sample_involution
      ⟨some PwArea.secret⟩ 7 (Daemon.prompting [.ok 1, .ok 4, .ok 7])
      ((ask_for_password ⟨some PwArea.secret⟩
        (Daemon.prompting [.ok 1, .ok 4, .ok 7])).toOption.getD (Daemon.idle Cfg.sample []))
      PwArea.secret 1 4 7 [] (by decide) rfl rfl (by decide) (by decide) (by decide)
      (by decide) rfl (by decide) (by decide) (by decide)
  exact ⟨d2, frame, h1, by simpa using h2, h3, h4⟩

/-- Witness for C8: while a password is asked for, one byte is appended behind the
two that wait in the temporary buffer. -/
theorem asking_chunk_capacity_witness :
    Daemon.askingTwo.asking ≠ 0 ∧ Daemon.askingTwo.temp.Inv ∧
    ((epoll_console_in Cfg.sample ConsEnv.oneByte 1 Daemon.askingTwo).toOption.getD
        Daemon.askingTwo).temp.ttail = Daemon.askingTwo.temp.ttail +
      (ConsEnv.oneByte.inp.avail.take Cfg.sample.TRANS_BUFFER_SIZE).length :=
  ⟨by decide, by decide,
   ((asking_chunk_capacity Cfg.sample (by decide) ConsEnv.oneByte 1 Daemon.askingTwo
      ((epoll_console_in Cfg.sample ConsEnv.oneByte 1 Daemon.askingTwo).toOption.getD
        Daemon.askingTwo) (by decide) (by decide) (by decide) rfl).1 (by decide)).1⟩

/-- Waiting for the answer does not change what was sent. -/
theorem clientAnswer_sent (env : ClientEnv) (sent : List Nat) :
    (clientAnswer env sent).sent = sent := by
  unfold clientAnswer
  split
  · split <;> rfl
  · rfl

/-- For a root path of 1 to 254 bytes the frame of the client is well formed and
the server reads the path back: the length byte is `strlen(root)+1`, and
`socket_handler` gets the path with its NUL as argument. -/
theorem chroot_frame_roundtrip (M : Magic) (hM : M.WellFormed) (prog p : List Nat)
    (h1 : 1 ≤ p.length) (h2 : p.length ≤ 254) (hnul : ∀ b ∈ p, b ≠ 0)
    (env : ClientEnv) (hcon : env.connected = true) (q : Nat) (rest : List WriteRes)
    (hs : env.script = .ok q :: rest) (hq : 259 ≤ q) :
    (∃ run, main M env [prog, str "root=" ++ p] = some run ∧
      run.sent = [M.CHROOT, 2, p.length + 1] ++ p ++ [0]) ∧
    ∀ (senv : SockEnv) (d : Daemon),
      senv.inp = ⟨[M.CHROOT, 2, p.length + 1] ++ p ++ [0], Option.none⟩ →
      readRequest senv d = some (some ⟨M.CHROOT, some (p ++ [0])⟩) ∧ cstr (p ++ [0]) = p := by
  have e8 : str "root=" = [114, 111, 111, 116, 61] := by decide
  obtain ⟨-, hb, -⟩ := Magic.WellFormed.client M hM
  constructor
  · have hget : getcmd M [prog, str "root=" ++ p] ⟨1, Option.none⟩
        = (M.CHROOT, ⟨2, some p⟩) := by
      rw [e8]
      have harg : [prog, [114, 111, 111, 116, 61] ++ p].get? 1
          = some (114 :: ([111, 111, 116, 61] ++ p)) := rfl
      rw [getcmd_arg M _ 114 ([111, 111, 116, 61] ++ p) harg, getcmdLoop_cmds]
      simp [strchrEq, List.dropWhile]
    have hmsg : chrootMessage M.CHROOT p = [M.CHROOT, 2, p.length + 1] ++ p ++ [0] := by
      simp only [chrootMessage]
      rw [Nat.mod_eq_of_lt (by omega)]
    have hne : ¬ M.CHROOT = CHAR_M1 := by simp only [CHAR_M1]; omega
    have hlen : ¬ (((p.length : Nat) : Int) > UCHAR_MAX ∨ ((p.length : Nat) : Int) < 1) := by
      simp only [UCHAR_MAX]; omega
    unfold main
    simp only [hcon, Bool.not_true, Bool.false_eq_true, if_false, hget, hne, if_true,
      Option.getD_some, hlen, hmsg]
    unfold clientSend
    rw [safeout_one_write 3 SSIZE_MAX q rest _ (Out.init env.script) hs (by simp)
      (by simp only [List.length_append, List.length_cons, List.length_nil]; omega)
      (by simp [SSIZE_MAX])
      (by simp only [List.length_append, List.length_cons, List.length_nil, SSIZE_MAX]; omega)
      le_rfl]
    refine ⟨_, rfl, ?_⟩
    have hsent : sentOn 3 ((Out.init env.script).sent ++
        [((3 : Int), [M.CHROOT, 2, p.length + 1] ++ p ++ [0])])
        = [M.CHROOT, 2, p.length + 1] ++ p ++ [0] := by
      rw [sentOn_append_same]; rfl
    rw [clientAnswer_sent]
    exact hsent
  · intro senv d hinp
    constructor
    · unfold readRequest
      simp only [hinp, safein, List.cons_append, List.nil_append, List.length_cons, store]
      simp only [List.getD_cons_succ, List.getD_cons_zero, if_true, List.take_succ_cons,
        List.take_zero, List.drop_succ_cons, List.drop_zero, Nat.min_def, List.length_nil,
        Nat.cast_ofNat, List.length_singleton]
      simp only [Nat.reduceLeDiff, Nat.reduceAdd, if_true, if_false, List.take_succ_cons,
        List.take_zero, List.drop_succ_cons, List.drop_zero, List.length_cons, List.length_nil,
        List.getD_cons_succ, List.getD_cons_zero, List.nil_append, List.cons_append]
      obtain ⟨x, xs, hx⟩ : ∃ x xs, p ++ [0] = x :: xs := by
        cases p with
        | nil => exact ⟨0, [], rfl⟩
        | cons y ys => exact ⟨y, ys ++ [0], List.cons_append _ _ _⟩
      have hxl : xs.length + 1 = p.length + 1 := by
        have := congrArg List.length hx
        simp only [List.length_append, List.length_cons, List.length_nil] at this
        omega
      have hxl' : xs.length = p.length := by omega
      have hpos : ¬ ((p.length : Int) + 1 < 0) := by omega
      simp [hx, hxl, hxl', hpos]
    · have hall : ∀ b ∈ p, (b != 0) = true := by
        intro b hb
        simpa using hnul b hb
      unfold cstr
      rw [List.takeWhile_append_of_pos hall]
      simp

/-! ## The invariant of the temporary buffer when no `write` fails with `EAGAIN` -/

/-- The byte count of one `write` is at most what is left to write. -/
theorem chunkLen_le (s : Nat) (max : Int) (hs : 1 ≤ s) : chunkLen s max ≤ s := by
  unfold chunkLen
  split_ifs <;> omega

/-- Without `EAGAIN` the function `copyout` returns a count between what it had and what it was
asked for, and touches only the script and the bytes sent. -/
theorem copyoutLoop_spec (fd : Int) (max : Int) (script : List WriteRes) :
    ∀ (buf : List Nat) (s : Nat) (r : Int) (o o' : Out) (r' : Int),
      1 ≤ s → NoEagain script →
      copyoutLoop fd max script buf s r o = some (o', r') →
      r ≤ r' ∧ r' ≤ r + s ∧ NoEagain o'.script ∧ o'.blocked = o.blocked ∧
        o'.reenabled = o.reenabled ∧ o'.signaled = o.signaled ∧ o'.reconnect = o.reconnect := by
  induction script with
  | nil => intro buf s r o o' r' _ _ h; simp only [copyoutLoop] at h; cases h
  | cons w rest ih =>
    intro buf s r o o' r' hs hno h
    have hrest : NoEagain rest := fun x hx b => hno x (List.mem_cons_of_mem _ hx) b
    have hw : ∀ b, w ≠ WriteRes.eagain b := hno w (List.mem_cons_self _ _)
    cases w with
    | ok p =>
      simp only [copyoutLoop] at h
      have hn : min p (chunkLen s max) ≤ s := le_trans (Nat.min_le_right _ _) (chunkLen_le s max hs)
      split_ifs at h with hc
      · obtain ⟨a1, a2, a3, a4, a5, a6, a7⟩ := ih _ _ _ _ _ _ (by omega) hrest h
        refine ⟨by omega, by omega, a3, a4, a5, a6, a7⟩
      · simp only [Option.some.injEq, Prod.mk.injEq] at h
        obtain ⟨rfl, rfl⟩ := h
        exact ⟨by omega, by omega, hrest, rfl, rfl, rfl, rfl⟩
    | epipe =>
      simp only [copyoutLoop, Option.some.injEq, Prod.mk.injEq] at h
      obtain ⟨rfl, rfl⟩ := h
      exact ⟨le_refl _, by omega, hrest, rfl, rfl, rfl, rfl⟩
    | eintr =>
      simp only [copyoutLoop] at h
      rw [if_pos (by omega)] at h
      have hh := ih _ _ _ _ _ _ hs hrest h
      exact hh
    | eagain b => exact absurd rfl (hw b)
    | eio rc =>
      simp only [copyoutLoop] at h
      split_ifs at h
      · simp only [Option.some.injEq, Prod.mk.injEq] at h
        obtain ⟨rfl, rfl⟩ := h
        exact ⟨le_refl _, by omega, hrest, rfl, rfl, rfl, rfl⟩
      · simp only [Option.some.injEq, Prod.mk.injEq] at h
        obtain ⟨rfl, rfl⟩ := h
        exact ⟨le_refl _, by omega, hrest, rfl, rfl, rfl, rfl⟩
      · have hh := ih _ _ _ _ _ _ hs hrest h
        exact hh
      · omega
    | other =>
      simp only [copyoutLoop, Option.some.injEq, Prod.mk.injEq] at h
      obtain ⟨rfl, rfl⟩ := h
      exact ⟨le_refl _, by omega, hrest, rfl, rfl, rfl, rfl⟩

/-- Without `EAGAIN` the function `copyout` in the daemon returns a count from 0 to `s` and changes
nothing but the script and the bytes sent. -/
theorem copyout_spec (fd : Int) (buf : List Nat) (s : Nat) (max : Int) (d d' : Daemon) (r : Int)
    (hs : 1 ≤ s) (hno : NoEagain d.out.script) (h : copyout fd buf s max d = .ok (d', r)) :
    0 ≤ r ∧ r ≤ s ∧ NoEagain d'.out.script ∧ d'.out.blocked = d.out.blocked ∧
      ∃ o, d' = { d with out := o } := by
  unfold copyout at h
  split at h
  · cases h
  · rename_i o r0 hloop
    obtain ⟨a1, a2, a3, a4, a5, -, -⟩ := copyoutLoop_spec fd max _ _ _ _ _ _ _ hs hno hloop
    rw [if_neg (by rw [a5]; exact lt_irrefl _)] at h
    simp only [Res.ok.injEq, Prod.mk.injEq] at h
    obtain ⟨rfl, rfl⟩ := h
    exact ⟨a1, by omega, a3, a4, o, rfl⟩


/-- A count from 0 below `2^64` as a `size_t`. -/
theorem toSizeT_of_nonneg (r : Int) (h0 : 0 ≤ r) (h1 : r < 2 ^ 63) : toSizeT r = r.toNat := by
  have h : r % (WORD : Int) = r := by
    apply Int.emod_eq_of_lt h0
    simp only [WORD]; push_cast; omega
  simp only [toSizeT, h]

/-- The step of the drain loop behind the consoles, for a buffer at rest and a
count `len` from 1 to `tavail`: the buffer is at rest again, of the same size, either
empty (`thead == ttail == temp`, `tavail == 0`) or shorter by `len` bytes. -/
theorem Temp.advance_spec (t : Temp) (len : Nat) (hinv : t.AtRest) (hend : t.tend < 2 ^ 63)
    (h1 : 1 ≤ len) (h2 : (len : Int) ≤ t.tavail) :
    (t.advance len).1.AtRest ∧ (t.advance len).1.tend = t.tend ∧
    ((t.advance len).2 = true →
      (t.advance len).1.ttail = (t.advance len).1.base ∧ (t.advance len).1.tavail = 0) ∧
    ((t.advance len).2 = false → (t.advance len).1.tavail = t.tavail - len) := by
  obtain ⟨⟨i1, i2, i3, i4⟩, i5⟩ := hinv
  have hW : (2 : Nat) ^ 63 < WORD := by simp only [WORD]; omega
  have hmod : (t.thead + len) % WORD = t.thead + len := Nat.mod_eq_of_lt (by omega)
  unfold Temp.advance
  simp only [hmod]
  by_cases hc : t.ttail ≤ t.thead + len
  · rw [if_pos hc]
    refine ⟨⟨⟨le_refl _, le_refl _, ?_, ?_⟩, rfl⟩, ?_, fun _ => ⟨rfl, rfl⟩, fun h => ?_⟩
    · simp only [Temp.tend]; omega
    · simp
    · simp only [Temp.tend]
    · cases h
  · rw [if_neg hc, if_pos (by omega)]
    have hpd : ptrdiff t.ttail (t.thead + len) = (t.ttail : Int) - ((t.thead + len : Nat) : Int) :=
      ptrdiff_of_le _ _ (by omega) (by omega)
    have hn : (ptrdiff t.ttail (t.thead + len)).toNat = t.ttail - (t.thead + len) := by
      rw [hpd]; omega
    have hlen : (List.take (t.ttail - (t.thead + len)) (List.drop (t.thead + len - t.base) t.mem)
        ++ List.drop (t.ttail - (t.thead + len)) t.mem).length = t.mem.length := by
      simp only [List.length_append, List.length_take, List.length_drop]
      simp only [Temp.tend] at i3
      omega
    have hm2 : (t.base + (t.ttail - (t.thead + len))) % WORD
        = t.base + (t.ttail - (t.thead + len)) := Nat.mod_eq_of_lt (by omega)
    simp only [hn, hm2]
    refine ⟨⟨⟨le_refl _, by dsimp only; omega, ?_, ?_⟩, rfl⟩, ?_, fun h => ?_, fun _ => ?_⟩
    · simp only [Temp.tend, hlen]
      simp only [Temp.tend] at i3
      omega
    · rw [hpd]; push_cast; omega
    · simp only [Temp.tend, hlen]
    · cases h
    · rw [hpd, i4]; push_cast; omega


/-- The guarded append keeps a buffer at rest, and its size. -/
theorem Temp.appendIfRoom_atRest (t : Temp) (chunk : List Nat) (hinv : t.AtRest)
    (hend : t.tend < 2 ^ 63) :
    (t.appendIfRoom chunk).AtRest ∧ (t.appendIfRoom chunk).tend = t.tend := by
  obtain ⟨hi, hb⟩ := hinv
  obtain ⟨e1, e2⟩ := Temp.appendIfRoom_eq t chunk hi hend
  by_cases hfit : chunk.length ≤ t.tend - t.ttail
  · rw [e1 hfit]
    obtain ⟨a1, a2⟩ := Temp.append_inv t chunk hi hend hfit
    obtain ⟨-, b2, b3, -⟩ := Temp.append_spec t chunk hi hend hfit
    exact ⟨⟨a1, by rw [b2, b3]; exact hb⟩, a2⟩
  · rw [e2 (by omega)]
    exact ⟨⟨hi, hb⟩, rfl⟩

/-- The writability probes leave the script of the writes and the list of the
consoles alone. -/
theorem probeLoop_script (env : ConsEnv) (cs : List Console) :
    ∀ d d1 : Daemon, probeLoop env cs d = .ok d1 →
      d1.out.script = d.out.script ∧ d1.cons = d.cons := by
  induction cs with
  | nil => intro d d1 h; simp only [probeLoop] at h; cases h; exact ⟨rfl, rfl⟩
  | cons c cs ih =>
    intro d d1 h
    simp only [probeLoop] at h
    split_ifs at h with h1 h2 h3
    · exact ih _ _ h
    · cases h; exact ⟨rfl, rfl⟩
    · exact ih _ _ h
    · split at h
      · rename_i d2 hre
        obtain ⟨k, rfl⟩ := epoll_reenable_frame _ _ _ hre
        have hh := ih _ _ h
        exact hh
      · rename_i r hne
        rw [h] at hne
        exact absurd rfl (hne d1)

/-- Without `EAGAIN` the consoles of the drain are served with a count that only
shrinks and stays at least 1, unless the drain gives up; the buffer is not
touched. -/
theorem drainSinks_spec (cs : List Console) :
    ∀ (len : Nat) (d d' : Daemon) (res : Option Nat), 1 ≤ len → len < 2 ^ 63 →
      NoEagain d.out.script → drainSinks cs len d = .ok (d', res) →
      d'.temp = d.temp ∧ d'.cons = d.cons ∧ NoEagain d'.out.script ∧
        ∀ l, res = some l → 1 ≤ l ∧ l ≤ len := by
  induction cs with
  | nil =>
    intro len d d' res h1 _ hno h
    simp only [drainSinks, Res.ok.injEq, Prod.mk.injEq] at h
    obtain ⟨rfl, rfl⟩ := h
    refine ⟨rfl, rfl, hno, fun l hl => ?_⟩
    simp only [Option.some.injEq] at hl
    omega
  | cons c cs ih =>
    intro len d d' res h1 h63 hno h
    simp only [drainSinks] at h
    split_ifs at h with hfd
    · exact ih _ _ _ _ h1 h63 hno h
    · split at h
      · rename_i d1 r hco
        obtain ⟨c1, c2, c3, -, o, rfl⟩ := copyout_spec _ _ _ _ _ _ _ h1 hno hco
        have hsz : toSizeT r = r.toNat := toSizeT_of_nonneg r c1 (by omega)
        simp only [hsz] at h
        split_ifs at h with hlt
        · simp only [Res.ok.injEq, Prod.mk.injEq] at h
          obtain ⟨rfl, rfl⟩ := h
          exact ⟨rfl, rfl, c3, fun l hl => by cases hl⟩
        · have hh := ih r.toNat { d with out := o, acts := d.acts ++ [Act.tcdrain c.fd] } _ _
            (by omega) (by omega) c3 h
          obtain ⟨q1, q2, q3, q4⟩ := hh
          refine ⟨q1, q2, q3, fun l hl => ?_⟩
          have := q4 l hl
          omega
      · cases h
      · cases h
      · cases h


/-- Without `EAGAIN` the drain loop keeps the buffer at rest; when it ends without
`goto flush` the buffer is empty: `ttail == thead == temp` and `tavail == 0`. -/
theorem drainLoop_spec (C : Cfg) (hT : 0 < C.TRANS_BUFFER_SIZE) :
    ∀ (fuel : Nat) (d d' : Daemon) (fl : Bool), d.temp.AtRest → d.temp.tend < 2 ^ 63 →
      NoEagain d.out.script → drainLoop C fuel d = .ok (d', fl) →
      d'.temp.AtRest ∧ d'.temp.tend = d.temp.tend ∧ d'.cons = d.cons ∧
        NoEagain d'.out.script ∧
        (fl = false → d'.temp.tavail = 0 ∧ d'.temp.ttail = d'.temp.base) := by
  intro fuel
  induction fuel with
  | zero => intro d d' fl _ _ _ h; simp only [drainLoop] at h; cases h
  | succ fuel ih =>
    intro d d' fl hrest hend hno h
    have hrest0 := hrest
    obtain ⟨⟨i1, i2, i3, i4⟩, i5⟩ := hrest
    simp only [drainLoop] at h
    by_cases hpos : 0 < d.temp.tavail
    · rw [if_pos hpos] at h
      have hlen : ∃ len : Nat, (if (C.TRANS_BUFFER_SIZE : Int) < d.temp.tavail
          then C.TRANS_BUFFER_SIZE else toSizeT d.temp.tavail) = len ∧ 1 ≤ len ∧
          (len : Int) ≤ d.temp.tavail ∧ len < 2 ^ 63 := by
        have hsz : toSizeT d.temp.tavail = d.temp.tavail.toNat :=
          toSizeT_of_nonneg _ (le_of_lt hpos) (by omega)
        by_cases hc : (C.TRANS_BUFFER_SIZE : Int) < d.temp.tavail
        · rw [if_pos hc]; exact ⟨_, rfl, hT, le_of_lt hc, by omega⟩
        · rw [if_neg hc, hsz]; exact ⟨_, rfl, by omega, by omega, by omega⟩
      obtain ⟨len, hl0, hl1, hl2, hl3⟩ := hlen
      rw [hl0] at h
      split at h
      · rename_i d1 hds
        obtain ⟨q1, q2, q3, -⟩ := drainSinks_spec _ _ _ _ _ hl1 hl3 hno hds
        simp only [Res.ok.injEq, Prod.mk.injEq] at h
        obtain ⟨rfl, rfl⟩ := h
        rw [q1]
        exact ⟨hrest0, rfl, q2, q3, fun hf => by cases hf⟩
      · rename_i d1 len1 hds
        obtain ⟨q1, q2, q3, q4⟩ := drainSinks_spec _ _ _ _ _ hl1 hl3 hno hds
        obtain ⟨l1, l2⟩ := q4 len1 rfl
        have hadv := Temp.advance_spec d.temp len1 hrest0 hend l1 (by omega)
        rw [q1] at h
        obtain ⟨s1, s2, s3, s4⟩ := hadv
        by_cases hfl : (d.temp.advance len1).2 = true
        · rw [if_pos hfl] at h
          simp only [Res.ok.injEq, Prod.mk.injEq] at h
          obtain ⟨rfl, rfl⟩ := h
          obtain ⟨z1, z2⟩ := s3 hfl
          exact ⟨s1, s2, q2, q3, fun _ => ⟨z2, z1⟩⟩
        · rw [if_neg hfl] at h
          have hh := ih { d1 with temp := (d.temp.advance len1).1 } d' fl s1
            (by rw [s2]; exact hend) q3 h
          obtain ⟨r1, r2, r3, r4, r5⟩ := hh
          exact ⟨r1, by rw [r2, s2], by rw [r3]; exact q2, r4, r5⟩
      · cases h
      · cases h
      · cases h
    · rw [if_neg hpos] at h
      simp only [Res.ok.injEq, Prod.mk.injEq] at h
      obtain ⟨rfl, rfl⟩ := h
      refine ⟨hrest0, rfl, rfl, hno, fun _ => ⟨by omega, by omega⟩⟩

/-- Without `EAGAIN` the last loop of the handler keeps the buffer at rest. -/
theorem fanOut_spec (chunk : List Nat) (hchunk : 1 ≤ chunk.length) (cs : List Console) :
    ∀ (d d' : Daemon), d.temp.AtRest → d.temp.tend < 2 ^ 63 → NoEagain d.out.script →
      fanOut chunk cs d = .ok d' → d'.temp.AtRest ∧ d'.temp.tend = d.temp.tend := by
  induction cs with
  | nil =>
    intro d d' hrest _ _ h
    simp only [fanOut, Res.ok.injEq] at h
    subst h
    exact ⟨hrest, rfl⟩
  | cons c cs ih =>
    intro d d' hrest hend hno h
    simp only [fanOut] at h
    split_ifs at h with hfd
    · exact ih _ _ hrest hend hno h
    · split at h
      · rename_i d1 r hco
        obtain ⟨-, -, c3, -, o, rfl⟩ := copyout_spec _ _ _ _ _ _ _ hchunk hno hco
        split_ifs at h with hlt
        · simp only [Res.ok.injEq] at h
          subst h
          exact Temp.appendIfRoom_atRest d.temp chunk hrest hend
        · have hh := ih { d with out := o, acts := d.acts ++ [Act.tcdrain c.fd] } d'
            hrest hend c3 h
          exact hh
      · cases h
      · cases h
      · cases h


/-- The invariant of the temporary buffer when no `write` fails with `EAGAIN`: a call
of the capture handler that starts with the buffer at rest (`temp <= thead <= ttail <= tend`,
`tavail == ttail - thead`, `thead == temp`) returns with the buffer at rest and of the same
size. -/
theorem epoll_console_in_atRest (C : Cfg) (hT : 0 < C.TRANS_BUFFER_SIZE) (env : ConsEnv)
    (fuel : Nat) (d d' : Daemon) (hrest : d.temp.AtRest) (hend : d.temp.tend < 2 ^ 63)
    (hno : NoEagain d.out.script) (hrun : epoll_console_in C env fuel d = .ok d') :
    d'.temp.AtRest ∧ d'.temp.tend = d.temp.tend := by
  unfold epoll_console_in at hrun
  simp only at hrun
  rcases hav : env.inp.avail with _ | ⟨b, bs⟩
  · simp only [safein, hav] at hrun
    rcases he : env.inp.err with _ | e
    · simp only [he, le_refl, if_true] at hrun
      cases hrun
      exact ⟨hrest, rfl⟩
    · simp only [he] at hrun
      split_ifs at hrun
      · simp at hrun
        cases hrun
        exact ⟨hrest, rfl⟩
  · simp only [safein, hav] at hrun
    have hpos : ¬ ((min (bs.length + 1) C.TRANS_BUFFER_SIZE : Nat) : Int) ≤ 0 := by omega
    simp only [hpos, if_false] at hrun
    generalize hck : (b :: bs).take (min (bs.length + 1) C.TRANS_BUFFER_SIZE) = chunk at hrun
    have hchunk : 1 ≤ chunk.length := by
      rw [← hck, List.length_take]
      simp only [List.length_cons]
      omega
    rcases hp : probeLoop env d.cons { d with acts := d.acts ++ [Act.parselog chunk] }
      with d1 | d1 | d1 | _
    all_goals rw [hp] at hrun
    all_goals simp only [Res.bind] at hrun
    · obtain ⟨-, ht⟩ := probeLoop_frame env _ _ _ hp
      obtain ⟨hs, -⟩ := probeLoop_script env _ _ _ hp
      have hrest1 : d1.temp.AtRest := by rw [ht]; exact hrest
      have hend1 : d1.temp.tend < 2 ^ 63 := by rw [ht]; exact hend
      have hno1 : NoEagain d1.out.script := by rw [hs]; exact hno
      have ht1 : d1.temp.tend = d.temp.tend := by rw [ht]
      split_ifs at hrun with hq
      · cases hrun
        obtain ⟨a1, a2⟩ := Temp.appendIfRoom_atRest d1.temp chunk hrest1 hend1
        exact ⟨a1, by simp only [flush]; rw [a2, ht1]⟩
      · split at hrun
        · rename_i d2 hdl
          obtain ⟨r1, r2, -, -, -⟩ := drainLoop_spec C hT _ _ _ _ hrest1 hend1 hno1 hdl
          cases hrun
          exact ⟨r1, by simp only [flush]; rw [r2, ht1]⟩
        · rename_i d2 hdl
          obtain ⟨r1, r2, -, r4, -⟩ := drainLoop_spec C hT _ _ _ _ hrest1 hend1 hno1 hdl
          rcases hf : fanOut chunk d2.cons d2 with d3 | d3 | d3 | _
          all_goals rw [hf] at hrun
          all_goals simp only [Res.bind] at hrun
          · obtain ⟨f1, f2⟩ := fanOut_spec chunk hchunk _ _ _ r1 (by rw [r2]; exact hend1) r4 hf
            cases hrun
            exact ⟨f1, by simp only [flush]; rw [f2, r2, ht1]⟩
          all_goals cases hrun
        · cases hrun
        · cases hrun
        · cases hrun
    all_goals cases hrun

/-! ## The prompter process -/

/-- A prompter whose `asprintf` calls all succeed never ends in `_exit(1)`. -/
theorem prompterLoop_never_exit_one (C : Cfg) (K : Keys) (c : Console) (eightbit : Bool)
    (msg : List Nat) (attempts : List Attempt) :
    ∀ (st st' : Prompter) (status : Nat), (∀ a ∈ attempts, a.asprintfOk = true) →
      prompterLoop C K c eightbit msg attempts st = .exited status st' → status = 0 := by
  induction attempts with
  | nil => intro st st' status _ h; simp only [prompterLoop] at h; cases h
  | cons a rest ih =>
    intro st st' status hall h
    have ha : a.asprintfOk = true := hall a (List.mem_cons_self _ _)
    have hrest : ∀ x ∈ rest, x.asprintfOk = true := fun x hx => hall x (List.mem_cons_of_mem _ hx)
    simp only [prompterLoop, ha, Bool.not_true, Bool.false_eq_true, if_false] at h
    split at h
    · split at h
      · cases h
      · split at h
        · split_ifs at h
          · exact ih _ _ _ hrest h
          all_goals cases h
          all_goals rfl
        · cases h
        · cases h
        · cases h
    · cases h
    · cases h
    · cases h

/-- One pass of the prompter in which both writes are accepted and `readpw` returns `r`:
for `r == 0` the prompter is at `again:` once more, with one more prompt written and
nothing else decided; for `0 < r` inside the area it passes exactly the first `r`
bytes of the area through `frobnicate` and ends in `_exit(0)`. -/
theorem prompterLoop_pass (C : Cfg) (K : Keys) (c : Console) (eightbit : Bool) (msg : List Nat)
    (a : Attempt) (rest : List Attempt) (st : Prompter) (o1 o2 : Out) (r : Int)
    (ha : a.asprintfOk = true) (hw1 : safeout 1 msg c.max_canon st.out = .ok o1)
    (hr : (readpw K C.MAX_PASSLEN eightbit a.reads st.area.bytes).ret = some r)
    (hw2 : safeout 1 [10] c.max_canon o1 = .ok o2) :
    (r = 0 → prompterLoop C K c eightbit msg (a :: rest) st =
      prompterLoop C K c eightbit msg rest
        { st with out := o2, prompts := st.prompts + 1,
                  area := { bytes := (readpw K C.MAX_PASSLEN eightbit a.reads st.area.bytes).pass,
                            size := 0 } }) ∧
    (0 < r → r < 2 ^ 31 →
      r ≤ (readpw K C.MAX_PASSLEN eightbit a.reads st.area.bytes).pass.length →
      prompterLoop C K c eightbit msg (a :: rest) st =
        .exited 0
          { st with out := o2, prompts := st.prompts + 1, frob := some r.toNat,
                    area := frobArea C r.toNat
                      { bytes := (readpw K C.MAX_PASSLEN eightbit a.reads st.area.bytes).pass,
                        size := r } }) := by
  constructor
  · intro h0
    subst h0
    simp only [prompterLoop, ha, hw1, hr, hw2, toInt32]
    simp
  · intro hpos hlt hfit
    have h32 : toInt32 r = r := by
      unfold toInt32
      have : (r + 2 ^ 31) % 2 ^ 32 = r + 2 ^ 31 := Int.emod_eq_of_lt (by omega) (by omega)
      omega
    have hsz : toSizeT r = r.toNat := toSizeT_of_nonneg r (le_of_lt hpos) (by omega)
    have hne : ¬ r = 0 := by omega
    have hnn : ¬ r < 0 := by omega
    have hle : r.toNat ≤ (readpw K C.MAX_PASSLEN eightbit a.reads st.area.bytes).pass.length := by
      omega
    simp only [prompterLoop, ha, hw1, hr, hw2, h32, hne, hnn]
    simp only [Bool.not_true, Bool.false_eq_true, if_false, hsz]
    rw [if_pos hle]

/-- C11. The prompter after a failed read.  On the sample console, `readpw` meets a
`read` that fails with `EIO` and returns -1: the prompter logs the warning and goes on
to `frobnicate(password, *pwsize)` with the length `(size_t)-1`, which leaves the password
area; the statement after it is `_exit(0)`.  It does not end in `_exit(1)`. -/
theorem prompter_read_error_outcome :
    prompterLoop Cfg.sample Keys.ascii Console.sample true (promptMessage [13] [] (str "luks"))
        [{ asprintfOk := true, reads := [ReadRes.fail Errno.EIO] }]
        (Prompter.start Cfg.sample [.ok 10, .ok 1])
      = ChildEnd.fault
          { out := { Out.init [] with sent := [(1, str "\rluks: "), (1, [10])] },
            area := { bytes := List.replicate 16 0, size := -1 },
            prompts := 1, warned := 1, frob := some (2 ^ 64 - 1) } := by
  decide

/-! ## What the registry operations and the branches of `socket_handler` change -/

/-- A returning `epoll_delete` removes the first entry for `fd`, counts `evmax` down and takes
`fd` out of the poll set, where it was. -/
theorem epoll_delete_ok (fd : Int) (d d' : Daemon) (h : epoll_delete fd d = .ok d') :
    (d.kset.any fun e => e.fd == fd) = true ∧
    d' = { d with lpolls := eraseWatch fd d.lpolls, evmax := d.evmax - 1,
                  kset := d.kset.filter (fun e => e.fd != fd) } := by
  unfold epoll_delete at h
  simp only at h
  split_ifs at h with hk
  cases h
  exact ⟨hk, rfl⟩

/-- A returning `epoll_addition` adds one entry and one descriptor that was not in the poll
set. -/
theorem epoll_addition_ok (C : Cfg) (fd : Int) (hd : Handler) (ev : Events) (d d' : Daemon)
    (h : epoll_addition C fd hd ev d = .ok d') :
    (d.kset.any fun e => e.fd == fd) = false ∧
    d' = { d with lpolls := insertWatch C { id := d.nextId, fd := fd, handle := hd } d.lpolls,
                  nextId := d.nextId + 1, evmax := d.evmax + 1,
                  kset := d.kset ++ [{ fd := fd, events := ev, ptr := d.nextId }] } := by
  unfold epoll_addition at h
  simp only at h
  split_ifs at h with hk
  cases h
  exact ⟨by simpa using hk, rfl⟩

/-- A returning `epoll_answer_once` adds one entry for a descriptor that is in the poll set. -/
theorem epoll_answer_once_ok (C : Cfg) (fd : Int) (hd : Handler) (d d' : Daemon)
    (h : epoll_answer_once C fd hd d = .ok d') :
    ∃ k, d' = { d with lpolls := insertWatch C { id := d.nextId, fd := fd, handle := hd } d.lpolls,
                       nextId := d.nextId + 1, evmax := d.evmax + 1, kset := k } := by
  unfold epoll_answer_once at h
  simp only at h
  split at h
  · cases h; exact ⟨_, rfl⟩
  · cases h

/-- The label `out:` for a positive descriptor: `epoll_delete(fd)` returned and `close(fd)` followed. -/
theorem sockOut_ok (fd : Int) (d d' : Daemon) (hfd : 0 < fd) (h : sockOut fd d = .ok d') :
    (d.kset.any fun e => e.fd == fd) = true ∧
    d' = { d with lpolls := eraseWatch fd d.lpolls, evmax := d.evmax - 1,
                  kset := (d.kset.filter (fun e => e.fd != fd)).filter (fun e => e.fd != fd),
                  acts := d.acts ++ [Act.close fd] } := by
  unfold sockOut at h
  rw [if_pos hfd] at h
  rcases hdel : epoll_delete fd d with d1 | d1 | d1 | _
  all_goals rw [hdel] at h
  all_goals simp only [Res.bind] at h
  · obtain ⟨hk, rfl⟩ := epoll_delete_ok fd d d1 hdel
    cases h
    exact ⟨hk, rfl⟩
  all_goals cases h

/-- The loop of `new_root` leaves its caller's state alone but for `errno` and the trace. -/
theorem new_root_ok (env : RootEnv) (root : Option (List Nat)) (d d' : Daemon)
    (h : new_root env root d = .ok d') :
    ∃ e calls, d' = { d with errno := e,
                             acts := d.acts ++ List.replicate calls (Act.chdir root) ++
                               [Act.chroot_here, Act.chdir_root] } := by
  unfold new_root at h
  simp only at h
  split at h
  · cases h
  · cases h
  · cases h
  · rename_i r hr
    split_ifs at h
    cases h
    exact ⟨r.errno, r.calls, by simp⟩

/-- The branch `MAGIC_DEACTIVATE`: either nothing happens, or the capture descriptor
leaves the registry, is closed, and `fdread` is -1. -/
theorem deactivate_ok (d d' : Daemon) (h : deactivate d = .ok d') :
    (d' = d ∧ (d.fdread < 0 ∨ consdevFd d.cons = Option.none)) ∨
    (0 ≤ d.fdread ∧ (d.kset.any fun e => e.fd == d.fdread) = true ∧
      ∃ cfd, consdevFd d.cons = some cfd ∧
        d' = { d with lpolls := eraseWatch d.fdread d.lpolls, evmax := d.evmax - 1,
                      kset := (d.kset.filter (fun e => e.fd != d.fdread)).filter
                        (fun e => e.fd != d.fdread),
                      acts := d.acts ++ [Act.tioccons cfd] ++ [Act.close d.fdread] ++
                        [Act.dup2 cfd 0, Act.dup2 0 1, Act.dup2 0 2],
                      fdread := -1 }) := by
  unfold deactivate at h
  split_ifs at h with hf
  · split at h
    · rename_i cfd hc
      rcases hdel : epoll_delete d.fdread d with d1 | d1 | d1 | _
      all_goals rw [hdel] at h
      all_goals simp only [Res.bind] at h
      · obtain ⟨hk, rfl⟩ := epoll_delete_ok _ d d1 hdel
        cases h
        exact Or.inr ⟨hf, hk, cfd, hc, rfl⟩
      all_goals cases h
    · rename_i hc
      cases h
      exact Or.inl ⟨rfl, Or.inr hc⟩
  · cases h
    exact Or.inl ⟨rfl, Or.inl (by omega)⟩

/-- A sequence that returned: its first part returned and the second did. -/
theorem Res.bind_ok {σ : Type} (r : Res σ) (f : σ → Res σ) (s : σ) (h : r.bind f = .ok s) :
    ∃ x, r = .ok x ∧ f x = .ok s := by
  cases r with
  | ok x => exact ⟨x, rfl, h⟩
  | fatal x => cases h
  | fault x => cases h
  | stuck => cases h

/-- The branch `MAGIC_REACTIVATE`: either nothing happens, or the system calls succeeded,
descriptor 0 got a read entry for the capture handler and `fdread` is 0. -/
theorem reactivate_ok (C : Cfg) (pty : PtyEnv) (d d' : Daemon) (h : reactivate C pty d = .ok d') :
    (d' = d ∧ (0 ≤ d.fdread ∨ consdevFd d.cons = Option.none)) ∨
    (d.fdread < 0 ∧ (∃ cfd, consdevFd d.cons = some cfd) ∧
      ∃ k a, d' = { d with lpolls := insertWatch C
                             { id := d.nextId, fd := 0, handle := Handler.epoll_console_in } d.lpolls,
                           nextId := d.nextId + 1, evmax := d.evmax + 1, kset := k, acts := a,
                           fdread := 0 }) := by
  unfold reactivate at h
  by_cases hf : d.fdread < 0
  · rw [if_pos hf] at h
    rcases hc : consdevFd d.cons with _ | cfd
    · rw [hc] at h
      cases h
      exact Or.inl ⟨rfl, Or.inr rfl⟩
    · rw [hc] at h
      simp only at h
      split_ifs at h
      all_goals first
        | cases h
        | (obtain ⟨d5, hadd, h5⟩ := Res.bind_ok _ _ _ h
           obtain ⟨-, rfl⟩ := epoll_addition_ok C 0 _ _ _ _ hadd
           cases h5
           exact Or.inr ⟨hf, ⟨cfd, rfl⟩, _, _, rfl⟩)
  · rw [if_neg hf] at h
    cases h
    exact Or.inl ⟨rfl, Or.inl (by omega)⟩

/-- The branch `MAGIC_FINAL` after its reply: nothing when `final` is set or `_arg0` is not;
otherwise `final` becomes 1 and the log file is renamed once. -/
theorem finalCase_ok (rename : Option Errno) (d d' : Daemon) (h : finalCase rename d = .ok d') :
    (d' = d ∧ ¬ (d.final = 0 ∧ d.arg0 = true)) ∨
    (d.final = 0 ∧ d.arg0 = true ∧
      ∃ e, d' = { d with final := 1, acts := d.acts ++ [Act.rename_log], errno := e }) := by
  unfold finalCase at h
  split_ifs at h with hc
  · rcases rename with _ | e
    · cases h
      exact Or.inr ⟨hc.1, hc.2, d.errno, rfl⟩
    · simp only at h
      split_ifs at h
      all_goals cases h
      all_goals exact Or.inr ⟨hc.1, hc.2, e, rfl⟩
  · cases h
    exact Or.inl ⟨rfl, hc⟩

/-- What `do_answer_password` leaves alone. -/
theorem do_answer_password_frame (C : Cfg) (fd : Int) (d d' : Daemon)
    (h : (do_answer_password C fd d).1 = .ok d') :
    ∃ o k pw pp, d' = { d with out := o, kset := k, pw := pw, pwprompt := pp } := by
  unfold do_answer_password at h
  split at h
  · obtain ⟨o, k, rfl⟩ := safeoutD_frame _ _ _ _ _ h
    exact ⟨_, _, _, _, rfl⟩
  · rename_i a hpw
    split_ifs at h
    · obtain ⟨o, k, rfl⟩ := safeoutD_frame _ _ _ _ _ h
      exact ⟨_, _, _, _, rfl⟩
    · simp only at h
      obtain ⟨d2, h2, h⟩ := Res.bind_ok _ _ _ h
      obtain ⟨d3, h3, h⟩ := Res.bind_ok _ _ _ h
      obtain ⟨d4, h4, h⟩ := Res.bind_ok _ _ _ h
      obtain ⟨o2, k2, rfl⟩ := safeoutD_frame _ _ _ _ _ h2
      obtain ⟨o3, k3, rfl⟩ := safeoutD_frame _ _ _ _ _ h3
      obtain ⟨o4, k4, rfl⟩ := safeoutD_frame _ _ _ _ _ h4
      cases h
      exact ⟨_, _, _, _, rfl⟩

/-- The handler for a request of a root peer that was read without error: the
`switch`, and the label `out:` unless the branch ended in `goto job`. -/
theorem socket_handler_root (C : Cfg) (env : SockEnv) (fd : Int) (d : Daemon) (rq : Request)
    (pid : Nat) (hfd : 0 ≤ fd) (hrq : readRequest env d = some (some rq))
    (hcred : env.cred = CredRes.ok 0 pid) :
    socket_handler C env fd d =
      if (dispatch C env fd rq d).2 then (dispatch C env fd rq d).1
      else (dispatch C env fd rq d).1.bind (sockOut fd) := by
  unfold socket_handler
  rw [if_neg (by omega), hrq]
  simp only [hcred, ne_eq, not_true_eq_false, if_false]

/-- No branch of the `switch` takes `final` or `nsigsys` back: `final` stays or becomes 1,
`nsigsys` stays or becomes `SIGSYS`. -/
theorem dispatch_latch (C : Cfg) (env : SockEnv) (fd : Int) (rq : Request) (d d' : Daemon)
    (h : (dispatch C env fd rq d).1 = .ok d') :
    (d'.final = d.final ∨ d'.final = 1) ∧ (d'.nsigsys = d.nsigsys ∨ d'.nsigsys = SIGSYS) := by
  unfold dispatch at h
  by_cases h1 : rq.magic = C.M.ASK_PWD
  · rw [if_pos h1] at h
    simp only at h
    split at h
    · cases h
    · obtain ⟨k, rfl⟩ := epoll_answer_once_ok _ _ _ _ _ h
      exact ⟨Or.inl rfl, Or.inl rfl⟩
  rw [if_neg h1] at h
  by_cases h2 : rq.magic = C.M.CACHED_PWD
  · rw [if_pos h2] at h
    obtain ⟨o, k, pw, pp, rfl⟩ := do_answer_password_frame _ _ _ _ h
    exact ⟨Or.inl rfl, Or.inl rfl⟩
  rw [if_neg h2] at h
  by_cases h3 : rq.magic = C.M.CHROOT
  · rw [if_pos h3] at h
    obtain ⟨d1, hn, hs⟩ := Res.bind_ok _ _ _ h
    obtain ⟨e, calls, rfl⟩ := new_root_ok _ _ _ _ hn
    obtain ⟨o, k, rfl⟩ := safeoutD_frame _ _ _ _ _ hs
    exact ⟨Or.inl rfl, Or.inl rfl⟩
  rw [if_neg h3] at h
  by_cases h4 : rq.magic = C.M.SYS_INIT
  · rw [if_pos h4] at h
    obtain ⟨d1, hs, hr⟩ := Res.bind_ok _ _ _ h
    obtain ⟨o, k, rfl⟩ := safeoutD_frame _ _ _ _ _ hs
    simp only at hr
    split_ifs at hr
    all_goals cases hr
    all_goals exact ⟨Or.inl rfl, Or.inl rfl⟩
  rw [if_neg h4] at h
  by_cases h5 : rq.magic = C.M.PRG_STOP ∨ rq.magic = C.M.PRG_CONT ∨ rq.magic = C.M.UPDATE
      ∨ rq.magic = C.M.HIDE_SPLASH ∨ rq.magic = C.M.SHOW_SPLASH ∨ rq.magic = C.M.CHMOD
      ∨ rq.magic = C.M.DETAILS ∨ rq.magic = C.M.PING
  · rw [if_pos h5] at h
    obtain ⟨o, k, rfl⟩ := safeoutD_frame _ _ _ _ _ h
    exact ⟨Or.inl rfl, Or.inl rfl⟩
  rw [if_neg h5] at h
  by_cases h6 : rq.magic = C.M.DEACTIVATE
  · rw [if_pos h6] at h
    obtain ⟨d1, hn, hs⟩ := Res.bind_ok _ _ _ h
    obtain ⟨o, k, rfl⟩ := safeoutD_frame _ _ _ _ _ hs
    rcases deactivate_ok _ _ hn with ⟨rfl, -⟩ | ⟨-, -, cfd, -, rfl⟩
    all_goals exact ⟨Or.inl rfl, Or.inl rfl⟩
  rw [if_neg h6] at h
  by_cases h7 : rq.magic = C.M.REACTIVATE
  · rw [if_pos h7] at h
    obtain ⟨d1, hn, hs⟩ := Res.bind_ok _ _ _ h
    obtain ⟨o, k, rfl⟩ := safeoutD_frame _ _ _ _ _ hs
    rcases reactivate_ok _ _ _ _ hn with ⟨rfl, -⟩ | ⟨-, -, k2, a2, rfl⟩
    all_goals exact ⟨Or.inl rfl, Or.inl rfl⟩
  rw [if_neg h7] at h
  by_cases h8 : rq.magic = C.M.QUIT
  · rw [if_pos h8] at h
    obtain ⟨d1, hs, hr⟩ := Res.bind_ok _ _ _ h
    obtain ⟨o, k, rfl⟩ := safeoutD_frame _ _ _ _ _ hs
    simp only at hr
    split_ifs at hr
    all_goals cases hr
    all_goals exact ⟨Or.inl rfl, Or.inl rfl⟩
  rw [if_neg h8] at h
  by_cases h9 : rq.magic = C.M.FINAL
  · rw [if_pos h9] at h
    obtain ⟨d1, hs, hr⟩ := Res.bind_ok _ _ _ h
    obtain ⟨o, k, rfl⟩ := safeoutD_frame _ _ _ _ _ hs
    rcases finalCase_ok _ _ _ hr with ⟨rfl, -⟩ | ⟨-, -, e, rfl⟩
    · exact ⟨Or.inl rfl, Or.inl rfl⟩
    · exact ⟨Or.inr rfl, Or.inl rfl⟩
  rw [if_neg h9] at h
  by_cases h10 : rq.magic = C.M.CLOSE
  · rw [if_pos h10] at h
    obtain ⟨d1, hs, hr⟩ := Res.bind_ok _ _ _ h
    obtain ⟨o, k, rfl⟩ := safeoutD_frame _ _ _ _ _ hs
    simp only at hr
    split_ifs at hr
    all_goals cases hr
    all_goals exact ⟨Or.inl rfl, Or.inr rfl⟩
  rw [if_neg h10] at h
  obtain ⟨o, k, rfl⟩ := safeoutD_frame _ _ _ _ _ h
  exact ⟨Or.inl rfl, Or.inl rfl⟩

/-- The label `out:` leaves `final`, `nsigsys` and `_arg0` alone. -/
theorem sockOut_latch (fd : Int) (d d' : Daemon) (h : sockOut fd d = .ok d') :
    d'.final = d.final ∧ d'.nsigsys = d.nsigsys ∧ d'.arg0 = d.arg0 := by
  by_cases hfd : 0 < fd
  · obtain ⟨-, rfl⟩ := sockOut_ok fd d d' hfd h
    exact ⟨rfl, rfl, rfl⟩
  · unfold sockOut at h
    rw [if_neg hfd] at h
    cases h
    exact ⟨rfl, rfl, rfl⟩

/-- No call of `socket_handler` takes `final` or `nsigsys` back. -/
theorem socket_handler_latch (C : Cfg) (env : SockEnv) (fd : Int) (d d' : Daemon)
    (h : socket_handler C env fd d = .ok d') :
    (d'.final = d.final ∨ d'.final = 1) ∧ (d'.nsigsys = d.nsigsys ∨ d'.nsigsys = SIGSYS) := by
  unfold socket_handler at h
  split_ifs at h with hfd
  · cases h; exact ⟨Or.inl rfl, Or.inl rfl⟩
  · split at h
    · cases h
    · obtain ⟨a1, a2, -⟩ := sockOut_latch _ _ _ h
      exact ⟨Or.inl a1, Or.inl a2⟩
    · rename_i rq hrq
      split at h
      · obtain ⟨a1, a2, -⟩ := sockOut_latch _ _ _ h
        exact ⟨Or.inl a1, Or.inl a2⟩
      · obtain ⟨a1, a2, -⟩ := sockOut_latch _ _ _ h
        exact ⟨Or.inl a1, Or.inl a2⟩
      · rename_i uid pid hcred
        by_cases hu : uid ≠ 0
        · rw [if_pos hu] at h
          obtain ⟨d1, hs, ho⟩ := Res.bind_ok _ _ _ h
          obtain ⟨o, k, rfl⟩ := safeoutD_frame _ _ _ _ _ hs
          obtain ⟨a1, a2, -⟩ := sockOut_latch _ _ _ ho
          exact ⟨Or.inl a1, Or.inl a2⟩
        · rw [if_neg hu] at h
          simp only at h
          by_cases hb : (dispatch C env fd rq d).2 = true
          · rw [if_pos hb] at h
            exact dispatch_latch C env fd rq d d' h
          · rw [if_neg hb] at h
            obtain ⟨d1, hs, ho⟩ := Res.bind_ok _ _ _ h
            obtain ⟨a1, a2, -⟩ := sockOut_latch _ _ _ ho
            obtain ⟨b1, b2⟩ := dispatch_latch C env fd rq d d1 hs
            rw [a1, a2]
            exact ⟨b1, b2⟩

/-- Two case labels of the `switch` of `socket_handler` at different places differ. -/
theorem Magic.WellFormed.label_ne {M : Magic} (h : M.WellFormed) (i j : Fin 17) (hij : i ≠ j) :
    M.serverLabels.getD i.val 0 ≠ M.serverLabels.getD j.val 0 := by
  have hnd : M.serverLabels.Nodup := h.1
  have hlen : M.serverLabels.length = 17 := rfl
  intro heq
  have hi : i.val < M.serverLabels.length := by rw [hlen]; exact i.isLt
  have hj : j.val < M.serverLabels.length := by rw [hlen]; exact j.isLt
  rw [List.getD_eq_getElem _ _ hi, List.getD_eq_getElem _ _ hj] at heq
  have := (List.Nodup.getElem_inj_iff hnd).1 heq
  exact hij (Fin.ext this)

/-- The branch of the `switch` for `MAGIC_FINAL`. -/
theorem dispatch_final (C : Cfg) (hM : C.M.WellFormed) (env : SockEnv) (fd : Int) (rq : Request)
    (d : Daemon) (h : rq.magic = C.M.FINAL) :
    dispatch C env fd rq d = ((sendAck fd d).bind (finalCase env.rename), false) := by
  have n0 : C.M.FINAL ≠ C.M.ASK_PWD := hM.label_ne 15 0 (by decide)
  have n1 : C.M.FINAL ≠ C.M.CACHED_PWD := hM.label_ne 15 1 (by decide)
  have n2 : C.M.FINAL ≠ C.M.CHROOT := hM.label_ne 15 2 (by decide)
  have n3 : C.M.FINAL ≠ C.M.SYS_INIT := hM.label_ne 15 3 (by decide)
  have n4 : C.M.FINAL ≠ C.M.PRG_STOP := hM.label_ne 15 4 (by decide)
  have n5 : C.M.FINAL ≠ C.M.PRG_CONT := hM.label_ne 15 5 (by decide)
  have n6 : C.M.FINAL ≠ C.M.UPDATE := hM.label_ne 15 6 (by decide)
  have n7 : C.M.FINAL ≠ C.M.HIDE_SPLASH := hM.label_ne 15 7 (by decide)
  have n8 : C.M.FINAL ≠ C.M.SHOW_SPLASH := hM.label_ne 15 8 (by decide)
  have n9 : C.M.FINAL ≠ C.M.CHMOD := hM.label_ne 15 9 (by decide)
  have n10 : C.M.FINAL ≠ C.M.DETAILS := hM.label_ne 15 10 (by decide)
  have n11 : C.M.FINAL ≠ C.M.PING := hM.label_ne 15 11 (by decide)
  have n12 : C.M.FINAL ≠ C.M.DEACTIVATE := hM.label_ne 15 12 (by decide)
  have n13 : C.M.FINAL ≠ C.M.REACTIVATE := hM.label_ne 15 13 (by decide)
  have n14 : C.M.FINAL ≠ C.M.QUIT := hM.label_ne 15 14 (by decide)
  unfold dispatch
  rw [h, if_neg n0, if_neg n1, if_neg n2, if_neg n3,
    if_neg (by simp only [n4, n5, n6, n7, n8, n9, n10, n11, or_self, not_false_eq_true]),
    if_neg n12, if_neg n13, if_neg n14, if_pos rfl]

/-- The branch of the `switch` for `MAGIC_DEACTIVATE`. -/
theorem dispatch_deactivate (C : Cfg) (hM : C.M.WellFormed) (env : SockEnv) (fd : Int)
    (rq : Request) (d : Daemon) (h : rq.magic = C.M.DEACTIVATE) :
    dispatch C env fd rq d = ((deactivate d).bind (sendAck fd), false) := by
  have n0 : C.M.DEACTIVATE ≠ C.M.ASK_PWD := hM.label_ne 12 0 (by decide)
  have n1 : C.M.DEACTIVATE ≠ C.M.CACHED_PWD := hM.label_ne 12 1 (by decide)
  have n2 : C.M.DEACTIVATE ≠ C.M.CHROOT := hM.label_ne 12 2 (by decide)
  have n3 : C.M.DEACTIVATE ≠ C.M.SYS_INIT := hM.label_ne 12 3 (by decide)
  have n4 : C.M.DEACTIVATE ≠ C.M.PRG_STOP := hM.label_ne 12 4 (by decide)
  have n5 : C.M.DEACTIVATE ≠ C.M.PRG_CONT := hM.label_ne 12 5 (by decide)
  have n6 : C.M.DEACTIVATE ≠ C.M.UPDATE := hM.label_ne 12 6 (by decide)
  have n7 : C.M.DEACTIVATE ≠ C.M.HIDE_SPLASH := hM.label_ne 12 7 (by decide)
  have n8 : C.M.DEACTIVATE ≠ C.M.SHOW_SPLASH := hM.label_ne 12 8 (by decide)
  have n9 : C.M.DEACTIVATE ≠ C.M.CHMOD := hM.label_ne 12 9 (by decide)
  have n10 : C.M.DEACTIVATE ≠ C.M.DETAILS := hM.label_ne 12 10 (by decide)
  have n11 : C.M.DEACTIVATE ≠ C.M.PING := hM.label_ne 12 11 (by decide)
  unfold dispatch
  rw [h, if_neg n0, if_neg n1, if_neg n2, if_neg n3,
    if_neg (by simp only [n4, n5, n6, n7, n8, n9, n10, n11, or_self, not_false_eq_true]),
    if_pos rfl]

/-- The branch of the `switch` for `MAGIC_REACTIVATE`. -/
theorem dispatch_reactivate (C : Cfg) (hM : C.M.WellFormed) (env : SockEnv) (fd : Int)
    (rq : Request) (d : Daemon) (h : rq.magic = C.M.REACTIVATE) :
    dispatch C env fd rq d = ((reactivate C env.pty d).bind (sendAck fd), false) := by
  have n0 : C.M.REACTIVATE ≠ C.M.ASK_PWD := hM.label_ne 13 0 (by decide)
  have n1 : C.M.REACTIVATE ≠ C.M.CACHED_PWD := hM.label_ne 13 1 (by decide)
  have n2 : C.M.REACTIVATE ≠ C.M.CHROOT := hM.label_ne 13 2 (by decide)
  have n3 : C.M.REACTIVATE ≠ C.M.SYS_INIT := hM.label_ne 13 3 (by decide)
  have n4 : C.M.REACTIVATE ≠ C.M.PRG_STOP := hM.label_ne 13 4 (by decide)
  have n5 : C.M.REACTIVATE ≠ C.M.PRG_CONT := hM.label_ne 13 5 (by decide)
  have n6 : C.M.REACTIVATE ≠ C.M.UPDATE := hM.label_ne 13 6 (by decide)
  have n7 : C.M.REACTIVATE ≠ C.M.HIDE_SPLASH := hM.label_ne 13 7 (by decide)
  have n8 : C.M.REACTIVATE ≠ C.M.SHOW_SPLASH := hM.label_ne 13 8 (by decide)
  have n9 : C.M.REACTIVATE ≠ C.M.CHMOD := hM.label_ne 13 9 (by decide)
  have n10 : C.M.REACTIVATE ≠ C.M.DETAILS := hM.label_ne 13 10 (by decide)
  have n11 : C.M.REACTIVATE ≠ C.M.PING := hM.label_ne 13 11 (by decide)
  have n12 : C.M.REACTIVATE ≠ C.M.DEACTIVATE := hM.label_ne 13 12 (by decide)
  unfold dispatch
  rw [h, if_neg n0, if_neg n1, if_neg n2, if_neg n3,
    if_neg (by simp only [n4, n5, n6, n7, n8, n9, n10, n11, or_self, not_false_eq_true]),
    if_neg n12, if_pos rfl]

/-- C12. FINAL is idempotent.  Two FINAL requests of a root peer are handled one after the
other, on the connections `fd1` and `fd2`.  The second one changes neither `final` nor
`_arg0` nor `errno`; all it does to the outside world is `close(fd2)`, so it renames
nothing; when the socket takes its two bytes they are `ANSWER_ACK` and the NUL.  After
the first one `final` is 1 wherever it was 0 with `_arg0` set.  And no request
at all takes `final` back: a call of `socket_handler` that starts with `final != 0` ends
with `final != 0`. -/
theorem final_is_idempotent (C : Cfg) (hM : C.M.WellFormed) (env1 env2 : SockEnv)
    (fd1 fd2 : Int) (d d1 d2 : Daemon) (rq1 rq2 : Request) (pid1 pid2 : Nat)
    (hfd1 : 0 < fd1) (hfd2 : 0 < fd2)
    (hrq1 : readRequest env1 d = some (some rq1)) (hm1 : rq1.magic = C.M.FINAL)
    (hc1 : env1.cred = CredRes.ok 0 pid1)
    (hrq2 : readRequest env2 d1 = some (some rq2)) (hm2 : rq2.magic = C.M.FINAL)
    (hc2 : env2.cred = CredRes.ok 0 pid2)
    (hrun1 : socket_handler C env1 fd1 d = .ok d1)
    (hrun2 : socket_handler C env2 fd2 d1 = .ok d2) :
    (d2.final = d1.final ∧ d2.arg0 = d1.arg0 ∧ d2.errno = d1.errno ∧
      d2.acts = d1.acts ++ [Act.close fd2] ∧
      (∀ p rest, d1.out.script = WriteRes.ok p :: rest → 2 ≤ p →
        sentOn fd2 d2.out.sent = sentOn fd2 d1.out.sent ++ (ANSWER_ACK ++ [0]))) ∧
    (d.final = 0 ∧ d.arg0 = true → d1.final = 1 ∧ Act.rename_log ∈ d1.acts) ∧
    (∀ (env : SockEnv) (fd : Int) (e e' : Daemon),
      socket_handler C env fd e = .ok e' → e.final ≠ 0 → e'.final ≠ 0) := by
  rw [socket_handler_root C env1 fd1 d rq1 pid1 (le_of_lt hfd1) hrq1 hc1,
    dispatch_final C hM env1 fd1 rq1 d hm1] at hrun1
  rw [socket_handler_root C env2 fd2 d1 rq2 pid2 (le_of_lt hfd2) hrq2 hc2,
    dispatch_final C hM env2 fd2 rq2 d1 hm2] at hrun2
  simp only [Bool.false_eq_true, if_false] at hrun1 hrun2
  obtain ⟨x1, hx1, ho1⟩ := Res.bind_ok _ _ _ hrun1
  obtain ⟨y1, hs1, hf1⟩ := Res.bind_ok _ _ _ hx1
  obtain ⟨x2, hx2, ho2⟩ := Res.bind_ok _ _ _ hrun2
  obtain ⟨y2, hs2, hf2⟩ := Res.bind_ok _ _ _ hx2
  obtain ⟨-, hd1⟩ := sockOut_ok fd1 x1 d1 hfd1 ho1
  obtain ⟨-, hd2⟩ := sockOut_ok fd2 x2 d2 hfd2 ho2
  obtain ⟨o1, k1, hy1⟩ := safeoutD_frame _ _ _ _ _ hs1
  obtain ⟨o2, k2, hy2⟩ := safeoutD_frame _ _ _ _ _ hs2
  -- after the first FINAL the latch is set, or `_arg0` is not
  have hset : ¬ (d1.final = 0 ∧ d1.arg0 = true) ∧
      (d.final = 0 ∧ d.arg0 = true → d1.final = 1 ∧ Act.rename_log ∈ d1.acts) := by
    rcases finalCase_ok _ _ _ hf1 with ⟨hx, hn⟩ | ⟨h0, ha, e, hx⟩
    · subst hx hy1 hd1
      exact ⟨hn, fun hc => absurd hc hn⟩
    · subst hx hy1 hd1
      refine ⟨fun hc => ?_, fun _ => ⟨rfl, ?_⟩⟩
      · have h10 : (1 : Int) = 0 := hc.1
        omega
      · simp
  have hnop : x2 = y2 := by
    rcases finalCase_ok _ _ _ hf2 with ⟨hx, -⟩ | ⟨h0, ha, e, hx⟩
    · exact hx
    · subst hy2
      exact absurd ⟨h0, ha⟩ hset.1
  refine ⟨?_, hset.2, fun env fd e e' hrun hne => ?_⟩
  · subst hnop hy2 hd2
    refine ⟨rfl, rfl, rfl, rfl, fun p rest hsc hp => ?_⟩
    have hone := safeoutD_one_write fd2 SSIZE_MAX p rest (ANSWER_ACK ++ [0]) d1 hsc (by decide)
      (by simpa using hp) (by decide) (by decide) (le_refl _)
    unfold sendAck at hs2
    rw [hone] at hs2
    simp only [Res.ok.injEq] at hs2
    have hsent : o2.sent = d1.out.sent ++ [(fd2, ANSWER_ACK ++ [0])] := by
      have := congrArg (fun s => s.out.sent) hs2
      simpa using this.symm
    simp only [hsent]
    rw [sentOn_append_same]
  · rcases (socket_handler_latch C env fd e e' hrun).1 with h | h
    · rw [h]; exact hne
    · rw [h]; decide

/-- The example: two FINAL requests, on the descriptors 7 and 8. -/
theorem final_is_idempotent_witness :
    Daemon.finalOnce.final = 1 ∧ Daemon.finalTwice.final = Daemon.finalOnce.final ∧
    Daemon.finalTwice.acts = Daemon.finalOnce.acts ++ [Act.close 8] ∧
    sentOn 8 Daemon.finalTwice.out.sent = [6, 0] := by
  have h := final_is_idempotent Cfg.sample (by decide) (SockEnv.sample [70, 0] 0)
    (SockEnv.sample [70, 0] 0) 7 8 (Daemon.twoConn [.ok 2, .ok 2]) Daemon.finalOnce
    Daemon.finalTwice ⟨70, Option.none⟩ ⟨70, Option.none⟩ 4242 4242 (by decide) (by decide)
    rfl rfl rfl rfl rfl rfl rfl rfl
  exact ⟨(h.2.1 ⟨rfl, rfl⟩).1, h.1.1, h.1.2.2.2.1, h.1.2.2.2.2 2 [] rfl (le_refl _)⟩

/-- An entry for another descriptor stays in the list when `fd` is removed. -/
theorem mem_eraseWatch_of_ne (fd : Int) (w : Watch) (hw : w.fd ≠ fd) :
    ∀ l : List Watch, w ∈ l → w ∈ eraseWatch fd l := by
  intro l
  induction l with
  | nil => intro h; cases h
  | cons x xs ih =>
    intro h
    simp only [eraseWatch]
    rcases List.mem_cons.1 h with rfl | hmem
    · have hx : (w.fd == fd) = false := by simpa using hw
      rw [hx]
      exact List.mem_cons_self _ _
    · split_ifs
      · exact hmem
      · exact List.mem_cons_of_mem _ (ih hmem)

/-- An entry of the list after `fd` was removed was in the list before. -/
theorem mem_of_mem_eraseWatch (fd : Int) (w : Watch) :
    ∀ l : List Watch, w ∈ eraseWatch fd l → w ∈ l := by
  intro l
  induction l with
  | nil => intro h; exact h
  | cons x xs ih =>
    intro h
    simp only [eraseWatch] at h
    split_ifs at h
    · exact List.mem_cons_of_mem _ h
    · rcases List.mem_cons.1 h with rfl | hmem
      · exact List.mem_cons_self _ _
      · exact List.mem_cons_of_mem _ (ih hmem)

/-- The list after `insert`: the new entry and the old ones. -/
theorem mem_insertWatch (C : Cfg) (w x : Watch) (l : List Watch) :
    x ∈ insertWatch C w l ↔ x = w ∨ x ∈ l := by
  unfold insertWatch
  split_ifs
  · simp
  · simp only [List.mem_append, List.mem_singleton]
    exact or_comm

/-- The reply `ANSWER_ACK` when the socket takes it with the first `write`. -/
theorem sendAck_sent (fd : Int) (d d' : Daemon) (p : Nat) (rest : List WriteRes)
    (h : sendAck fd d = .ok d') (hsc : d.out.script = WriteRes.ok p :: rest) (hp : 2 ≤ p) :
    sentOn fd d'.out.sent = sentOn fd d.out.sent ++ (ANSWER_ACK ++ [0]) ∧ d'.out.script = rest := by
  have hone := safeoutD_one_write fd SSIZE_MAX p rest (ANSWER_ACK ++ [0]) d hsc (by decide)
    (by simpa using hp) (by decide) (by decide) (le_refl _)
  unfold sendAck at h
  rw [hone] at h
  simp only [Res.ok.injEq] at h
  subst h
  exact ⟨sentOn_append_same _ _ _, rfl⟩

/-- The acceptance of a connection on a descriptor above 0 registers it for reading. -/
theorem epoll_socket_accept_ok (C : Cfg) (fd : Int) (d d' : Daemon) (hfd : 0 < fd)
    (h : epoll_socket_accept C fd d = .ok d') :
    d' = { d with lpolls := insertWatch C { id := d.nextId, fd := fd,
                                            handle := Handler.socket_handler } d.lpolls,
                  nextId := d.nextId + 1, evmax := d.evmax + 1,
                  kset := d.kset ++ [{ fd := fd, events := Events.read, ptr := d.nextId }] } := by
  unfold epoll_socket_accept at h
  rw [if_neg (by omega)] at h
  exact (epoll_addition_ok C fd _ _ _ _ h).2

/-- A successful `EPOLL_CTL_MOD` for `fd` leaves the entries of the other descriptors in the
poll set as they are. -/
theorem ctlMod_mem (fd : Int) (ev : Events) (ptr : Nat) (k k1 : List KEntry)
    (h : ctlMod fd ev ptr k = some k1) (e : KEntry) (he : e ∈ k) (hne : e.fd ≠ fd) :
    e ∈ k1 := by
  unfold ctlMod at h
  split_ifs at h
  simp only [Option.some.injEq] at h
  subst h
  refine List.mem_map.2 ⟨e, he, ?_⟩
  have hb : (e.fd == fd) = false := by simpa using hne
  simp [hb]

/-- The function `safeout` on `fd` leaves the poll-set entries of the other descriptors as they
are. -/
theorem safeoutD_kset_mem (fd : Int) (buf : List Nat) (max : Int) (d d1 : Daemon)
    (h : safeoutD fd buf max d = .ok d1) (e : KEntry) (he : e ∈ d.kset) (hne : e.fd ≠ fd) :
    e ∈ d1.kset := by
  unfold safeoutD at h
  split at h
  · rename_i o ho
    split_ifs at h
    · unfold epoll_reenable at h
      split at h
      · cases h; exact he
      · split at h
        · rename_i k hk
          cases h
          exact ctlMod_mem fd _ _ _ k hk e he hne
        · cases h
    · cases h; exact he
  all_goals cases h

/-- The closing of a descriptor leaves the poll-set entries of the other descriptors. -/
theorem close_kset_mem (d : Daemon) (fd : Int) (e : KEntry) (he : e ∈ d.kset) (hne : e.fd ≠ fd) :
    e ∈ (d.close fd).kset := by
  have hb : (e.fd != fd) = true := by simpa using hne
  exact List.mem_filter.2 ⟨he, hb⟩

/-- A REACTIVATE that finds capture off and a system console puts descriptor 0 into the poll
set with the mask for reading (`EPOLLIN|EPOLLPRI|EPOLLRDHUP`), pointing to the new registry
entry. -/
theorem reactivate_kset (C : Cfg) (pty : PtyEnv) (d d1 : Daemon)
    (h : reactivate C pty d = .ok d1) (hf : d.fdread < 0)
    (hc : ∃ cfd, consdevFd d.cons = some cfd) :
    { fd := 0, events := Events.read, ptr := d.nextId } ∈ d1.kset := by
  obtain ⟨cfd, hc⟩ := hc
  unfold reactivate at h
  rw [if_pos hf, hc] at h
  simp only at h
  split_ifs at h
  all_goals first
    | cases h
    | (obtain ⟨d5, hadd, h5⟩ := Res.bind_ok _ _ _ h
       obtain ⟨-, rfl⟩ := epoll_addition_ok C 0 _ _ _ _ hadd
       cases h5
       exact List.mem_append_right _ (List.mem_singleton.2 rfl))

/-- C13. DEACTIVATE followed by REACTIVATE restores capture.  Capture is active in `d`:
`fdread >= 0` and the registry holds a read watch for `fdread` with the capture handler, that is
an entry of `lpolls` for `fdread` with that handler, and `fdread` is in the poll set with the mask
for reading (`EPOLLIN|EPOLLPRI|EPOLLRDHUP`) and `data.ptr` at that entry.  A root
peer's DEACTIVATE is handled on the connection `fd1`, then the connection `fd2` is accepted
and a root peer's REACTIVATE is handled on it; all calls return (so the system
calls on the tty and the pty succeeded).  Then `fdread >= 0` again, the registry
holds a read watch for `fdread` with the capture handler in the same sense, and each of
the two replies, when the socket takes it with the first `write`, is `ANSWER_ACK`. -/
theorem deactivate_reactivate_restores_capture (C : Cfg) (hM : C.M.WellFormed)
    (env1 env2 : SockEnv) (fd1 fd2 : Int) (d d1 da d2 : Daemon) (rq1 rq2 : Request)
    (pid1 pid2 : Nat) (hfd1 : 0 < fd1) (hfd2 : 0 < fd2)
    (hactive : 0 ≤ d.fdread)
    (hwatch : ∃ w ∈ d.lpolls, w.fd = d.fdread ∧ w.handle = Handler.epoll_console_in ∧
      { fd := d.fdread, events := Events.read, ptr := w.id } ∈ d.kset)
    (hne1 : fd1 ≠ d.fdread) (hne2 : consdevFd d.cons = Option.none → fd2 ≠ d.fdread)
    (hrq1 : readRequest env1 d = some (some rq1)) (hm1 : rq1.magic = C.M.DEACTIVATE)
    (hc1 : env1.cred = CredRes.ok 0 pid1)
    (hrun1 : socket_handler C env1 fd1 d = .ok d1)
    (hacc : epoll_socket_accept C fd2 d1 = .ok da)
    (hrq2 : readRequest env2 da = some (some rq2)) (hm2 : rq2.magic = C.M.REACTIVATE)
    (hc2 : env2.cred = CredRes.ok 0 pid2)
    (hrun2 : socket_handler C env2 fd2 da = .ok d2) :
    0 ≤ d2.fdread ∧
    (∀ p rest, d.out.script = WriteRes.ok p :: rest → 2 ≤ p →
      sentOn fd1 d1.out.sent = sentOn fd1 d.out.sent ++ (ANSWER_ACK ++ [0])) ∧
    (∀ p rest, da.out.script = WriteRes.ok p :: rest → 2 ≤ p →
      sentOn fd2 d2.out.sent = sentOn fd2 da.out.sent ++ (ANSWER_ACK ++ [0])) ∧
    (∃ w ∈ d2.lpolls, w.fd = d2.fdread ∧ w.handle = Handler.epoll_console_in ∧
      { fd := d2.fdread, events := Events.read, ptr := w.id } ∈ d2.kset) := by
  rw [socket_handler_root C env1 fd1 d rq1 pid1 (le_of_lt hfd1) hrq1 hc1,
    dispatch_deactivate C hM env1 fd1 rq1 d hm1] at hrun1
  rw [socket_handler_root C env2 fd2 da rq2 pid2 (le_of_lt hfd2) hrq2 hc2,
    dispatch_reactivate C hM env2 fd2 rq2 da hm2] at hrun2
  simp only [Bool.false_eq_true, if_false] at hrun1 hrun2
  obtain ⟨x1, hx1, ho1⟩ := Res.bind_ok _ _ _ hrun1
  obtain ⟨y1, hde, hs1⟩ := Res.bind_ok _ _ _ hx1
  obtain ⟨x2, hx2, ho2⟩ := Res.bind_ok _ _ _ hrun2
  obtain ⟨y2, hre, hs2⟩ := Res.bind_ok _ _ _ hx2
  obtain ⟨-, hd1⟩ := sockOut_ok fd1 x1 d1 hfd1 ho1
  obtain ⟨-, hd2⟩ := sockOut_ok fd2 x2 d2 hfd2 ho2
  obtain ⟨o1, k1, hy1⟩ := safeoutD_frame _ _ _ _ _ hs1
  obtain ⟨o2, k2, hy2⟩ := safeoutD_frame _ _ _ _ _ hs2
  have hda := epoll_socket_accept_ok C fd2 d1 da hfd2 hacc
  obtain ⟨w, hwl, hwfd, hwh, hwk⟩ := hwatch
  -- the poll set, step by step
  have kx1 : ∀ e ∈ y1.kset, e.fd ≠ fd1 → e ∈ x1.kset :=
    fun e he hne => safeoutD_kset_mem _ _ _ _ _ hs1 e he hne
  have kd1 : ∀ e ∈ x1.kset, e.fd ≠ fd1 → e ∈ d1.kset := by
    intro e he hne
    rw [hd1]
    have hb : (e.fd != fd1) = true := by simpa using hne
    exact List.mem_filter.2 ⟨List.mem_filter.2 ⟨he, hb⟩, hb⟩
  have kda : ∀ e ∈ d1.kset, e ∈ da.kset := by
    intro e he
    rw [hda]
    exact List.mem_append_left _ he
  have kx2 : ∀ e ∈ y2.kset, e.fd ≠ fd2 → e ∈ x2.kset :=
    fun e he hne => safeoutD_kset_mem _ _ _ _ _ hs2 e he hne
  have kd2 : ∀ e ∈ x2.kset, e.fd ≠ fd2 → e ∈ d2.kset := by
    intro e he hne
    rw [hd2]
    have hb : (e.fd != fd2) = true := by simpa using hne
    exact List.mem_filter.2 ⟨List.mem_filter.2 ⟨he, hb⟩, hb⟩
  -- the two replies
  have hack1 : ∀ p rest, d.out.script = WriteRes.ok p :: rest → 2 ≤ p →
      sentOn fd1 d1.out.sent = sentOn fd1 d.out.sent ++ (ANSWER_ACK ++ [0]) := by
    intro p rest hsc hp
    have hyo : y1.out = d.out := by
      rcases deactivate_ok _ _ hde with ⟨hy, -⟩ | ⟨-, -, cfd, -, hy⟩
      all_goals rw [hy]
    have := (sendAck_sent fd1 y1 x1 p rest hs1 (by rw [hyo]; exact hsc) hp).1
    rw [hyo] at this
    rw [hd1]
    exact this
  have hack2 : ∀ p rest, da.out.script = WriteRes.ok p :: rest → 2 ≤ p →
      sentOn fd2 d2.out.sent = sentOn fd2 da.out.sent ++ (ANSWER_ACK ++ [0]) := by
    intro p rest hsc hp
    have hyo : y2.out = da.out := by
      rcases reactivate_ok _ _ _ _ hre with ⟨hy, -⟩ | ⟨-, -, k, a, hy⟩
      all_goals rw [hy]
    have := (sendAck_sent fd2 y2 x2 p rest hs2 (by rw [hyo]; exact hsc) hp).1
    rw [hyo] at this
    rw [hd2]
    exact this
  -- the fields the claim is about, step by step
  have fx1 : x1.fdread = y1.fdread ∧ x1.lpolls = y1.lpolls ∧ x1.cons = y1.cons := by
    rw [hy1]; exact ⟨rfl, rfl, rfl⟩
  have fd1' : d1.fdread = x1.fdread ∧ d1.lpolls = eraseWatch fd1 x1.lpolls ∧ d1.cons = x1.cons := by
    rw [hd1]; exact ⟨rfl, rfl, rfl⟩
  have fda : da.fdread = d1.fdread ∧ da.cons = d1.cons ∧
      da.lpolls = insertWatch C { id := d1.nextId, fd := fd2, handle := Handler.socket_handler }
        d1.lpolls := by
    rw [hda]; exact ⟨rfl, rfl, rfl⟩
  have fx2 : x2.fdread = y2.fdread ∧ x2.lpolls = y2.lpolls := by
    rw [hy2]; exact ⟨rfl, rfl⟩
  have fd2' : d2.fdread = x2.fdread ∧ d2.lpolls = eraseWatch fd2 x2.lpolls := by
    rw [hd2]; exact ⟨rfl, rfl⟩
  have hfr : d2.fdread = y2.fdread := by rw [fd2'.1, fx2.1]
  rw [hfr, fd2'.2, fx2.2]
  rcases reactivate_ok _ _ _ _ hre with ⟨hy, hcase⟩ | ⟨hneg, hcons, k, a, hy⟩
  · -- REACTIVATE found capture active: DEACTIVATE had changed nothing
    have hsame : y1 = d := by
      rcases deactivate_ok _ _ hde with ⟨hy1d, -⟩ | ⟨-, -, cfd, hcd, hy1d⟩
      · exact hy1d
      · exfalso
        have hf : da.fdread = -1 := by rw [fda.1, fd1'.1, fx1.1, hy1d]
        have hcons : da.cons = d.cons := by rw [fda.2.1, fd1'.2.2, fx1.2.2, hy1d]
        rcases hcase with hc | hc
        · omega
        · rw [hcons, hcd] at hc; cases hc
    have hcn : consdevFd d.cons = Option.none := by
      rcases deactivate_ok _ _ hde with ⟨-, hnone⟩ | ⟨-, -, cfd, hcd, hy1d⟩
      · rcases hnone with h | h
        · omega
        · exact h
      · have hf : y1.fdread = -1 := by rw [hy1d]
        rw [hsame] at hf
        omega
    have hy2k : y2.kset = da.kset := by rw [hy]
    have hy1k : y1.kset = d.kset := by rw [hsame]
    rw [hy, fda.1, fda.2.2, fd1'.1, fd1'.2.1, fx1.1, fx1.2.1, hsame]
    refine ⟨hactive, hack1, hack2, w, ?_, hwfd, hwh, ?_⟩
    · apply mem_eraseWatch_of_ne fd2 w (by rw [hwfd]; exact fun h => hne2 hcn h.symm)
      apply (mem_insertWatch C _ _ _).2
      exact Or.inr (mem_eraseWatch_of_ne fd1 w (by rw [hwfd]; exact fun h => hne1 h.symm) _ hwl)
    · have g1 : ({ fd := d.fdread, events := Events.read, ptr := w.id } : KEntry) ∈ da.kset :=
        kda _ (kd1 _ (kx1 _ (by rw [hy1k]; exact hwk) (fun h => hne1 h.symm))
          (fun h => hne1 h.symm))
      exact kd2 _ (kx2 _ (by rw [hy2k]; exact g1) (fun h => hne2 hcn h.symm))
        (fun h => hne2 hcn h.symm)
  · have hyk : ({ fd := 0, events := Events.read, ptr := da.nextId } : KEntry) ∈ y2.kset :=
      reactivate_kset C _ da y2 hre hneg hcons
    have hyf : y2.fdread = 0 := by rw [hy]
    have hyl : y2.lpolls = insertWatch C
        { id := da.nextId, fd := 0, handle := Handler.epoll_console_in } da.lpolls := by rw [hy]
    rw [hyf, hyl]
    refine ⟨le_refl _, hack1, hack2,
      { id := da.nextId, fd := 0, handle := Handler.epoll_console_in }, ?_, rfl, rfl, ?_⟩
    · apply mem_eraseWatch_of_ne fd2 _ (by simp only; omega)
      exact (mem_insertWatch C _ _ _).2 (Or.inl rfl)
    · exact kd2 _ (kx2 _ hyk (by simp only; omega)) (by simp only; omega)

/-- The example: DEACTIVATE on descriptor 7, then REACTIVATE on descriptor 10. -/
theorem deactivate_reactivate_restores_capture_witness :
    Daemon.deactivated.fdread = -1 ∧ Daemon.reactivated.fdread = 0 ∧
    (∃ w ∈ Daemon.reactivated.lpolls,
      w.fd = Daemon.reactivated.fdread ∧ w.handle = Handler.epoll_console_in ∧
      { fd := Daemon.reactivated.fdread, events := Events.read, ptr := w.id }
        ∈ Daemon.reactivated.kset) ∧
    sentOn 7 Daemon.deactivated.out.sent = [6, 0] ∧
    sentOn 10 Daemon.reactivated.out.sent = [6, 0] := by
  have h := deactivate_reactivate_restores_capture Cfg.sample (by decide)
    (SockEnv.sample [68, 0] 0) (SockEnv.sample [114, 0] 0) 7 10 (Daemon.capturing [.ok 2, .ok 2])
    Daemon.deactivated Daemon.accepted Daemon.reactivated ⟨68, Option.none⟩ ⟨114, Option.none⟩
    4242 4242 (by decide) (by decide) (by decide)
    ⟨{ id := 0, fd := 0, handle := Handler.epoll_console_in }, by decide, rfl, rfl, by decide⟩
    (by decide) (by decide) rfl rfl rfl rfl rfl rfl rfl rfl rfl
  exact ⟨by decide, by decide, h.2.2.2, h.2.1 2 [.ok 2] rfl (le_refl _),
    h.2.2.1 2 [] rfl (le_refl _)⟩


/-! ## The connection at the end of `socket_handler` -/

/-- The descriptors of the list without its first entry for `fd`, when no descriptor
has two entries: those of the list, without `fd`. -/
theorem eraseWatch_fds (fd : Int) :
    ∀ l : List Watch, (l.map (fun w => w.fd)).Nodup →
      (eraseWatch fd l).map (fun w => w.fd) = (l.map (fun w => w.fd)).filter (fun x => x != fd) := by
  intro l
  induction l with
  | nil => intro _; rfl
  | cons x xs ih =>
    intro hnd
    simp only [List.map_cons, List.nodup_cons] at hnd
    simp only [eraseWatch]
    by_cases hx : x.fd = fd
    · have hb : (x.fd == fd) = true := by simpa using hx
      rw [hb, if_pos rfl, List.map_cons, List.filter_cons]
      have hb2 : (x.fd != fd) = false := by simpa using hx
      rw [hb2]
      simp only [Bool.false_eq_true, if_false]
      symm
      rw [List.filter_eq_self]
      intro y hy
      have : y ≠ fd := by
        rintro rfl
        exact hnd.1 (hx ▸ hy)
      simpa using this
    · have hb : (x.fd == fd) = false := by simpa using hx
      rw [hb]
      simp only [Bool.false_eq_true, if_false, List.map_cons]
      rw [List.filter_cons]
      have hb2 : (x.fd != fd) = true := by simpa using hx
      rw [hb2, if_pos rfl, ih hnd.2]

/-- The operation `EPOLL_CTL_MOD` keeps the descriptors of the poll set. -/
theorem ctlMod_fds (fd : Int) (ev : Events) (ptr : Nat) (k k' : List KEntry)
    (h : ctlMod fd ev ptr k = some k') : k'.map (fun e => e.fd) = k.map (fun e => e.fd) := by
  unfold ctlMod at h
  split_ifs at h
  simp only [Option.some.injEq] at h
  subst h
  rw [List.map_map]
  apply List.map_congr_left
  intro e _
  simp only [Function.comp]
  split_ifs with hc
  · have : e.fd = fd := by simpa using hc
    exact this.symm
  · rfl

/-- Every registry operation but `epoll_answer_once` keeps the registry invariant. -/
theorem RegOp.run_inv (C : Cfg) (op : RegOp) (d d' : Daemon) (hop : op.isAnswerOnce = false)
    (hinv : d.RegInv) (h : op.run C d = .ok d') : d'.RegInv := by
  obtain ⟨hnd, hk⟩ := hinv
  have hadd : ∀ fd hd ev, epoll_addition C fd hd ev d = .ok d' → d'.RegInv := by
    intro fd hd ev hrun
    obtain ⟨hnot, rfl⟩ := epoll_addition_ok C fd hd ev d d' hrun
    have hfresh : fd ∉ d.lpolls.map (fun w => w.fd) := by
      rw [hk]
      intro hmem
      obtain ⟨e, he, hfd⟩ := List.mem_map.1 hmem
      have : (d.kset.any fun e => e.fd == fd) = true := by
        rw [List.any_eq_true]
        exact ⟨e, he, by simpa using hfd⟩
      rw [hnot] at this
      cases this
    constructor
    · simp only [insertWatch]
      split_ifs
      · simp only [List.map_cons, List.nodup_cons]
        exact ⟨hfresh, hnd⟩
      · simp only [List.map_append, List.map_cons, List.map_nil]
        rw [List.nodup_append]
        refine ⟨hnd, List.nodup_singleton _, ?_⟩
        intro a ha hb
        simp only [List.mem_singleton] at hb
        subst hb
        exact hfresh ha
    · intro x
      have hx := hk x
      simp only [insertWatch]
      split_ifs
      · simp only [List.map_cons, List.mem_cons, List.map_append, List.mem_append, List.map_nil,
          List.not_mem_nil, or_false]
        rw [hx]
        exact or_comm
      · simp only [List.map_cons, List.mem_cons, List.map_append, List.mem_append, List.map_nil,
          List.not_mem_nil, or_false]
        rw [hx]
  cases op with
  | addread fd hd => exact hadd fd hd _ h
  | addwrite fd hd => exact hadd fd hd _ h
  | answer_once fd hd => cases hop
  | reenable fd =>
    simp only [RegOp.run, epoll_reenable] at h
    split at h
    · cases h; exact ⟨hnd, hk⟩
    · split at h
      · rename_i k' hmod
        cases h
        refine ⟨hnd, fun x => ?_⟩
        simp only
        rw [ctlMod_fds _ _ _ _ _ hmod]
        exact hk x
      · cases h
  | delete fd =>
    simp only [RegOp.run] at h
    obtain ⟨-, rfl⟩ := epoll_delete_ok fd d d' h
    constructor
    · simp only
      rw [eraseWatch_fds fd _ hnd]
      exact List.Nodup.filter _ hnd
    · intro x
      simp only
      rw [eraseWatch_fds fd _ hnd, List.mem_filter, hk x]
      simp only [List.mem_map, List.mem_filter]
      constructor
      · rintro ⟨⟨e, he, rfl⟩, hne⟩
        exact ⟨e, ⟨he, hne⟩, rfl⟩
      · rintro ⟨e, ⟨he, hne⟩, rfl⟩
        exact ⟨⟨e, he, rfl⟩, hne⟩

/-- A sequence of registry operations without `epoll_answer_once` keeps the registry invariant. -/
theorem runOps_inv (C : Cfg) (ops : List RegOp) :
    ∀ d d' : Daemon, (∀ op ∈ ops, op.isAnswerOnce = false) → d.RegInv →
      runOps C ops d = .ok d' → d'.RegInv := by
  induction ops with
  | nil =>
    intro d d' _ hinv h
    simp only [runOps, Res.ok.injEq] at h
    subst h
    exact hinv
  | cons op ops ih =>
    intro d d' hall hinv h
    simp only [runOps] at h
    obtain ⟨d1, h1, h2⟩ := Res.bind_ok _ _ _ h
    have hinv1 := RegOp.run_inv C op d d1 (hall op (List.mem_cons_self _ _)) hinv h1
    exact ih d1 d' (fun x hx => hall x (List.mem_cons_of_mem _ hx)) hinv1 h2

/-- The number of entries for `fd` is the number of times `fd` stands in the list of the
descriptors. -/
theorem entriesFor_eq_count (fd : Int) (l : List Watch) :
    (l.filter (fun w => w.fd == fd)).length = (l.map (fun w => w.fd)).count fd := by
  induction l with
  | nil => rfl
  | cons x xs ih =>
    rw [List.filter_cons, List.map_cons, List.count_cons]
    by_cases hx : x.fd = fd
    · have hb : (x.fd == fd) = true := by simpa using hx
      rw [hb, if_pos rfl, List.length_cons, ih]
      simp
    · have hb : (x.fd == fd) = false := by simpa using hx
      rw [hb]
      simp only [Bool.false_eq_true, if_false]
      rw [ih]
      simp

/-- Under the registry invariant every descriptor of the poll set has exactly one
entry, and every other descriptor none. -/
theorem Daemon.RegInv.entries (d : Daemon) (hinv : d.RegInv) (fd : Int) :
    (fd ∈ d.kset.map (fun e => e.fd) → d.entriesFor fd = 1) ∧
    (fd ∉ d.kset.map (fun e => e.fd) → d.entriesFor fd = 0) := by
  obtain ⟨hnd, hk⟩ := hinv
  unfold Daemon.entriesFor
  rw [entriesFor_eq_count]
  constructor
  · intro h
    exact List.count_eq_one_of_mem hnd ((hk fd).2 h)
  · intro h
    exact List.count_eq_zero_of_not_mem (fun hm => h ((hk fd).1 hm))

/-- Without `epoll_answer_once`: after a returning `epoll_delete(fd)` no entry refers to `fd`. -/
theorem epoll_delete_entries (fd : Int) (d d' : Daemon) (hinv : d.RegInv)
    (h : epoll_delete fd d = .ok d') : d'.entriesFor fd = 0 := by
  have hinv' : d'.RegInv := RegOp.run_inv Cfg.sample (RegOp.delete fd) d d' rfl hinv h
  apply (Daemon.RegInv.entries d' hinv' fd).2
  obtain ⟨-, rfl⟩ := epoll_delete_ok fd d d' h
  simp only [List.mem_map, List.mem_filter]
  rintro ⟨e, ⟨-, hne⟩, rfl⟩
  simp at hne

/-- C15. The registry after `epoll_answer_once`.  On the daemon right after start, a
connection on descriptor 7 is registered (`epoll_addread`), an ASK_PWD request re-arms
it for its deferred answer (`epoll_answer_once`) and the answer ends with `epoll_delete(7)`.
After the second call two entries refer to descriptor 7, and after the
`epoll_delete` one entry still does although the descriptor has left the poll
set; `evmax` is 1 with nothing watched.  This is so for either way `insert` may
order the list. -/
theorem answer_once_leaves_second_entry :
    ((runOps Cfg.sample
        [RegOp.addread 7 Handler.socket_handler, RegOp.answer_once 7 Handler.epoll_socket_answer]
        (Daemon.idle Cfg.sample [])).toOption.map fun d => d.entriesFor 7) = some 2 ∧
    ((runOps Cfg.sample
        [RegOp.addread 7 Handler.socket_handler, RegOp.answer_once 7 Handler.epoll_socket_answer,
         RegOp.delete 7]
        (Daemon.idle Cfg.sample [])).toOption.map
      fun d => (d.entriesFor 7, d.kset, d.evmax)) = some (1, [], 1) ∧
    ((runOps { Cfg.sample with insertFirst := false }
        [RegOp.addread 7 Handler.socket_handler, RegOp.answer_once 7 Handler.epoll_socket_answer,
         RegOp.delete 7]
        (Daemon.idle Cfg.sample [])).toOption.map
      fun d => (d.entriesFor 7, d.kset, d.evmax)) = some (1, [], 1) := by
  refine ⟨by decide, by decide, by decide⟩


/-! ## The log file in `safeIO` -/

/-- The checks of `/var/log` let `safeIO` go on exactly when `/var/log` is ready; they open nothing. -/
theorem safeIO_check_spec (env : LogEnv) (s : IOState) :
    ( safeIO_check env s).2 = env.varLogReady ∧ ( safeIO_check env s).1.log = s.log ∧
    ( safeIO_check env s).1.flog = s.flog ∧ ( safeIO_check env s).1.d.final = s.d.final ∧
    ∃ new, ( safeIO_check env s).1.trace = s.trace ++ new ∧ ∀ a ∈ new, a = LogAct.warn := by
  unfold safeIO_check LogEnv.varLogReady
  rcases hl : env.lstat with _ | e
  · rcases hsym : env.symlink
    · rcases hs : env.statfs with _ | e2
      · rcases hr : env.ramlike
        · exact ⟨rfl, rfl, rfl, rfl, [], by simp, by simp⟩
        · exact ⟨rfl, rfl, rfl, rfl, [], by simp, by simp⟩
      · exact ⟨rfl, rfl, rfl, rfl, [LogAct.warn], rfl, by simp⟩
    · exact ⟨rfl, rfl, rfl, rfl, [], by simp, by simp⟩
  · dsimp only
    split_ifs
    · exact ⟨rfl, rfl, rfl, rfl, [LogAct.warn], rfl, by simp⟩
    · exact ⟨rfl, rfl, rfl, rfl, [], by simp [IOState.failed], by simp⟩

/-- The part of `safeIO` before the label `skip:` makes no call of `open` when the log is open
already or when the `SIGIO` handler waits for its signal (`nsigio == 0`) or when `nsigio < 0`
and `/var/log` is not ready: then `log`, `flog` and `nsigio` stay and nothing in the trace is
an `open`. -/
theorem safeIO_open_quiet (env : LogEnv) (s s1 : IOState)
    (hq : 0 ≤ s.log ∨ s.d.nsigio = 0 ∨ (s.d.nsigio < 0 ∧ env.varLogReady = false))
    (h : safeIO_open env s = .ok s1) :
    s1.log = s.log ∧ s1.flog = s.flog ∧ s1.d.nsigio = s.d.nsigio ∧
    ∃ new, s1.trace = s.trace ++ new ∧ ∀ a ∈ new, a = LogAct.warn := by
  unfold safeIO_open at h
  by_cases h0 : s.d.nsigio = 0
  · rw [if_pos h0] at h
    cases h
    exact ⟨rfl, rfl, rfl, [], by simp, by simp⟩
  rw [if_neg h0] at h
  by_cases hlog : 0 ≤ s.log
  · rw [if_pos hlog] at h
    cases h
    exact ⟨rfl, rfl, rfl, [], by simp, by simp⟩
  rw [if_neg hlog] at h
  rcases hq with hq | hq | ⟨hneg, hnr⟩
  · exact absurd hq hlog
  · exact absurd hq h0
  · simp only [if_pos hneg] at h
    obtain ⟨c1, c2, c3, -, new, c4, c5⟩ := safeIO_check_spec env s
    rw [c1, hnr] at h
    simp only [Bool.not_false, if_true] at h
    cases h
    refine ⟨c2, c3, ?_, new, c4, c5⟩
    unfold safeIO_check
    rcases env.lstat with _ | e
    · rcases env.symlink
      · rcases env.statfs with _ | e2
        · rcases env.ramlike <;> rfl
        · rfl
      · rfl
    · simp only
      split_ifs <;> rfl

/-- The rest of a cycle after the label `skip:` leaves `log` alone, and what it adds to the
trace is no `open`. -/
theorem safeIO_skip_spec (s : IOState) :
    ( safeIO_skip s).log = s.log ∧
    ∃ new, ( safeIO_skip s).trace = s.trace ++ new ∧
      (∀ a ∈ new, a = LogAct.sigio_handler ∨ a = LogAct.dump_kmsg ∨ a = LogAct.start_logging) ∧
      (s.flog = false → ( safeIO_skip s).flog = false ∧ ∀ a ∈ new, a = LogAct.sigio_handler) := by
  by_cases hn : s.d.nsigio < 0
  · by_cases hf : s.flog = true
    · refine ⟨?_, [LogAct.sigio_handler, LogAct.dump_kmsg, LogAct.start_logging], ?_, ?_, ?_⟩
      all_goals simp [safeIO_skip, IOState.act, hn, hf]
    · refine ⟨?_, [LogAct.sigio_handler], ?_, ?_, ?_⟩
      all_goals simp [safeIO_skip, IOState.act, hn, hf]
  · by_cases hf : s.flog = true
    · by_cases hb : s.atboot = true
      · refine ⟨?_, [LogAct.dump_kmsg, LogAct.start_logging], ?_, ?_, ?_⟩
        all_goals simp [safeIO_skip, IOState.act, hn, hf, hb]
      · refine ⟨?_, [LogAct.start_logging], ?_, ?_, ?_⟩
        all_goals simp [safeIO_skip, IOState.act, hn, hf, hb]
    · refine ⟨?_, [], ?_, ?_, ?_⟩
      all_goals simp [safeIO_skip, IOState.act, hn, hf]

/-- The end of a cycle leaves `log` alone, and what it adds to the trace is no `open`;
when `nsigsys` is set, `flog` is `NULL` afterwards. -/
theorem safeIO_pause_spec (s : IOState) :
    ( safeIO_pause s).log = s.log ∧ ( safeIO_pause s).d.nsigsys = s.d.nsigsys ∧
    (s.d.nsigsys ≠ 0 → ( safeIO_pause s).flog = false) ∧
    (s.flog = false → ( safeIO_pause s).flog = false) ∧
    ∃ new, ( safeIO_pause s).trace = s.trace ++ new ∧
      (∀ a ∈ new, a = LogAct.stop_logging ∨ a = LogAct.close_logging ∨ a = LogAct.sigio_ign) ∧
      (s.flog = false → ∀ a ∈ new, a = LogAct.sigio_ign) := by
  by_cases hp : s.d.nsigsys = 0
  · refine ⟨?_, ?_, ?_, ?_, [], ?_, ?_, ?_⟩
    all_goals simp [safeIO_pause, IOState.act, hp]
  · by_cases hf : s.flog = true
    · by_cases hn : s.d.nsigio < 0
      · refine ⟨?_, ?_, ?_, ?_, [LogAct.stop_logging, LogAct.close_logging, LogAct.sigio_ign],
          ?_, ?_, ?_⟩
        all_goals simp [safeIO_pause, IOState.act, hp, hf, hn]
      · refine ⟨?_, ?_, ?_, ?_, [LogAct.stop_logging, LogAct.close_logging], ?_, ?_, ?_⟩
        all_goals simp [safeIO_pause, IOState.act, hp, hf, hn]
    · by_cases hn : s.d.nsigio < 0
      · refine ⟨?_, ?_, ?_, ?_, [LogAct.sigio_ign], ?_, ?_, ?_⟩
        all_goals simp [safeIO_pause, IOState.act, hp, hf, hn]
      · refine ⟨?_, ?_, ?_, ?_, [], ?_, ?_, ?_⟩
        all_goals simp [safeIO_pause, IOState.act, hp, hf, hn]

/-- The block `if (final) { ... }` leaves `log` alone and only adds to the trace, no `open`. -/
theorem safeIO_rotate_spec (env : LogEnv) (s s1 : IOState) (b : Bool)
    (h : safeIO_rotate env s = .ok (s1, b)) :
    s1.log = s.log ∧ ∃ new, s1.trace = s.trace ++ new ∧
      ∀ a ∈ new, a = LogAct.unlink_old ∨ a = LogAct.rename_log ∨ a = LogAct.warn := by
  unfold safeIO_rotate at h
  rcases hu : env.unlink with _ | e
  · rw [hu] at h
    simp only [Bool.not_true, Bool.false_eq_true, if_false] at h
    rcases hr : env.rename with _ | e2
    · rw [hr] at h
      cases h
      exact ⟨rfl, [LogAct.unlink_old, LogAct.rename_log], by simp [IOState.act], by simp⟩
    · rw [hr] at h
      simp only at h
      split_ifs at h
      all_goals cases h
      all_goals exact ⟨rfl, [LogAct.unlink_old, LogAct.rename_log],
        by simp [IOState.act, IOState.failed], by simp⟩
  · rw [hu] at h
    simp only at h
    by_cases h1 : e = Errno.EACCES ∨ e = Errno.EROFS ∨ e = Errno.EPERM
    · simp only [if_pos h1, Bool.not_false, if_true] at h
      cases h
      exact ⟨rfl, [LogAct.unlink_old], by simp [IOState.act, IOState.failed], by simp⟩
    · simp only [if_neg h1] at h
      by_cases h2 : e ≠ Errno.ENOENT
      · simp only [if_pos h2, Bool.not_true, Bool.false_eq_true, if_false] at h
        rcases hr : env.rename with _ | e2
        · rw [hr] at h
          cases h
          exact ⟨rfl, [LogAct.unlink_old, LogAct.warn, LogAct.rename_log],
            by simp [IOState.act, IOState.failed], by simp⟩
        · rw [hr] at h
          simp only at h
          split_ifs at h
          all_goals cases h
          all_goals exact ⟨rfl, [LogAct.unlink_old, LogAct.warn, LogAct.rename_log],
            by simp [IOState.act, IOState.failed], by simp⟩
      · simp only [if_neg h2, Bool.not_true, Bool.false_eq_true, if_false] at h
        rcases hr : env.rename with _ | e2
        · rw [hr] at h
          cases h
          exact ⟨rfl, [LogAct.unlink_old, LogAct.rename_log],
            by simp [IOState.act, IOState.failed], by simp⟩
        · rw [hr] at h
          simp only at h
          split_ifs at h
          all_goals cases h
          all_goals exact ⟨rfl, [LogAct.unlink_old, LogAct.rename_log],
            by simp [IOState.act, IOState.failed], by simp⟩

/-- The call `access`: `log` stays, the trace stays. -/
theorem safeIO_access_spec (env : LogEnv) (s s1 : IOState) (b : Bool)
    (h : safeIO_access env s = .ok (s1, b)) : s1.log = s.log ∧ s1.trace = s.trace := by
  unfold safeIO_access at h
  rcases ha : env.access with _ | e
  · rw [ha] at h
    cases h
    exact ⟨rfl, rfl⟩
  · rw [ha] at h
    simp only at h
    split_ifs at h
    all_goals cases h
    all_goals exact ⟨rfl, rfl⟩

/-- The call `open`: the trace grows by the call, and `log` is a descriptor afterwards
only when the call succeeded. -/
theorem safeIO_openlog_spec (env : LogEnv) (s s1 : IOState) (h : safeIO_openlog env s = .ok s1) :
    ∃ new, s1.trace = s.trace ++ new ∧ (0 ≤ s1.log → ∃ old, LogAct.open_log old true ∈ new) := by
  unfold safeIO_openlog at h
  rcases ho : env.openLog with _ | e
  · rw [ho] at h
    cases h
    refine ⟨[LogAct.open_log (decide (s.d.final ≠ 0)) true, LogAct.open_logging,
      LogAct.sigio_ign], by simp [IOState.act],
      fun _ => ⟨decide (s.d.final ≠ 0), List.mem_cons_self _ _⟩⟩
  · rw [ho] at h
    simp only at h
    split_ifs at h
    cases h
    refine ⟨[LogAct.open_log (decide (s.d.final ≠ 0)) false],
      by simp [IOState.act, IOState.failed], fun h0 => ?_⟩
    simp at h0

/-- The calls `access` and `open`: the trace only grows, and `log` is a descriptor afterwards
only when it was one before or the `open` of this cycle succeeded. -/
theorem safeIO_tail_spec (env : LogEnv) (s s1 : IOState) (h : safeIO_tail env s = .ok s1) :
    ∃ new, s1.trace = s.trace ++ new ∧
      (0 ≤ s1.log → s.log < 0 → ∃ old, LogAct.open_log old true ∈ new) := by
  unfold safeIO_tail at h
  split at h
  · rename_i s2 ha
    obtain ⟨a1, a2⟩ := safeIO_access_spec env s s2 true ha
    obtain ⟨new, n1, n2⟩ := safeIO_openlog_spec env s2 s1 h
    exact ⟨new, by rw [n1, a2], fun h0 _ => n2 h0⟩
  · rename_i s2 ha
    obtain ⟨a1, a2⟩ := safeIO_access_spec env s s2 false ha
    cases h
    exact ⟨[], by simp [a2], fun h0 hneg => by omega⟩
  · cases h
  · cases h
  · cases h

/-- The part of `safeIO` before the label `skip:`.  The trace only grows.  A call of `open` is in
what was added only if `log < 0` and either `nsigio > 0`, or `nsigio < 0` and `/var/log` is ready.
And `log` has become a descriptor only through a successful `open` of this part. -/
theorem safeIO_open_spec (env : LogEnv) (s s1 : IOState) (h : safeIO_open env s = .ok s1) :
    ∃ new, s1.trace = s.trace ++ new ∧
      ((∃ old ok, LogAct.open_log old ok ∈ new) →
        s.log < 0 ∧ (0 < s.d.nsigio ∨ (s.d.nsigio < 0 ∧ env.varLogReady = true))) ∧
      (0 ≤ s1.log → s.log < 0 → ∃ old, LogAct.open_log old true ∈ new) := by
  by_cases hq : 0 ≤ s.log ∨ s.d.nsigio = 0 ∨ (s.d.nsigio < 0 ∧ env.varLogReady = false)
  · obtain ⟨q1, -, -, new, q4, q5⟩ := safeIO_open_quiet env s s1 hq h
    refine ⟨new, q4, ?_, fun h0 hneg => by omega⟩
    rintro ⟨old, ok, hmem⟩
    have := q5 _ hmem
    cases this
  · have hlog : s.log < 0 := by
      by_contra hc
      exact hq (Or.inl (by omega))
    have h0 : s.d.nsigio ≠ 0 := fun hc => hq (Or.inr (Or.inl hc))
    have hready : s.d.nsigio < 0 → env.varLogReady = true := by
      intro hn
      by_contra hc
      exact hq (Or.inr (Or.inr ⟨hn, by simpa using hc⟩))
    have hpre : s.log < 0 ∧ (0 < s.d.nsigio ∨ (s.d.nsigio < 0 ∧ env.varLogReady = true)) := by
      refine ⟨hlog, ?_⟩
      by_cases hn : s.d.nsigio < 0
      · exact Or.inr ⟨hn, hready hn⟩
      · exact Or.inl (by omega)
    unfold safeIO_open at h
    rw [if_neg h0, if_neg (by omega)] at h
    -- the state after the checks of `/var/log`
    obtain ⟨c, hc, hc2, hclog, hcfin, newc, hctr⟩ :
        ∃ c : IOState × Bool, (if s.d.nsigio < 0 then safeIO_check env s else (s, true)) = c ∧
          c.2 = true ∧ c.1.log = s.log ∧ c.1.d.final = s.d.final ∧
          ∃ newc, c.1.trace = s.trace ++ newc := by
      by_cases hn : s.d.nsigio < 0
      · obtain ⟨c1, c2, -, c4, new, c5, -⟩ := safeIO_check_spec env s
        exact ⟨_, rfl, by rw [if_pos hn, c1, hready hn], by rw [if_pos hn, c2],
          by rw [if_pos hn, c4], new, by rw [if_pos hn, c5]⟩
      · exact ⟨_, rfl, by rw [if_neg hn], by rw [if_neg hn], by rw [if_neg hn], [],
          by rw [if_neg hn]; simp⟩
    simp only [hc, hc2, Bool.not_true, Bool.false_eq_true, if_false] at h
    by_cases hfin : c.1.d.final ≠ 0
    · rw [if_pos hfin] at h
      split at h
      · rename_i s2 hrot
        obtain ⟨r1, newr, r2, -⟩ := safeIO_rotate_spec env c.1 s2 true hrot
        obtain ⟨newt, t1, t2⟩ := safeIO_tail_spec env s2 s1 h
        refine ⟨newc ++ newr ++ newt, by rw [t1, r2, hctr]; simp, fun _ => hpre, ?_⟩
        intro hs1 _
        obtain ⟨old, hold⟩ := t2 hs1 (by rw [r1, hclog]; exact hlog)
        exact ⟨old, by simp [hold]⟩
      · rename_i s2 hrot
        obtain ⟨r1, newr, r2, -⟩ := safeIO_rotate_spec env c.1 s2 false hrot
        cases h
        refine ⟨newc ++ newr, by rw [r2, hctr]; simp, fun _ => hpre, fun hs1 _ => ?_⟩
        rw [r1, hclog] at hs1
        omega
      · cases h
      · cases h
      · cases h
    · rw [if_neg hfin] at h
      obtain ⟨newt, t1, t2⟩ := safeIO_tail_spec env c.1 s1 h
      refine ⟨newc ++ newt, by rw [t1, hctr]; simp, fun _ => hpre, ?_⟩
      intro hs1 _
      obtain ⟨old, hold⟩ := t2 hs1 (by rw [hclog]; exact hlog)
      exact ⟨old, by simp [hold]⟩

/-- A cycle of `safeIO` that returns: its first part returned, and the rest of the
cycle left `log` alone and added no `open` to the trace. -/
theorem safeIO_parts (C : Cfg) (env : LogEnv) (s s' : IOState) (h : safeIO C env s = .ok s') :
    ∃ s1, safeIO_open env s = .ok s1 ∧ s'.log = s1.log ∧
      (s'.d.nsigsys ≠ 0 → s'.flog = false) ∧ (s1.flog = false → s'.flog = false) ∧
      ∃ new, s'.trace = s1.trace ++ new ∧
        (∀ a ∈ new, ∀ old ok, a ≠ LogAct.open_log old ok) ∧
        (s1.flog = false → ∀ a ∈ new, a = LogAct.sigio_handler ∨ a = LogAct.sigio_ign) := by
  unfold safeIO at h
  obtain ⟨s1, h1, h2⟩ := Res.bind_ok _ _ _ h
  refine ⟨s1, h1, ?_⟩
  simp only at h2
  split at h2
  · rename_i d1 ret hmi
    cases h2
    obtain ⟨k1, newk, k2, k3, k4⟩ := safeIO_skip_spec s1
    obtain ⟨p1, p2, p3, p4, newp, p5, p6, p7⟩ :=
      safeIO_pause_spec { safeIO_skip s1 with d := d1 }
    refine ⟨by rw [p1]; exact k1, ?_, ?_, newk ++ newp, by rw [p5]; simp only; rw [k2]; simp,
      ?_, ?_⟩
    · intro hp
      exact p3 (by rw [← p2]; exact hp)
    · intro hf
      exact p4 (k4 hf).1
    · intro a ha old ok
      rcases List.mem_append.1 ha with hk | hp
      · rcases k3 a hk with r | r | r
        all_goals rw [r]
        all_goals simp
      · rcases p6 a hp with r | r | r
        all_goals rw [r]
        all_goals simp
    · intro hf a ha
      rcases List.mem_append.1 ha with hk | hp
      · exact Or.inl ((k4 hf).2 a hk)
      · exact Or.inr (p7 (k4 hf).1 a hp)
  · cases h2
  · cases h2
  · cases h2

/-- Once the log file has been opened and closed again (`log >= 0`, `flog == NULL`), a cycle of
`safeIO` does nothing to it: `log` and `flog` stay, and all the cycle may add to the trace
is the arming or disarming of `SIGIO`. -/
theorem safeIO_closed_stays (C : Cfg) (env : LogEnv) (s s' : IOState) (hlog : 0 ≤ s.log)
    (hflog : s.flog = false) (h : safeIO C env s = .ok s') :
    s'.log = s.log ∧ s'.flog = false ∧
    ∃ new, s'.trace = s.trace ++ new ∧
      ∀ a ∈ new, a = LogAct.sigio_handler ∨ a = LogAct.sigio_ign := by
  obtain ⟨s1, h1, p1, -, p3, new, p4, -, p6⟩ := safeIO_parts C env s s' h
  obtain ⟨q1, q2, -, newq, q4, q5⟩ := safeIO_open_quiet env s s1 (Or.inl hlog) h1
  have hnil : newq = [] := by
    unfold safeIO_open at h1
    by_cases h0 : s.d.nsigio = 0
    · rw [if_pos h0] at h1
      cases h1
      simpa using q4
    · rw [if_neg h0, if_pos hlog] at h1
      cases h1
      simpa using q4
  have hf1 : s1.flog = false := by rw [q2]; exact hflog
  refine ⟨by rw [p1, q1], p3 hf1, new, by rw [p4, q4, hnil]; simp, p6 hf1⟩

/-- The same over any number of cycles. -/
theorem cycles_closed_stays (C : Cfg) (envs : List LogEnv) :
    ∀ s s' : IOState, 0 ≤ s.log → s.flog = false → cycles C envs s = .ok s' →
      s'.log = s.log ∧ s'.flog = false ∧
      ∃ new, s'.trace = s.trace ++ new ∧
        ∀ a ∈ new, a = LogAct.sigio_handler ∨ a = LogAct.sigio_ign := by
  induction envs with
  | nil =>
    intro s s' _ hf h
    simp only [cycles, Res.ok.injEq] at h
    subst h
    exact ⟨rfl, hf, [], by simp, by simp⟩
  | cons env envs ih =>
    intro s s' hlog hf h
    simp only [cycles] at h
    obtain ⟨s1, h1, h2⟩ := Res.bind_ok _ _ _ h
    obtain ⟨a1, a2, n1, a3, a4⟩ := safeIO_closed_stays C env s s1 hlog hf h1
    obtain ⟨b1, b2, n2, b3, b4⟩ := ih s1 s' (by rw [a1]; exact hlog) a2 h2
    refine ⟨by rw [b1, a1], b2, n1 ++ n2, by rw [b3, a3]; simp, ?_⟩
    intro a ha
    rcases List.mem_append.1 ha with hm | hm
    · exact a4 a hm
    · exact b4 a hm

/-- C16. A paused cycle that opens the log.  The daemon starts before `/var/log` exists
and handles a CLOSE request of root in its first cycle, so `nsigsys` is set; `SIGIO`
arrives in the second cycle.  The third cycle begins with `nsigsys != 0`, `nsigio == SIGIO`,
`log == -1` and `flog == NULL`: it opens the log file, writes the kernel message dump and
calls `start_logging`; only at its end the log is stopped and closed. -/
theorem safeIO_opens_log_while_paused :
    (IOState.pausedEarly.toOption.map fun s => (s.d.nsigsys, s.d.nsigio, s.log, s.flog))
      = some (SIGSYS, SIGIO, -1, false) ∧
    ((IOState.pausedEarly.bind
        ( safeIO Cfg.sample (LogEnv.sample PollRes.eintr))).toOption.map
      fun s => (s.log, s.flog, s.trace.drop 1))
      = some (11, false,
          [LogAct.open_log false true, LogAct.open_logging, LogAct.sigio_ign, LogAct.dump_kmsg,
           LogAct.start_logging, LogAct.stop_logging, LogAct.close_logging]) := by
  refine ⟨by decide, by decide⟩

/-- The branch of the `switch` for `MAGIC_SYS_INIT`. -/
theorem dispatch_sys_init (C : Cfg) (hM : C.M.WellFormed) (env : SockEnv) (fd : Int)
    (rq : Request) (d : Daemon) (h : rq.magic = C.M.SYS_INIT) :
    dispatch C env fd rq d =
      ((sendAck fd d).bind fun d1 =>
        let d2 := if d1.nsigio = 0 then { d1 with acts := d1.acts ++ [Act.set_signal_ign SIGIO] }
                  else d1
        .ok { d2 with nsigio := SIGIO }, false) := by
  have n0 : C.M.SYS_INIT ≠ C.M.ASK_PWD := hM.label_ne 3 0 (by decide)
  have n1 : C.M.SYS_INIT ≠ C.M.CACHED_PWD := hM.label_ne 3 1 (by decide)
  have n2 : C.M.SYS_INIT ≠ C.M.CHROOT := hM.label_ne 3 2 (by decide)
  unfold dispatch
  rw [h, if_neg n0, if_neg n1, if_neg n2, if_pos rfl]

/-- A SYS_INIT request of a root peer stores `SIGIO` in `nsigio`, whether the signal was
delivered or not. -/
theorem socket_handler_sys_init (C : Cfg) (hM : C.M.WellFormed) (env : SockEnv) (fd : Int)
    (d d1 : Daemon) (rq : Request) (pid : Nat) (hfd : 0 < fd)
    (hrq : readRequest env d = some (some rq)) (hm : rq.magic = C.M.SYS_INIT)
    (hc : env.cred = CredRes.ok 0 pid) (hrun : socket_handler C env fd d = .ok d1) :
    d1.nsigio = SIGIO := by
  rw [socket_handler_root C env fd d rq pid (le_of_lt hfd) hrq hc,
    dispatch_sys_init C hM env fd rq d hm] at hrun
  simp only [Bool.false_eq_true, if_false] at hrun
  obtain ⟨x1, hx1, ho1⟩ := Res.bind_ok _ _ _ hrun
  obtain ⟨y1, -, hs1⟩ := Res.bind_ok _ _ _ hx1
  obtain ⟨-, hd1⟩ := sockOut_ok fd x1 d1 hfd ho1
  simp only [Res.ok.injEq] at hs1
  rw [hd1, ← hs1]

/-- C17 (amended). The deferred opening of the log file.  In a cycle of `safeIO` that
returns, `open` is called only if the log is not open yet (`log < 0`) and either `nsigio > 0`
at the start of the cycle (`/var/log` is not checked then) or no handler for `SIGIO` is
installed yet (`nsigio < 0`) and `/var/log` passes the readiness check of this cycle.
While the handler waits for its signal (`nsigio == 0`), and for `nsigio < 0` when the
readiness check fails, `open` is not called in the cycle and `log` stays as it
is.  And `log` becomes a descriptor only through a successful `open` of the cycle.
The positive value of `nsigio` is `SIGIO`: the signal handler `sigio` stores it when the
signal is delivered, and so does a SYS_INIT request of a root peer, without any signal. -/
theorem safeIO_deferred_open (C : Cfg) (env : LogEnv) (s s' : IOState)
    (h : safeIO C env s = .ok s') :
    (∃ new, s'.trace = s.trace ++ new ∧
      ((∃ old ok, LogAct.open_log old ok ∈ new) →
        s.log < 0 ∧ (0 < s.d.nsigio ∨ (s.d.nsigio < 0 ∧ env.varLogReady = true))) ∧
      (s.d.nsigio = 0 ∨ (s.d.nsigio < 0 ∧ env.varLogReady = false) →
        s'.log = s.log ∧ ∀ a ∈ new, ∀ old ok, a ≠ LogAct.open_log old ok) ∧
      (0 ≤ s'.log → s.log < 0 → ∃ old, LogAct.open_log old true ∈ new)) ∧
    0 < SIGIO ∧
    (∀ d : Daemon, (sigio SIGIO d).nsigio = SIGIO) ∧
    (∀ (senv : SockEnv) (fd : Int) (d d1 : Daemon) (rq : Request) (pid : Nat),
      C.M.WellFormed → 0 < fd → readRequest senv d = some (some rq) →
      rq.magic = C.M.SYS_INIT → senv.cred = CredRes.ok 0 pid →
      socket_handler C senv fd d = .ok d1 → d1.nsigio = SIGIO) := by
  refine ⟨?_, by decide, fun d => rfl, fun senv fd d d1 rq pid hM hfd hrq hm hc hrun =>
    socket_handler_sys_init C hM senv fd d d1 rq pid hfd hrq hm hc hrun⟩
  obtain ⟨s1, h1, p1, -, -, new2, p4, p5, -⟩ := safeIO_parts C env s s' h
  obtain ⟨new1, o1, o2, o3⟩ := safeIO_open_spec env s s1 h1
  have honly : (∃ old ok, LogAct.open_log old ok ∈ new1 ++ new2) →
      s.log < 0 ∧ (0 < s.d.nsigio ∨ (s.d.nsigio < 0 ∧ env.varLogReady = true)) := by
    rintro ⟨old, ok, hmem⟩
    rcases List.mem_append.1 hmem with hm | hm
    · exact o2 ⟨old, ok, hm⟩
    · exact absurd rfl (p5 _ hm old ok)
  refine ⟨new1 ++ new2, by rw [p4, o1]; simp, honly, ?_, ?_⟩
  · intro hq
    obtain ⟨q1, -, -, -⟩ := safeIO_open_quiet env s s1 (Or.inr hq) h1
    refine ⟨by rw [p1, q1], fun a ha old ok hc => ?_⟩
    subst hc
    obtain ⟨-, hsig⟩ := honly ⟨old, ok, ha⟩
    rcases hq with hq | ⟨hq1, hq2⟩
    · rcases hsig with hs | ⟨hs, -⟩
      all_goals omega
    · rcases hsig with hs | ⟨-, hs⟩
      · omega
      · rw [hq2] at hs
        cases hs
  · intro h0 hneg
    obtain ⟨old, hold⟩ := o3 (by rw [← p1]; exact h0) hneg
    exact ⟨old, List.mem_append_left _ hold⟩

/-- The example: the first cycle of a daemon that starts before `/var/log` exists leaves
the log closed.  And a run without any `SIGIO`: the daemon handles a SYS_INIT request of
root in its first cycle, which stores `SIGIO` in `nsigio`, and the second cycle opens the
log file although `/var/log` is on a tmpfs. -/
theorem safeIO_deferred_open_witness :
    (( safeIO Cfg.sample (LogEnv.early PollRes.eintr)
        (IOState.start (Daemon.idle Cfg.sample []))).toOption.getD
      (IOState.start (Daemon.idle Cfg.sample []))).log = -1 ∧
    (IOState.afterSysInit.toOption.map fun s => (s.d.nsigio, s.log, s.trace))
      = some (29, -1, [LogAct.sigio_handler]) ∧
    ((IOState.afterSysInit.bind
        ( safeIO Cfg.sample { LogEnv.sample PollRes.eintr with ramlike := true })).toOption.map
      fun s => (s.log, s.flog, s.trace.drop 1))
      = some (11, true, [LogAct.open_log false true, LogAct.open_logging, LogAct.sigio_ign,
          LogAct.dump_kmsg, LogAct.start_logging]) := by
  obtain ⟨⟨new, -, -, h3, -⟩, -⟩ := safeIO_deferred_open Cfg.sample (LogEnv.early PollRes.eintr)
    (IOState.start (Daemon.idle Cfg.sample []))
    (( safeIO Cfg.sample (LogEnv.early PollRes.eintr)
        (IOState.start (Daemon.idle Cfg.sample []))).toOption.getD
      (IOState.start (Daemon.idle Cfg.sample []))) rfl
  exact ⟨(h3 (Or.inr ⟨by decide, by decide⟩)).1, by decide, by decide⟩

/-- C17, the claim as it was stated fails in both directions.  In the first cycle of
a daemon that finds `/var/log` ready, the log file is opened although no `SIGIO` was
delivered (`nsigio` is -1 and `epoll_pwait` is not interrupted by `SIGIO`).  And after `SIGIO` was
delivered the log file is opened although `/var/log` is on a tmpfs: the readiness
check is not made. -/
theorem safeIO_opens_without_signal_or_check :
    (Daemon.idle Cfg.sample []).nsigio = -1 ∧
    (( safeIO Cfg.sample (LogEnv.sample PollRes.eintr)
        (IOState.start (Daemon.idle Cfg.sample []))).toOption.map
      fun s => (s.log, s.flog, s.trace))
      = some (11, true, [LogAct.open_log false true, LogAct.open_logging, LogAct.sigio_ign,
          LogAct.start_logging]) ∧
    { LogEnv.sample PollRes.eintr with ramlike := true }.varLogReady = false ∧
    ((cycles Cfg.sample
        [LogEnv.early PollRes.sigio, { LogEnv.sample PollRes.eintr with ramlike := true }]
        (IOState.start (Daemon.idle Cfg.sample []))).toOption.map
      fun s => (s.log, s.flog, s.trace.drop 1))
      = some (11, true, [LogAct.open_log false true, LogAct.open_logging, LogAct.sigio_ign,
          LogAct.dump_kmsg, LogAct.start_logging]) := by
  refine ⟨by decide, by decide, by decide, by decide⟩


/-! ## The retry loop of `new_root` -/

/-- The loop of `new_root` makes at most as many further calls of `chdir` as the test `c++ > 20` lets
rounds pass: 21 from the start. -/
theorem new_rootLoop_calls_le : ∀ (left : Nat) (r : RootRun),
    ( new_rootLoop left r).calls ≤ r.calls + left := by
  intro left
  induction left with
  | zero => intro r; simp [new_rootLoop, Res.calls]
  | succ left ih =>
    intro r
    unfold new_rootLoop
    rcases hs : r.script with _ | ⟨c, rest⟩
    · simp [Res.calls]
    · cases c with
      | ok =>
        simp only
        split_ifs
        · have := ih { r with script := rest, calls := r.calls + 1 }
          simp only at this
          omega
        · simp only [Res.calls]
          omega
      | err e =>
        simp only
        split_ifs
        · simp only [Res.calls]
          omega
        · have := ih { script := rest, errno := e, calls := r.calls + 1 }
          simp only at this
          omega

/-- A first `chdir` that succeeds while `errno` is neither `ENOENT` nor `EIO` ends the loop after one
call; a `chdir` that fails with another error than these two is fatal. -/
theorem new_rootLoop_first (left : Nat) (r : RootRun) (rest : List ChdirRes) :
    (r.script = ChdirRes.ok :: rest → r.errno ≠ Errno.ENOENT → r.errno ≠ Errno.EIO →
      new_rootLoop (left + 1) r = .ok { r with script := rest, calls := r.calls + 1 }) ∧
    (∀ e, r.script = ChdirRes.err e :: rest → e ≠ Errno.ENOENT → e ≠ Errno.EIO →
      new_rootLoop (left + 1) r = .fatal { script := rest, errno := e, calls := r.calls + 1 }) := by
  constructor
  · intro hs h1 h2
    unfold new_rootLoop
    rw [hs]
    simp only
    rw [if_neg (by simp [h1, h2])]
  · intro e hs h1 h2
    unfold new_rootLoop
    rw [hs]
    simp only
    rw [if_pos ⟨h1, h2⟩]

/-- C18. The retry loop of `new_root` after a failure.  The first `chdir` fails with `ENOENT`, every
later one succeeds, `errno` is 0 at the start: since a successful `chdir` leaves `errno` at
`ENOENT`, the loop goes on, makes 21 calls of `chdir` in all and ends in `error()`; `chroot(".")` is
never reached.  The same happens when the first `chdir` succeeds but `errno` was `ENOENT`
on entry. -/
theorem new_root_retries_after_success :
    new_rootLoop 21 { script := ChdirRes.err Errno.ENOENT :: List.replicate 30 ChdirRes.ok,
                      errno := Errno.none, calls := 0 }
      = .fatal { script := List.replicate 10 ChdirRes.ok, errno := Errno.ENOENT, calls := 21 } ∧
    new_rootLoop 21 { script := List.replicate 30 ChdirRes.ok, errno := Errno.ENOENT, calls := 0 }
      = .fatal { script := List.replicate 9 ChdirRes.ok, errno := Errno.ENOENT, calls := 21 } ∧
    (( new_root { chdirs := ChdirRes.err Errno.ENOENT :: List.replicate 30 ChdirRes.ok,
                  chrootOk := true, chdirRootOk := true }
        (some (str "/sysroot")) (Daemon.idle Cfg.sample [])).toFatal.map fun d => d.acts)
      = some (List.replicate 21 (Act.chdir (some (str "/sysroot")))) := by
  refine ⟨by decide, by decide, by decide⟩

/-! ## Silence while a password is asked for or a console is blocked -/

/-- The writability probes make no `write`: the script of the coming `write` results and
the bytes sent are as before. -/
theorem probeLoop_out (env : ConsEnv) (cs : List Console) :
    ∀ d d1 : Daemon, probeLoop env cs d = .ok d1 →
      d1.out.script = d.out.script ∧ d1.out.sent = d.out.sent := by
  induction cs with
  | nil => intro d d1 h; simp only [probeLoop] at h; cases h; exact ⟨rfl, rfl⟩
  | cons c cs ih =>
    intro d d1 h
    simp only [probeLoop] at h
    split_ifs at h with h1 h2 h3
    · exact ih _ _ h
    · cases h; exact ⟨rfl, rfl⟩
    · exact ih _ _ h
    · split at h
      · rename_i d2 hre
        obtain ⟨k, rfl⟩ := epoll_reenable_frame _ _ _ hre
        have hh := ih _ _ h
        exact hh
      · rename_i r hne
        rw [h] at hne
        exact absurd rfl (hne d1)

/-- C19. Silence while asking or blocked.  The capture handler has read a chunk and
the writability probes have returned with the state `d1`.  If `asking` is set or a
console is in `blocked` then, the handler returns without a `write` to any console:
nothing more is sent and no `write` result is used up.  All it does after the
probes is to append the chunk to the temporary buffer if it fits and to flush
the log. -/
theorem epoll_console_in_silent (C : Cfg) (hT : 0 < C.TRANS_BUFFER_SIZE) (env : ConsEnv)
    (fuel : Nat) (d d1 : Daemon) (hav : env.inp.avail ≠ [])
    (hprobe : probeLoop env d.cons
      { d with acts := d.acts ++ [Act.parselog (env.inp.avail.take C.TRANS_BUFFER_SIZE)] }
        = .ok d1)
    (hsilent : d1.asking ≠ 0 ∨ d1.out.blocked ≠ []) :
    epoll_console_in C env fuel d
      = .ok { d1 with temp := d1.temp.appendIfRoom (env.inp.avail.take C.TRANS_BUFFER_SIZE),
                      acts := d1.acts ++ [Act.flushlog] } ∧
    d1.out.sent = d.out.sent ∧ d1.out.script = d.out.script ∧ d1.temp = d.temp ∧
    (d1.temp.Inv → d1.temp.tend < 2 ^ 63 →
      ((env.inp.avail.take C.TRANS_BUFFER_SIZE).length ≤ d1.temp.tend - d1.temp.ttail →
        d1.temp.appendIfRoom (env.inp.avail.take C.TRANS_BUFFER_SIZE)
          = d1.temp.append (env.inp.avail.take C.TRANS_BUFFER_SIZE)) ∧
      (d1.temp.tend - d1.temp.ttail < (env.inp.avail.take C.TRANS_BUFFER_SIZE).length →
        d1.temp.appendIfRoom (env.inp.avail.take C.TRANS_BUFFER_SIZE) = d1.temp)) := by
  obtain ⟨hscript, hsent⟩ := probeLoop_out env _ _ _ hprobe
  obtain ⟨-, htemp⟩ := probeLoop_frame env _ _ _ hprobe
  refine ⟨?_, hsent, hscript, htemp, fun hinv hend => Temp.appendIfRoom_eq _ _ hinv hend⟩
  unfold epoll_console_in
  simp only
  rcases hl : env.inp.avail with _ | ⟨b, bs⟩
  · exact absurd hl hav
  · have hpos : ¬ ((min (bs.length + 1) C.TRANS_BUFFER_SIZE : Nat) : Int) ≤ 0 := by omega
    have htake : (b :: bs).take (min (bs.length + 1) C.TRANS_BUFFER_SIZE) =
        (b :: bs).take C.TRANS_BUFFER_SIZE := by
      rcases Nat.le_total (bs.length + 1) C.TRANS_BUFFER_SIZE with h | h
      · rw [Nat.min_eq_left h, List.take_of_length_le (by simp),
          List.take_of_length_le (by simpa using h)]
      · rw [Nat.min_eq_right h]
    rw [hl] at hprobe
    simp only [safein, hl, hpos, if_false, htake, hprobe, Res.bind]
    rw [if_pos hsilent]
    rfl

/-- The example: the console on descriptor 5 is in `blocked` when a chunk of one byte
arrives. -/
theorem epoll_console_in_silent_witness :
    (( epoll_console_in Cfg.sample ConsEnv.oneByte 1
        { Daemon.twoBuffered [] with
          out := { (Daemon.twoBuffered []).out with blocked := [5] } }).toOption.map
      fun d => (d.out.sent, d.temp.ttail, d.temp.tavail)) = some ([], 4099, 3) := by
  have h := epoll_console_in_silent Cfg.sample (by decide) ConsEnv.oneByte 1
    { Daemon.twoBuffered [] with out := { (Daemon.twoBuffered []).out with blocked := [5] } }
    { Daemon.twoBuffered [] with
      out := { (Daemon.twoBuffered []).out with blocked := [5] },
      acts := [Act.parselog [65]] }
    (by decide) rfl (Or.inr (by decide))
  rw [h.1]
  decide

/-! ## The drain of the temporary buffer -/

/-- A step of the drain with a count `len` from 1 to `tavail`, on a buffer at rest, takes
exactly `len` bytes off the front: `tavail` is smaller by `len`, and the bytes that stay
are the old ones behind the first `len`. -/
theorem Temp.advance_content (t : Temp) (len : Nat) (hinv : t.AtRest) (hend : t.tend < 2 ^ 63)
    (h1 : 1 ≤ len) (h2 : (len : Int) ≤ t.tavail) :
    (t.advance len).1.tavail = t.tavail - len ∧
    (((t.advance len).1.bytesAt (t.advance len).1.thead).take (t.tavail - len).toNat
      = ((t.bytesAt t.thead).drop len).take (t.tavail - len).toNat) := by
  obtain ⟨⟨i1, i2, i3, i4⟩, i5⟩ := hinv
  have hW : (2 : Nat) ^ 63 < WORD := by simp only [WORD]; omega
  have hmod : (t.thead + len) % WORD = t.thead + len := Nat.mod_eq_of_lt (by omega)
  unfold Temp.advance
  simp only [hmod]
  by_cases hc : t.ttail ≤ t.thead + len
  · rw [if_pos hc]
    have hz : (t.tavail - (len : Int)).toNat = 0 := by omega
    simp only [hz, List.take_zero, and_true]
    omega
  · rw [if_neg hc, if_pos (by omega)]
    rw [i5] at hc i2 i4 ⊢
    have hpd : ptrdiff t.ttail (t.base + len) = (t.ttail : Int) - ((t.base + len : Nat) : Int) :=
      ptrdiff_of_le _ _ (by omega) (by omega)
    have hn : (ptrdiff t.ttail (t.base + len)).toNat = t.ttail - (t.base + len) := by
      rw [hpd]; omega
    have hk : (t.tavail - (len : Int)).toNat = t.ttail - (t.base + len) := by omega
    simp only [Temp.tend] at i3
    refine ⟨by rw [hpd, i4]; push_cast; omega, ?_⟩
    simp only [Temp.bytesAt, hn, hk, le_refl, if_true, Nat.sub_self, List.drop_zero,
      Nat.add_sub_cancel_left]
    rw [List.take_append_of_le_length (by
      simp only [List.length_take, List.length_drop]
      omega)]
    rw [List.take_take, Nat.min_self]

/-- C20. The drain step after `EAGAIN`.  Two bytes wait in the temporary buffer and the
first `write` to the only console fails with `EAGAIN`, so the console accepts no byte
and `copyout` returns -1.  The loop over the consoles does not leave with
`goto flush`: it ends with `len == SIZE_MAX`; the step that follows moves `thead` from `temp` to
`temp - 1` and does not end the drain loop; the drain stops only one round
later (here on `EPIPE`), with `thead` below `temp` and nothing sent. -/
theorem drain_advances_after_eagain :
    ((drainSinks (Daemon.twoBuffered [.eagain false]).cons 2
        (Daemon.twoBuffered [.eagain false])).toOption.map fun r => r.2)
      = some (some (2 ^ 64 - 1)) ∧
    (Daemon.twoBuffered [.eagain false]).temp.advance (2 ^ 64 - 1)
      = ({ (Daemon.twoBuffered [.eagain false]).temp with thead := 4095 }, false) ∧
    ((drainLoop Cfg.sample 2 (Daemon.twoBuffered [.eagain false, .epipe])).toOption.map
      fun r => (r.2, r.1.temp.thead, r.1.temp.ttail, r.1.temp.tavail, sentOn 5 r.1.out.sent))
      = some (true, 4095, 4098, 2, []) := by
  refine ⟨by decide, by decide, by decide⟩


/-! ## The fan-out of the fresh chunk -/

/-- The bytes `copyout` has written when it returns: with the count `r` on entry and the
return value `r'`, the first `r' - r` bytes of the buffer went to `fd` (none when it returns -1,
which it does only with `r == 0`). -/
theorem copyoutLoop_sent (fd : Int) (max : Int) (script : List WriteRes) :
    ∀ (buf : List Nat) (s : Nat) (r : Int) (o o' : Out) (r' : Int),
      1 ≤ s → s ≤ buf.length → 0 ≤ r →
      copyoutLoop fd max script buf s r o = some (o', r') →
      (r' = -1 → r = 0) ∧ (r' ≠ -1 → r ≤ r' ∧ r' ≤ r + s) ∧
      sentOn fd o'.sent
        = sentOn fd o.sent ++ buf.take (if r' = -1 then 0 else (r' - r).toNat) := by
  induction script with
  | nil => intro buf s r o o' r' _ _ _ h; simp only [copyoutLoop] at h; cases h
  | cons w rest ih =>
    intro buf s r o o' r' hs hlen hr h
    have hsame : (-1 : Int) = -1 → r = 0 → True := fun _ _ => trivial
    cases w with
    | ok p =>
      simp only [copyoutLoop] at h
      have hn : min p (chunkLen s max) ≤ s := le_trans (Nat.min_le_right _ _) (chunkLen_le s max hs)
      generalize hnn : min p (chunkLen s max) = n at h hn
      split_ifs at h with hc
      · have hh := ih (buf.drop n) (s - n) (r + n) _ o' r' (by omega)
          (by rw [List.length_drop]; omega) (by omega) h
        obtain ⟨a1, a2, a3⟩ := hh
        refine ⟨fun h1 => by have := a1 h1; omega, fun h1 => by have := a2 h1; omega, ?_⟩
        rw [a3]
        simp only
        rw [sentOn_append_same, List.append_assoc]
        congr 1
        by_cases h1 : r' = -1
        · have h0 := a1 h1
          have hn0 : n = 0 := by omega
          simp [h1, hn0]
        · obtain ⟨b1, b2⟩ := a2 h1
          simp only [h1, if_false]
          have hsplit : (r' - r).toNat = n + (r' - (r + (n : Int))).toNat := by omega
          rw [hsplit, List.take_add]
      · simp only [Option.some.injEq, Prod.mk.injEq] at h
        obtain ⟨rfl, rfl⟩ := h
        refine ⟨fun h1 => by omega, fun _ => ⟨by omega, by omega⟩, ?_⟩
        simp only
        rw [sentOn_append_same, if_neg (by omega)]
        congr 2
        omega
    | epipe =>
      simp only [copyoutLoop, Option.some.injEq, Prod.mk.injEq] at h
      obtain ⟨rfl, rfl⟩ := h
      refine ⟨fun h1 => by omega, fun _ => ⟨le_refl _, by omega⟩, ?_⟩
      simp
    | eintr =>
      simp only [copyoutLoop] at h
      rw [if_pos (by omega)] at h
      have hh := ih buf s r _ o' r' hs hlen hr h
      exact hh
    | eagain b =>
      simp only [copyoutLoop, Option.some.injEq, Prod.mk.injEq] at h
      obtain ⟨rfl, rfl⟩ := h
      by_cases h0 : r = 0
      · simp [h0]
      · refine ⟨fun h1 => ?_, fun _ => ?_, ?_⟩
        · rw [if_neg h0] at h1; omega
        · rw [if_neg h0]; exact ⟨le_refl _, by omega⟩
        · simp [h0]
    | eio rc =>
      simp only [copyoutLoop] at h
      split_ifs at h
      · simp only [Option.some.injEq, Prod.mk.injEq] at h
        obtain ⟨rfl, rfl⟩ := h
        refine ⟨fun h1 => by omega, fun _ => ⟨le_refl _, by omega⟩, ?_⟩
        simp
      · simp only [Option.some.injEq, Prod.mk.injEq] at h
        obtain ⟨rfl, rfl⟩ := h
        refine ⟨fun h1 => by omega, fun _ => ⟨le_refl _, by omega⟩, ?_⟩
        simp
      · have hh := ih buf s r _ o' r' hs hlen hr h
        exact hh
      · omega
    | other =>
      simp only [copyoutLoop, Option.some.injEq, Prod.mk.injEq] at h
      obtain ⟨rfl, rfl⟩ := h
      refine ⟨fun h1 => by omega, fun _ => ⟨le_refl _, by omega⟩, ?_⟩
      simp

/-- The value -1 as a `size_t` is not below 1. -/
theorem toSizeT_minus_one : ¬ toSizeT (-1) < 1 := by
  simp [toSizeT, WORD]

/-- The bytes sent on another descriptor do not change with a `write` on `fd`. -/
theorem sentOn_append_other (fd fd1 : Int) (sent : List (Int × List Nat)) (b : List Nat)
    (hne : fd1 ≠ fd) : sentOn fd1 (sent ++ [(fd, b)]) = sentOn fd1 sent := by
  have h : (fd == fd1) = false := by simpa using fun h => hne h.symm
  simp [sentOn, List.filter_append, h]

/-- The function `copyout` writes on `fd` only. -/
theorem copyoutLoop_sent_other (fd fd1 : Int) (hne : fd1 ≠ fd) (max : Int)
    (script : List WriteRes) :
    ∀ (buf : List Nat) (s : Nat) (r : Int) (o o' : Out) (r' : Int),
      copyoutLoop fd max script buf s r o = some (o', r') →
      sentOn fd1 o'.sent = sentOn fd1 o.sent := by
  induction script with
  | nil => intro buf s r o o' r' h; simp only [copyoutLoop] at h; cases h
  | cons w rest ih =>
    intro buf s r o o' r' h
    cases w with
    | ok p =>
      simp only [copyoutLoop] at h
      split_ifs at h with hc
      · have hh := ih _ _ _ _ o' r' h
        rw [hh]
        exact sentOn_append_other fd fd1 _ _ hne
      · simp only [Option.some.injEq, Prod.mk.injEq] at h
        obtain ⟨rfl, rfl⟩ := h
        exact sentOn_append_other fd fd1 _ _ hne
    | epipe =>
      simp only [copyoutLoop, Option.some.injEq, Prod.mk.injEq] at h
      obtain ⟨rfl, rfl⟩ := h
      rfl
    | eintr =>
      simp only [copyoutLoop] at h
      split_ifs at h
      · have hh := ih _ _ _ _ o' r' h
        exact hh
      · simp only [Option.some.injEq, Prod.mk.injEq] at h
        obtain ⟨rfl, rfl⟩ := h
        rfl
    | eagain b =>
      simp only [copyoutLoop, Option.some.injEq, Prod.mk.injEq] at h
      obtain ⟨rfl, rfl⟩ := h
      rfl
    | eio rc =>
      simp only [copyoutLoop] at h
      split_ifs at h
      · simp only [Option.some.injEq, Prod.mk.injEq] at h
        obtain ⟨rfl, rfl⟩ := h
        rfl
      · simp only [Option.some.injEq, Prod.mk.injEq] at h
        obtain ⟨rfl, rfl⟩ := h
        rfl
      · have hh := ih _ _ _ _ o' r' h
        exact hh
      · simp only [Option.some.injEq, Prod.mk.injEq] at h
        obtain ⟨rfl, rfl⟩ := h
        rfl
    | other =>
      simp only [copyoutLoop, Option.some.injEq, Prod.mk.injEq] at h
      obtain ⟨rfl, rfl⟩ := h
      rfl

/-- A call of `copyout` that returns changes nothing in the daemon but the
output state and the kernel's poll set. -/
theorem copyout_frame (fd : Int) (buf : List Nat) (s : Nat) (max : Int) (d d1 : Daemon) (r : Int)
    (h : copyout fd buf s max d = .ok (d1, r)) :
    ∃ o k, d1 = { d with out := o, kset := k } ∧
      copyoutLoop fd max d.out.script buf s 0 d.out = some (o, r) := by
  unfold copyout at h
  split at h
  · cases h
  · rename_i o r0 hloop
    split_ifs at h
    · split at h
      · rename_i d2 hre
        simp only [Res.ok.injEq, Prod.mk.injEq] at h
        obtain ⟨rfl, rfl⟩ := h
        obtain ⟨k, hk⟩ := epoll_reenable_frame _ _ _ hre
        exact ⟨o, k, hk, hloop⟩
      · cases h
      · cases h
      · cases h
    · simp only [Res.ok.injEq, Prod.mk.injEq] at h
      obtain ⟨rfl, rfl⟩ := h
      exact ⟨o, d.kset, rfl, hloop⟩

/-- What a returning `copyout (fd, buf, s, max)` has done, for `1 <= s`: it returns a count `r` from
-1 to `s`, the first `r` bytes of the buffer went to `fd` (none for -1), no other descriptor got
a byte, and the temporary buffer, the consoles and the trace are as before. -/
theorem copyout_sent (fd : Int) (buf : List Nat) (s : Nat) (max : Int) (d d1 : Daemon) (r : Int)
    (hs : 1 ≤ s) (hlen : s ≤ buf.length) (h : copyout fd buf s max d = .ok (d1, r)) :
    -1 ≤ r ∧ r ≤ s ∧
    sentOn fd d1.out.sent = sentOn fd d.out.sent ++ buf.take r.toNat ∧
    (∀ fd1, fd1 ≠ fd → sentOn fd1 d1.out.sent = sentOn fd1 d.out.sent) ∧
    d1.temp = d.temp ∧ d1.cons = d.cons ∧ d1.acts = d.acts ∧ d1.asking = d.asking := by
  obtain ⟨o, k, rfl, hloop⟩ := copyout_frame fd buf s max d d1 r h
  obtain ⟨a1, a2, a3⟩ := copyoutLoop_sent fd max _ _ _ _ _ _ _ hs hlen (le_refl _) hloop
  refine ⟨?_, ?_, ?_, fun fd1 hne => copyoutLoop_sent_other fd fd1 hne max _ _ _ _ _ _ _ hloop,
    rfl, rfl, rfl, rfl⟩
  · by_cases h1 : r = -1
    · omega
    · have := a2 h1; omega
  · by_cases h1 : r = -1
    · omega
    · have := a2 h1; omega
  · simp only
    rw [a3]
    by_cases h1 : r = -1
    · simp [h1]
    · simp [h1]

/-- The last loop of the capture handler leaves the temporary buffer as it was or
appends the whole fresh chunk to it (when it fits); it never stores a part of the chunk. -/
theorem fanOut_temp (chunk : List Nat) (cs : List Console) :
    ∀ (d d' : Daemon), fanOut chunk cs d = .ok d' →
      d'.temp = d.temp ∨ d'.temp = d.temp.appendIfRoom chunk := by
  induction cs with
  | nil =>
    intro d d' h
    simp only [fanOut, Res.ok.injEq] at h
    subst h
    exact Or.inl rfl
  | cons c cs ih =>
    intro d d' h
    simp only [fanOut] at h
    split_ifs at h with hfd
    · exact ih _ _ h
    · split at h
      · rename_i d1 r hco
        obtain ⟨o, k, rfl, -⟩ := copyout_frame _ _ _ _ _ _ _ hco
        split_ifs at h with hlt
        · simp only [Res.ok.injEq] at h
          subst h
          exact Or.inr rfl
        · have hh := ih { d with out := o, kset := k, acts := d.acts ++ [Act.tcdrain c.fd] } d' h
          exact hh
      · cases h
      · cases h
      · cases h

/-- For a count from 0 to the chunk length, `ret < 1` on the `size_t` means `ret == 0`. -/
theorem toSizeT_lt_one_iff (k : Int) (h0 : 0 ≤ k) (h1 : k < 2 ^ 63) : toSizeT k < 1 ↔ k = 0 := by
  rw [toSizeT_of_nonneg k h0 h1]
  omega

/-- C21 (amended). The fresh chunk is written to the first usable sink `c` with
`copyout`, which returns the number `k` of bytes the sink accepted (here `0 <= k`; the
first `k` bytes of the chunk went to the sink).  When `k == 0` the whole chunk is appended to
the temporary buffer, if it fits, and the loop ends.  When `1 <= k` nothing is appended for
this sink, also when `k` is below the chunk length: the loop goes on to the next sink with the
temporary buffer as it was, and the undelivered tail is stored nowhere.  At the end of the loop
the buffer is as before or holds the whole chunk in addition, never a part of it. -/
theorem fanOut_buffers_whole_chunk (chunk : List Nat) (c : Console) (cs : List Console)
    (d d1 : Daemon) (k : Int) (hchunk : 1 ≤ chunk.length) (hmax : chunk.length < 2 ^ 63)
    (hfd : 0 ≤ c.fd) (hk : 0 ≤ k)
    (hco : copyout c.fd chunk chunk.length c.max_canon d = .ok (d1, k)) :
    k ≤ chunk.length ∧
    sentOn c.fd d1.out.sent = sentOn c.fd d.out.sent ++ chunk.take k.toNat ∧
    (k = 0 → fanOut chunk (c :: cs) d = .ok { d1 with temp := d.temp.appendIfRoom chunk }) ∧
    (1 ≤ k → d1.temp = d.temp ∧
      fanOut chunk (c :: cs) d
        = fanOut chunk cs { d1 with acts := d1.acts ++ [Act.tcdrain c.fd] }) ∧
    (∀ d2, fanOut chunk (c :: cs) d = .ok d2 →
      d2.temp = d.temp ∨ d2.temp = d.temp.appendIfRoom chunk) := by
  obtain ⟨-, a2, a3, -, a5, -, -, -⟩ := copyout_sent _ _ _ _ _ _ _ hchunk (le_refl _) hco
  have hiff := toSizeT_lt_one_iff k hk (by omega)
  refine ⟨a2, a3, fun h0 => ?_, fun h1 => ⟨a5, ?_⟩, fun d2 h => fanOut_temp chunk _ d d2 h⟩
  · simp only [fanOut]
    rw [if_neg (by omega), hco]
    simp only
    rw [if_pos (hiff.2 h0), a5]
  · simp only [fanOut]
    rw [if_neg (by omega), hco]
    simp only
    rw [if_neg (by rw [hiff]; omega)]

/-- The example: a chunk of two bytes, one console; the first `write` takes one byte and the
second fails with `EPIPE`, so `copyout` returns 1. -/
theorem fanOut_buffers_whole_chunk_witness :
    (copyout 5 [65, 66] 2 255 (Daemon.oneConsole [.ok 1, .epipe])).toOption.map
        (fun r => (r.2, sentOn 5 r.1.out.sent)) = some (1, [65]) ∧
    ((fanOut [65, 66] (Daemon.oneConsole []).cons
        (Daemon.oneConsole [.ok 1, .epipe])).toOption.map fun d => d.temp)
      = some (Daemon.oneConsole []).temp := by
  have h := fanOut_buffers_whole_chunk [65, 66]
    { fd := 5, consdev := true, max_canon := 255, pid := -1 } []
    (Daemon.oneConsole [.ok 1, .epipe])
    ((copyout 5 [65, 66] 2 255 (Daemon.oneConsole [.ok 1, .epipe])).toOption.getD
      (Daemon.idle Cfg.sample [], 0)).1 1
    (by decide) (by decide) (by decide) (by decide) rfl
  refine ⟨by decide, ?_⟩
  have h2 := (h.2.2.2.1 (by decide)).2
  have hc : (Daemon.oneConsole []).cons
      = [{ fd := 5, consdev := true, max_canon := 255, pid := -1 }] := rfl
  rw [hc, h2]
  decide

/-- C21, the counterexample. The capture handler reads the two bytes `AB`; the only
console takes `A` and then fails with `EPIPE`.  The byte `B` is not sent and not stored: the
temporary buffer is as empty as before. -/
theorem fanOut_drops_undelivered_tail :
    ((epoll_console_in Cfg.sample ConsEnv.twoBytes 4
        (Daemon.oneConsole [.ok 1, .epipe])).toOption.map
      fun d => (sentOn 5 d.out.sent, d.out.script, d.temp))
      = some ([65], [], Temp.init 4096 16) := by
  decide

/-- C22 (amended). The last loop of the capture handler takes the sinks in list
order.  A sink with a negative descriptor is skipped.  For a usable sink `c` the chunk is
written with `copyout`, which returns a count `k` (here `0 <= k`): with `1 <= k` the
loop goes on behind `c`, from the state that write left, also when `k` is below the chunk
length; with `k == 0` the loop ends at `c`: no sink behind `c` is written in this call (no
`write` is made any more, no descriptor gets a byte), and the chunk is appended to the
temporary buffer when it fits there.  Nothing is said here about later calls of the
handler. -/
theorem fanOut_stops_at_failed_sink (chunk : List Nat) (c : Console) (cs : List Console)
    (d d1 : Daemon) (k : Int) (hchunk : 1 ≤ chunk.length) (hmax : chunk.length < 2 ^ 63)
    (hfd : 0 ≤ c.fd) (hk : 0 ≤ k)
    (hco : copyout c.fd chunk chunk.length c.max_canon d = .ok (d1, k)) :
    (∀ (c0 : Console) (d0 : Daemon), c0.fd < 0 →
      fanOut chunk (c0 :: c :: cs) d0 = fanOut chunk (c :: cs) d0) ∧
    (1 ≤ k → fanOut chunk (c :: cs) d
        = fanOut chunk cs { d1 with acts := d1.acts ++ [Act.tcdrain c.fd] }) ∧
    (k = 0 → ∃ d2, fanOut chunk (c :: cs) d = .ok d2 ∧ d2.out = d1.out ∧ d2.acts = d.acts ∧
      d2.temp = d.temp.appendIfRoom chunk ∧
      ∀ fd1, sentOn fd1 d2.out.sent = sentOn fd1 d.out.sent) := by
  obtain ⟨-, a2, a3, a4, a5, -, a7, -⟩ := copyout_sent _ _ _ _ _ _ _ hchunk (le_refl _) hco
  have hiff := toSizeT_lt_one_iff k hk (by omega)
  refine ⟨fun c0 d0 h0 => ?_, fun h1 => ?_, fun h0 => ?_⟩
  · rw [fanOut, if_pos h0]
  · simp only [fanOut]
    rw [if_neg (by omega), hco]
    simp only
    rw [if_neg (by rw [hiff]; omega)]
  · refine ⟨{ d1 with temp := d1.temp.appendIfRoom chunk }, ?_, rfl, a7, ?_, fun fd1 => ?_⟩
    · simp only [fanOut]
      rw [if_neg (by omega), hco]
      simp only
      rw [if_pos (hiff.2 h0)]
    · simp only
      rw [a5]
    · by_cases hne : fd1 = c.fd
      · subst hne
        simp only
        rw [a3, h0]
        simp
      · exact a4 fd1 hne

/-- The example: two consoles, on the descriptors 5 and 6; the `write` to the first fails with
`EPIPE` before a byte is taken, and the `write` result that waits for the second is
never used. -/
theorem fanOut_stops_at_failed_sink_witness :
    (copyout 5 [65, 66] 2 255 (Daemon.twoConsoles [.epipe, .ok 2])).toOption.map
        (fun r => r.2) = some 0 ∧
    ∃ d2, fanOut [65, 66] (Daemon.twoConsoles []).cons (Daemon.twoConsoles [.epipe, .ok 2])
        = .ok d2 ∧
      d2.out.script = [.ok 2] ∧ d2.acts = [] ∧ sentOn 6 d2.out.sent = [] ∧
      d2.temp = (Temp.init 4096 16).append [65, 66] := by
  have h := fanOut_stops_at_failed_sink [65, 66]
    { fd := 5, consdev := true, max_canon := 255, pid := -1 }
    [{ fd := 6, consdev := false, max_canon := 255, pid := -1 }]
    (Daemon.twoConsoles [.epipe, .ok 2])
    ((copyout 5 [65, 66] 2 255 (Daemon.twoConsoles [.epipe, .ok 2])).toOption.getD
      (Daemon.idle Cfg.sample [], 0)).1 0
    (by decide) (by decide) (by decide) (by decide) rfl
  obtain ⟨d2, e1, e2, e3, e4, e5⟩ := h.2.2 rfl
  refine ⟨by decide, d2, e1, ?_, ?_, ?_, ?_⟩
  · rw [e2]; rfl
  · rw [e3]; rfl
  · rw [e5 6]; rfl
  · rw [e4]; decide

/-- C22, the counterexample. The capture handler reads the two bytes `AB` with two usable
consoles, on the descriptors 5 and 6.  The `write` to the first console fails with `EPIPE`; the
second console, which would take both bytes, is not written in this call: nothing is sent
on descriptor 6, its `write` result is still unused, and the chunk waits in the temporary
buffer. -/
theorem fanOut_skips_sinks_behind_failure :
    ((epoll_console_in Cfg.sample ConsEnv.twoBytes 4
        (Daemon.twoConsoles [.epipe, .ok 2])).toOption.map
      fun d => (sentOn 5 d.out.sent, sentOn 6 d.out.sent, d.out.script, d.acts, d.temp.tavail))
      = some ([], [], [.ok 2], [Act.parselog [65, 66], Act.flushlog], 2) := by
  decide


/-! ## The return value of `more_input` -/

/-- The loop of `more_input` over `evlist`: either no entry of the list is registered, and then
nothing changes, or some entry is registered and `ret` ends as 1. -/
theorem more_inputLoop_ret (C : Cfg) (evs : List Ready) :
    ∀ (d : Daemon) (ret : Int) (d1 : Daemon) (ret1 : Int),
      more_inputLoop C evs (d, ret) = .ok (d1, ret1) →
      ((∀ r ∈ evs, epoll_handle r.ptr d = Option.none) ∧ d1 = d ∧ ret1 = ret) ∨
      ((∃ r ∈ evs, (epoll_handle r.ptr d).isSome = true) ∧ ret1 = 1) := by
  induction evs with
  | nil =>
    intro d ret d1 ret1 h
    simp only [more_inputLoop, Res.ok.injEq, Prod.mk.injEq] at h
    exact Or.inl ⟨fun r hr => absurd hr (List.not_mem_nil r), h.1.symm, h.2.symm⟩
  | cons r rest ih =>
    intro d ret d1 ret1 h
    have hone : ∀ d2 : Daemon, more_inputLoop C rest (d2, 1) = .ok (d1, ret1) → ret1 = 1 := by
      intro d2 h2
      rcases ih d2 1 d1 ret1 h2 with ⟨-, -, e⟩ | ⟨-, e⟩
      · exact e
      · exact e
    rcases hh : epoll_handle r.ptr d with _ | ⟨hd, fd⟩
    · simp only [more_inputLoop, hh] at h
      rcases ih d ret d1 ret1 h with ⟨a1, a2, a3⟩ | ⟨⟨r1, m1, s1⟩, a2⟩
      · refine Or.inl ⟨fun r1 hr1 => ?_, a2, a3⟩
        rcases List.mem_cons.1 hr1 with e | e
        · rw [e]; exact hh
        · exact a1 r1 e
      · exact Or.inr ⟨⟨r1, List.mem_cons_of_mem _ m1, s1⟩, a2⟩
    · have hreg : ∃ r1 ∈ r :: rest, (epoll_handle r1.ptr d).isSome = true :=
        ⟨r, List.mem_cons_self _ _, by rw [hh]; rfl⟩
      refine Or.inr ⟨hreg, ?_⟩
      simp only [more_inputLoop, hh] at h
      split_ifs at h
      · split at h
        · exact hone _ h
        · cases h
        · cases h
        · cases h
      · exact hone _ h
      · exact hone _ h
      · exact hone _ h

/-- C23 (amended). The return value of `more_input`.  An interrupted wait
(`EINTR`) gives 1, whether the signal was `SIGIO` or not, and no handler of the registry is
called.  After a wait that returned events, the value is 0 or 1, and it is 1 exactly when
one of the events belongs to a registered entry: `ret = 1` is set before the event bits are
looked at.  So events of unregistered entries alone give 0 and change nothing, and one event
of a registered entry without `EPOLLIN` and `EPOLLOUT` gives 1 although its handler is not
called; `EPOLLHUP`, `EPOLLRDHUP` and `EPOLLERR` are only logged. -/
theorem more_input_return_value (C : Cfg) (noerr : Bool) (d : Daemon) :
    more_input C PollRes.eintr noerr d = .ok (d, 1) ∧
    more_input C PollRes.sigio noerr d = .ok (sigio SIGIO d, 1) ∧
    (∀ evs d1 ret, more_input C (PollRes.ready evs) noerr d = .ok (d1, ret) →
      (ret = 0 ∨ ret = 1) ∧
      (ret = 1 ↔ ∃ r ∈ evs, (epoll_handle r.ptr d).isSome = true)) ∧
    (∀ evs, (∀ r ∈ evs, epoll_handle r.ptr d = Option.none) →
      more_input C (PollRes.ready evs) noerr d = .ok ({ d with safein_noexit := false }, 0)) ∧
    (∀ (r : Ready) (h : Handler) (fd : Int), epoll_handle r.ptr d = some (h, fd) →
      r.inout = false →
      more_input C (PollRes.ready [r]) noerr d
        = .ok ({ d with acts := d.acts ++ (if r.hup || r.err then [Act.warn] else []),
                        safein_noexit := false }, 1)) := by
  refine ⟨rfl, rfl, fun evs d1 ret h => ?_, fun evs hnone => ?_, fun r hd fd hreg hio => ?_⟩
  · simp only [more_input] at h
    split at h
    · rename_i d2 ret2 hloop
      simp only [Res.ok.injEq, Prod.mk.injEq] at h
      obtain ⟨-, rfl⟩ := h
      rcases more_inputLoop_ret C evs _ 0 d2 ret2 hloop with ⟨a1, -, a3⟩ | ⟨a1, a2⟩
      · refine ⟨Or.inl a3, ⟨fun h1 => by omega, fun ⟨r, m, s⟩ => ?_⟩⟩
        have hn : epoll_handle r.ptr d = Option.none := a1 r m
        rw [hn] at s
        cases s
      · exact ⟨Or.inr a2, ⟨fun _ => a1, fun _ => a2⟩⟩
    · rename_i hne
      exact absurd h (by
        intro h2
        exact hne d1 ret h2)
  · have hloop : ∀ (l : List Ready) (d0 : Daemon) (ret0 : Int),
        (∀ r ∈ l, epoll_handle r.ptr d0 = Option.none) →
        more_inputLoop C l (d0, ret0) = .ok (d0, ret0) := by
      intro l
      induction l with
      | nil => intro d0 ret0 _; rfl
      | cons r rest ih =>
        intro d0 ret0 hl
        simp only [more_inputLoop, hl r (List.mem_cons_self _ _)]
        exact ih d0 ret0 fun r1 m1 => hl r1 (List.mem_cons_of_mem _ m1)
    simp only [more_input]
    rw [hloop evs { d with errno := Errno.none, safein_noexit := noerr } 0 hnone]
  · have hreg1 : epoll_handle r.ptr { d with errno := Errno.none, safein_noexit := noerr }
        = some (hd, fd) := hreg
    simp only [more_input, more_inputLoop, hreg1, hio]
    cases r.hup <;> cases r.err <;> simp

/-- The example: the only event is `EPOLLHUP` on the registered console. -/
theorem more_input_return_value_witness :
    more_input Cfg.sample (PollRes.ready [Ready.hupOnly]) false Daemon.blockedConsole
      = .ok ({ Daemon.blockedConsole with acts := [Act.warn] }, 1) :=
  (more_input_return_value Cfg.sample false Daemon.blockedConsole).2.2.2.2
    Ready.hupOnly Handler.epoll_write_watchdog 5 rfl rfl

/-- C23, the counterexample. The console on descriptor 5 is registered with the watchdog,
which would take it out of `blocked`.  An interrupted wait returns 1 and calls nothing.  A
wait that returns `EPOLLHUP` alone for that entry returns 1 as well: the event is logged, the
watchdog is not called, the descriptor stays in `blocked`.  With `EPOLLOUT` the watchdog
runs. -/
theorem more_input_true_without_handler :
    ((more_input Cfg.sample PollRes.eintr false Daemon.blockedConsole).toOption.map
        fun r => (r.2, r.1.out.blocked, r.1.acts)) = some (1, [5], []) ∧
    ((more_input Cfg.sample (PollRes.ready [Ready.hupOnly]) false
        Daemon.blockedConsole).toOption.map
        fun r => (r.2, r.1.out.blocked, r.1.acts)) = some (1, [5], [Act.warn]) ∧
    ((more_input Cfg.sample (PollRes.ready [Ready.writable]) false
        Daemon.blockedConsole).toOption.map
        fun r => (r.2, r.1.out.blocked, r.1.acts)) = some (1, [], []) := by
  refine ⟨by decide, by decide, by decide⟩

/-! ## The guard of `ask_for_password` -/

/-- The trimming of the prompt leaves the string exactly for the empty prompt and for the
prompt that is one blank. -/
theorem trimPrompt_eq_none_iff (p : List Nat) :
    trimPrompt p = Option.none ↔ p = [] ∨ p = [32] := by
  cases p with
  | nil => simp [trimPrompt]
  | cons b bs =>
    cases bs with
    | nil =>
      simp only [trimPrompt, List.length_singleton, Nat.sub_self, List.getD_cons_zero]
      by_cases hb : b = 32
      · simp [hb]
      · simp only [hb, if_false, List.cons.injEq, and_true, or_false, reduceCtorEq, false_or,
          iff_false]
        split_ifs <;> simp
    | cons c cs =>
      simp only [trimPrompt]
      have hlen : (b :: c :: cs).length - 1 ≠ 0 := by simp
      simp only [hlen, if_false]
      constructor
      · intro h
        split_ifs at h
      · intro h
        rcases h with h | h
        · cases h
        · simp at h

/-- Where the trimming stays inside the string it cuts off at most two bytes at the end. -/
theorem trimPrompt_prefix (p q : List Nat) (h : trimPrompt p = some q) :
    q <+: p ∧ p.length ≤ q.length + 2 := by
  cases p with
  | nil => simp [trimPrompt] at h
  | cons b bs =>
    simp only [trimPrompt] at h
    split_ifs at h with h1 h2 h3 h4
    all_goals simp only [Option.some.injEq] at h
    all_goals subst h
    · refine ⟨(List.take_prefix _ _).trans (List.take_prefix _ _), ?_⟩
      simp only [List.length_take, List.length_cons]
      omega
    · refine ⟨List.take_prefix _ _, ?_⟩
      simp only [List.length_take, List.length_cons]
      omega
    · refine ⟨List.take_prefix _ _, ?_⟩
      simp only [List.length_take, List.length_cons]
      omega
    · exact ⟨List.prefix_refl _, by omega⟩

/-- C24. The guard at the start of `ask_for_password` is `if (!pwprompt && !*pwprompt) return;`.  It
never returns: with `pwprompt` null it reads `*pwprompt`, and every other prompt, the empty one
included, passes.  For the empty prompt `len--` wraps and `pwprompt[len]` is read before the
string; for the prompt of one blank the second `len--` wraps after the blank was cut
off.  So the function ends in an invalid access exactly for the null
pointer, the empty prompt and the prompt of one blank, and returns for every other prompt,
trimmed by at most two bytes at its end.  The example: a root peer sends ASK_PWD with the
empty string as argument; the deferred answer then runs into the access before the
string. -/
theorem ask_for_password_guard (env : AskEnv) (d : Daemon) :
    (ask_for_password env d = .fault d ↔
      d.pwprompt = Option.none ∨ d.pwprompt = some [] ∨ d.pwprompt = some [32]) ∧
    (∀ p, d.pwprompt = some p → p ≠ [] → p ≠ [32] →
      ∃ d1 q, ask_for_password env d = .ok d1 ∧ d1.asking = 0 ∧ d1.pwprompt = some q ∧
        q <+: p ∧ p.length ≤ q.length + 2) ∧
    (((socket_handler Cfg.sample (SockEnv.sample [42, 2, 1, 0] 0) 7 (Daemon.oneConn [])).bind
        fun d1 => epoll_socket_answer Cfg.sample { left := Option.none } 7 d1).toFault.map
      fun d1 => (d1.pwprompt, d1.acts)) = some (some [], []) := by
  refine ⟨?_, ?_, by decide⟩
  · unfold ask_for_password
    rcases hp : d.pwprompt with _ | p
    · simp
    · simp only [reduceCtorEq, Option.some.injEq, false_or]
      rcases ht : trimPrompt p with _ | q
      · simp only [true_iff]
        exact (trimPrompt_eq_none_iff p).1 ht
      · have hne : ¬ (p = [] ∨ p = [32]) := by
          intro h
          rw [(trimPrompt_eq_none_iff p).2 h] at ht
          cases ht
        simp only [hne, iff_false]
        split_ifs
        · split <;> simp
        · simp
  · intro p hp h1 h2
    have hne : trimPrompt p ≠ Option.none := by
      intro h
      rcases (trimPrompt_eq_none_iff p).1 h with e | e
      · exact h1 e
      · exact h2 e
    rcases ht : trimPrompt p with _ | q
    · exact absurd ht hne
    · obtain ⟨b1, b2⟩ := trimPrompt_prefix p q ht
      unfold ask_for_password
      simp only [hp, ht]
      split_ifs
      · split
        · exact ⟨_, q, rfl, rfl, rfl, b1, b2⟩
        · exact ⟨_, q, rfl, rfl, rfl, b1, b2⟩
      · exact ⟨_, q, rfl, rfl, rfl, b1, b2⟩

/-! ## The magic bytes of a request -/

/-- The `switch` of `socket_handler` does not look at what waits on the connection. -/
theorem dispatch_inp (C : Cfg) (env : SockEnv) (i : Inp) (fd : Int) (rq : Request) (d : Daemon) :
    dispatch C { env with inp := i } fd rq d = dispatch C env fd rq d := rfl

/-- The handler `socket_handler` looks at the connection only while it reads the request. -/
theorem socket_handler_inp (C : Cfg) (env : SockEnv) (i j : Inp) (fd : Int) (d : Daemon)
    (h : readRequest { env with inp := i } d = readRequest { env with inp := j } d) :
    socket_handler C { env with inp := i } fd d = socket_handler C { env with inp := j } fd d := by
  unfold socket_handler
  rw [h]
  simp only [dispatch_inp]

/-- C25. After `ret = safein(fd, &magic[0], sizeof(magic))` the handler tests `ret < 0` only.  When
nothing can be read the call returns 0 and leaves `magic` as it was; with one byte it
returns 1 and leaves `magic[1]` as it was.  The handler then goes on as if the bytes that
happen to be in `magic` had been received: its result is the one of a call that receives
them.  The examples, for a root peer on descriptor 7: with nothing to read and `Q` (81, QUIT)
in `magic[0]` the daemon answers ACK and sets `signaled` to `SIGTERM`; with the one byte `Q`
received, 2 in `magic[1]` and 3 in `alen`, an argument of 3 bytes is taken up; with nothing to
read and the bytes 42 (ASK_PWD) and 2 in `magic` the connection is registered for a password
answer and stays open. -/
theorem socket_handler_short_magic (C : Cfg) (env : SockEnv) (fd : Int) (d : Daemon) (b : Nat) :
    socket_handler C { env with inp := { avail := [], err := Option.none } } fd d
      = socket_handler C
          { env with inp := { avail := [env.magic0, env.magic1], err := Option.none } } fd d ∧
    socket_handler C { env with inp := { avail := [b], err := Option.none } } fd d
      = socket_handler C
          { env with inp := { avail := [b, env.magic1], err := Option.none } } fd d ∧
    ((socket_handler Cfg.sample (SockEnv.stale [] 81 0 0) 7 (Daemon.oneConn [.ok 2])).toOption.map
      fun d1 => (sentOn 7 d1.out.sent, d1.out.signaled, d1.acts))
      = some (ANSWER_ACK ++ [0], SIGTERM, [Act.close 7]) ∧
    readRequest (SockEnv.stale [81] 0 2 3) (Daemon.oneConn [])
      = some (some { magic := 81, arg := some [0, 0, 0] }) ∧
    ((socket_handler Cfg.sample (SockEnv.stale [] 42 2 3) 7 (Daemon.oneConn [])).toOption.map
      fun d1 => (d1.lpolls.map fun w => (w.fd, w.handle), d1.pwprompt, d1.acts))
      = some ([(7, Handler.epoll_socket_answer), (7, Handler.socket_handler)], some [], []) := by
  refine ⟨?_, ?_, by decide, by decide, by decide⟩
  · apply socket_handler_inp
    simp [readRequest, safein, store]
  · apply socket_handler_inp
    simp [readRequest, safein, store]

end Showconsole
